import Mathlib

/-!
Verification development for the SUV plant simulator core
(planning, replenishment and simulation services).

The Python services are shallowly embedded:

* SQLModel rows become Lean structures; the database session becomes an
  explicit record of lists, one per table.
* Python dicts become association lists over String keys, with the
  dict get-with-default and insert-or-update operations made explicit.
* Python ints are Int; Python floats are modelled as exact rationals.
* Python round (banker style, half to even) and int() truncation are
  modelled explicitly.
* Dates are integer day numbers; timestamps are rational day numbers.
-/

namespace SuvPlant

/-- Python dict .get(key, default) over an association list. -/
def dget {α : Type} : List (String × α) → String → α → α
  | [], _, d => d
  | (k1, v) :: t, k, d => if k1 = k then v else dget t k d

/-- Python dict assignment d[key] = v over an association list:
update in place if the key is present, else append. -/
def dset {α : Type} : List (String × α) → String → α → List (String × α)
  | [], k, v => [(k, v)]
  | (k1, v1) :: t, k, v =>
      if k1 = k then (k, v) :: t else (k1, v1) :: dset t k v

/-- Keys of an association list. -/
def dkeys {α : Type} (l : List (String × α)) : List String := l.map (fun p => p.1)

/-- Python round() on an exact rational: round half to even. -/
def pyRound (q : ℚ) : ℤ :=
  if q - (⌊q⌋ : ℚ) < 1/2 then ⌊q⌋
  else if 1/2 < q - (⌊q⌋ : ℚ) then ⌊q⌋ + 1
  else if 2 ∣ ⌊q⌋ then ⌊q⌋ else ⌊q⌋ + 1

/-- Python int() on an exact rational: truncation toward zero. -/
def pyInt (q : ℚ) : ℤ := if q < 0 then ⌈q⌉ else ⌊q⌋

/-- A production line (models.master.Line); only the fields the planning
core reads are kept. -/
structure Line where
  line_id : String
  product_id : String
  daily_capacity : ℤ
  oee_pct : ℚ
deriving Repr, DecidableEq

/-- A manufacturing order (models.master.Order).  The SQLModel schema
declares the two dates non nullable, but the planner defensively applies
defaults, so they are embedded as Option. -/
structure Order where
  order_id : String
  product_id : String
  quantity : ℤ
  start_date : Option ℤ
  dispatch_date : Option ℤ
  status : String
  priority : ℤ
  is_spike : Bool
deriving Repr, DecidableEq

/-- A bill-of-materials row (models.master.BOMItem). -/
structure BOMItem where
  product_id : String
  material_id : String
  quantity_per_unit : ℤ
deriving Repr, DecidableEq

/-- A material stock row (models.supply.InventoryItem). -/
structure InventoryItem where
  material_id : String
  supplier_id : String
  current_stock : ℤ
deriving Repr, DecidableEq

/-- A supplier row (models.supply.Supplier). -/
structure Supplier where
  supplier_id : String
  supplier_name : String
  lead_time_days : ℤ
deriving Repr, DecidableEq

/-- A planning run (models.planning.PlanRun). -/
structure PlanRun where
  run_id : String
  scenario : String
  created_at : ℤ
deriving Repr, DecidableEq

/-- A per-order plan container (models.planning.ProductPlan). -/
structure ProductPlan where
  plan_id : String
  run_id : String
  plan_date : ℤ
  status : String
deriving Repr, DecidableEq

/-- A scheduled (line, qty, window) segment (models.planning.PlanItem). -/
structure PlanItem where
  item_id : ℤ
  plan_id : String
  line_id : String
  product_id : String
  planned_qty : ℤ
  start_ts : ℚ
  end_ts : ℚ
deriving Repr, DecidableEq

/-- A link row telling how much of an order went to which plan item
(models.planning.OrderAllocation). -/
structure OrderAllocation where
  run_id : String
  plan_id : String
  order_id : String
  line_id : String
  product_id : String
  allocated_qty : ℤ
  plan_item_id : ℤ
deriving Repr, DecidableEq

/-- A replenishment order (models.supply.PurchaseOrder). -/
structure PurchaseOrder where
  po_id : String
  material_id : String
  supplier_id : String
  quantity : ℤ
  order_date : ℤ
  eta_date : ℤ
  status : String
deriving Repr, DecidableEq

/-- A logged typed event (services.event_logger.log_event). -/
structure Event where
  event_type : String
  description : String
deriving Repr, DecidableEq

/-- Stochastic production parameters of a line within a run
(models.simulation.LineShiftProfile); only the identifying fields and the
base rate are relevant to the embedded claims. -/
structure LineShiftProfile where
  run_id : String
  line_id : String
  product_id : String
  base_rate_units_per_hour : ℚ
deriving Repr, DecidableEq

/-- The database state visible to the embedded services. -/
structure DB where
  orders : List Order
  lines : List Line
  bom : List BOMItem
  inventory : List InventoryItem
  suppliers : List Supplier
  runs : List PlanRun
  plans : List ProductPlan
  items : List PlanItem
  allocations : List OrderAllocation
  pos : List PurchaseOrder
  lsps : List LineShiftProfile
  events : List Event
  next_item_id : ℤ
deriving Repr, DecidableEq

/-- Append a typed event (services.event_logger.log_event). -/
def log_event (db : DB) (ty msg : String) : DB :=
  { db with events := db.events ++ [⟨ty, msg⟩] }

/-- Deterministic ProductPlan key: PLAN-run-order (planning.py line 341). -/
def planIdOf (run_id order_id : String) : String :=
  "PLAN-" ++ run_id ++ "-" ++ order_id

/-- Stable insertion into a list ordered by the boolean relation le, where
le a b means a may come before b; ties keep the inserted element first,
matching the stability of the Python sorts. -/
def insertLE {α : Type} (le : α → α → Bool) (a : α) : List α → List α
  | [] => [a]
  | b :: t => if le a b then a :: b :: t else b :: insertLE le a t

/-- Stable insertion sort (same output as the stable Python sorted). -/
def isortLE {α : Type} (le : α → α → Bool) : List α → List α
  | [] => []
  | h :: t => insertLE le h (isortLE le t)

/-- An occupancy entry: (start_ts, end_ts, plan_item_id). -/
abbrev OccEntry := ℚ × ℚ × ℤ

/-- Comparison used to sort occupancy entries by start time. -/
def occLE (a b : OccEntry) : Bool := decide (a.1 ≤ b.1)

/-- planning.get_or_create_plan_run: latest BASELINE run, if any.  The
Python query orders by created_at descending and takes the first row; the
embedding keeps the first row among those of maximal created_at. -/
def latest_baseline_run (runs : List PlanRun) : Option PlanRun :=
  (runs.filter (fun r => decide (r.scenario = "BASELINE"))).foldl
    (fun acc r =>
      match acc with
      | none => some r
      | some b => if b.created_at < r.created_at then some r else some b)
    none

/-- planning.get_or_create_plan_run; the fresh run id is derived from the
invocation timestamp now.  Returns (run, is_new). -/
def get_or_create_plan_run (runs : List PlanRun) (now : ℤ) : PlanRun × Bool :=
  match latest_baseline_run runs with
  | some r => (r, false)
  | none => (⟨"RUN-" ++ toString now, "BASELINE", now⟩, true)

/-- planning.get_line_occupancy: plan items of the run grouped per line
(in encounter order) and sorted by start time. -/
def get_line_occupancy (db : DB) (run_id : String) : List (String × List OccEntry) :=
  let run_items := db.items.filter (fun it =>
    db.plans.any (fun p => decide (p.plan_id = it.plan_id) && decide (p.run_id = run_id)))
  let grouped := run_items.foldl (fun acc it =>
    dset acc it.line_id (dget acc it.line_id [] ++ [(it.start_ts, it.end_ts, it.item_id)])) []
  grouped.map (fun p => (p.1, isortLE occLE p.2))

/-- Latest end time among occupancy entries (max over a nonempty list;
0 is returned for the empty list, which the caller never passes). -/
def latestEnd : List OccEntry → ℚ
  | [] => 0
  | h :: t => t.foldl (fun m e => max m e.2.1) h.2.1

/-- planning.get_line_available_start: desired start if the line is free
or the desired start is at or after every booked end; otherwise the
latest booked end time. -/
def get_line_available_start (line_occ : List OccEntry) (desired : ℚ) : ℚ :=
  if line_occ.isEmpty then desired
  else
    let latest := latestEnd line_occ
    if latest ≤ desired then desired else latest

/-- Sum of allocated quantities of one order in one run. -/
def allocSum (allocs : List OrderAllocation) (run_id order_id : String) : ℤ :=
  (allocs.filter (fun a => decide (a.run_id = run_id ∧ a.order_id = order_id))).foldl
    (fun s a => s + a.allocated_qty) 0

/-- planning.get_already_allocated_orders, specialised to a membership
test: an order id is fully allocated when it has at least one allocation
row in the run and the summed quantity reaches the order quantity. -/
def isFullyAllocated (db : DB) (run_id oid : String) : Bool :=
  let rows := db.allocations.filter (fun a => decide (a.run_id = run_id ∧ a.order_id = oid))
  if rows.isEmpty then false
  else
    match db.orders.find? (fun o => decide (o.order_id = oid)) with
    | some o => decide (o.quantity ≤ allocSum db.allocations run_id oid)
    | none => false

/-- One order being put on hold inside planning.handle_spike_preemption:
its allocations in the run and their linked plan items are deleted, its
run-keyed ProductPlan is deleted, its status becomes ON_HOLD and an
ORDER_PREEMPTED event is appended. -/
def holdOrder (run_id : String) (db : DB) (o : Order) : DB :=
  let allocs := db.allocations.filter (fun a =>
    decide (a.run_id = run_id ∧ a.order_id = o.order_id))
  let item_ids := allocs.map (fun a => a.plan_item_id)
  let pid := planIdOf run_id o.order_id
  { db with
    items := db.items.filter (fun it => decide (it.item_id ∉ item_ids)),
    allocations := db.allocations.filter (fun a =>
      decide (¬ (a.run_id = run_id ∧ a.order_id = o.order_id))),
    plans := db.plans.filter (fun p => decide (p.plan_id ≠ pid)),
    orders := db.orders.map (fun x =>
      if x.order_id = o.order_id then { x with status := "ON_HOLD" } else x),
    events := db.events ++
      [⟨"ORDER_PREEMPTED", "Order " ++ o.order_id ++ " put ON_HOLD due to spike order " ++ "" ++ ""⟩] }

/-- planning.handle_spike_preemption.  The Python function also returns
the recomputed line occupancy; the caller recomputes it from the result,
so the embedding returns the database only. -/
def handle_spike_preemption (db : DB) (run_id : String) (spike : Order) : DB :=
  let competing := db.orders.filter (fun o =>
    decide (o.product_id = spike.product_id) && (! o.is_spike) &&
      (decide (o.status = "OPEN") || decide (o.status = "ON_HOLD")))
  let orders_to_hold := competing.filter (fun o => decide (o.order_id ≠ spike.order_id))
  if orders_to_hold.isEmpty then db
  else orders_to_hold.foldl (holdOrder run_id) db

/-- planning.resume_held_orders_for_product. -/
def resume_held_orders_for_product (db : DB) (product_id : String) : DB :=
  { db with orders := db.orders.map (fun o =>
      if o.product_id = product_id ∧ o.status = "ON_HOLD" ∧ o.is_spike = false
      then { o with status := "OPEN" } else o) }

/-- Effective capacity units of a line over a horizon:
daily_capacity times OEE times horizon days. -/
def effCap (ln : Line) (horizon_days : ℤ) : ℚ :=
  (ln.daily_capacity : ℚ) * ln.oee_pct * (horizon_days : ℚ)

/-- One line of step 10.3: skip lines without positive capacity units,
otherwise record the capacity and add it to the total. -/
def blc_step (horizon_days : ℤ) (acc : List (String × ℚ) × ℚ) (ln : Line) :
    List (String × ℚ) × ℚ :=
  if effCap ln horizon_days ≤ 0 then acc
  else (acc.1 ++ [(ln.line_id, effCap ln horizon_days)], acc.2 + effCap ln horizon_days)

/-- Step 10.3 of planning.plan_all_open_orders: the per-line capacity
dict (lines whose capacity units are not positive are skipped) and the
total capacity units. -/
def buildLineCapacity (order_lines : List Line) (horizon_days : ℤ) :
    List (String × ℚ) × ℚ :=
  order_lines.foldl (blc_step horizon_days) ([], 0)

/-- planning.plan_all_open_orders, max_units_from_inventory: the
inventory-derived unit limit for a product given the stock snapshot and
the planned-usage shadow ledger; 10^9 stands for "no constraint". -/
def max_units_from_inventory (bom_list : List BOMItem)
    (stock usage : List (String × ℤ)) : ℤ :=
  if bom_list.isEmpty then 10 ^ 9
  else
    bom_list.foldl
      (fun mu b =>
        if b.quantity_per_unit ≤ 0 then mu
        else min mu (max 0 (Int.fdiv
          (dget stock b.material_id 0 - dget usage b.material_id 0)
          b.quantity_per_unit)))
      (10 ^ 9)

/-- planning.plan_all_open_orders, consume_inventory: advance the
planned-usage shadow ledger by units of the BOM of a product. -/
def consume_inventory (bom_list : List BOMItem) (usage : List (String × ℤ))
    (units : ℤ) : List (String × ℤ) :=
  bom_list.foldl
    (fun u b => dset u b.material_id (dget u b.material_id 0 + units * b.quantity_per_unit))
    usage

/-- Step 10.6 main loop: proportional split of target across the lines,
each line quantity rounded and clamped to the remaining unallocated
amount.  Returns the allocation dict and the remaining amount. -/
def dm_step (line_capacity : List (String × ℚ)) (total : ℚ) (target : ℤ)
    (acc : List (String × ℤ) × ℤ) (ln : Line) : List (String × ℤ) × ℤ :=
  if dget line_capacity ln.line_id 0 ≤ 0 ∨ acc.2 ≤ 0 then acc
  else
    (dset acc.1 ln.line_id (dget acc.1 ln.line_id 0 +
        max 0 (min (pyRound ((target : ℚ) * (dget line_capacity ln.line_id 0 / total))) acc.2)),
     acc.2 - max 0 (min (pyRound ((target : ℚ) * (dget line_capacity ln.line_id 0 / total))) acc.2))

def distributeMain (order_lines : List Line) (line_capacity : List (String × ℚ))
    (total : ℚ) (target : ℤ) : List (String × ℤ) × ℤ :=
  order_lines.foldl (dm_step line_capacity total target) ([], target)

/-- Step 10.6 rounding fixup: one extra unit at a time to lines ordered
by capacity descending, until the remainder is exhausted.  The top-up is
not capped by the per-line capacity. -/
def fx_step (acc : List (String × ℤ) × ℤ) (ln : Line) : List (String × ℤ) × ℤ :=
  if acc.2 ≤ 0 then acc
  else (dset acc.1 ln.line_id (dget acc.1 ln.line_id 0 + 1), acc.2 - 1)

def fixupRemainder (sorted_lines : List Line) (st : List (String × ℤ) × ℤ) :
    List (String × ℤ) × ℤ :=
  sorted_lines.foldl fx_step st

/-- Comparison giving the stable descending-by-capacity order of the
Python sorted(..., reverse=True) call in step 10.6. -/
def capDescLE (line_capacity : List (String × ℚ)) (a b : Line) : Bool :=
  decide (dget line_capacity b.line_id 0 ≤ dget line_capacity a.line_id 0)

/-- Sort key order of step 9: (priority, dispatch_date, start_date)
ascending, stable.  The SQLModel schema declares the dates non null;
absent dates are compared through day 0. -/
def orderLE (a b : Order) : Bool :=
  decide (a.priority < b.priority) ||
    (decide (a.priority = b.priority) &&
      (decide (a.dispatch_date.getD 0 < b.dispatch_date.getD 0) ||
        (decide (a.dispatch_date.getD 0 = b.dispatch_date.getD 0) &&
          decide (a.start_date.getD 0 ≤ b.start_date.getD 0))))

/-- Planning-pass snapshot: date of the pass, default horizon, lines,
BOM and the stock snapshot taken at step 4. -/
structure PlanCtx where
  today : ℤ
  horizon_days_default : ℤ
  lines : List Line
  bom : List BOMItem
  stock : List (String × ℤ)

/-- State threaded through the per-order loop of step 10: the database,
the planned-usage shadow ledger and the in-memory line occupancy. -/
structure LoopState where
  db : DB
  usage : List (String × ℤ)
  occ : List (String × List OccEntry)

/-- State of the creation loop of step 10.7. -/
structure CreateState where
  db : DB
  usage : List (String × ℤ)
  occ : List (String × List OccEntry)
  allocated_total : ℤ

/-- Step 10.7 body for one line: reserve inventory, compute the window
from the line occupancy, create the PlanItem and OrderAllocation pair
and register the new interval. -/
def createOne (o : Order) (plan_id run_id : String) (horizon_start : ℤ)
    (allocations : List (String × ℤ)) (bom_list : List BOMItem)
    (cs : CreateState) (ln : Line) : CreateState :=
  let alloc := dget allocations ln.line_id 0
  if alloc ≤ 0 then cs
  else
    let usage1 := consume_inventory bom_list cs.usage alloc
    let eff : ℚ := (ln.daily_capacity : ℚ) * ln.oee_pct
    let duration : ℚ := if 0 < eff then (alloc : ℚ) / eff else 0
    let base_start : ℚ := (horizon_start : ℚ)
    let line_occ := dget cs.occ ln.line_id []
    let start_ts := get_line_available_start line_occ base_start
    let end_ts := start_ts + duration
    let item : PlanItem :=
      ⟨cs.db.next_item_id, plan_id, ln.line_id, o.product_id, alloc, start_ts, end_ts⟩
    let oa : OrderAllocation :=
      ⟨run_id, plan_id, o.order_id, ln.line_id, o.product_id, alloc, item.item_id⟩
    { db := { cs.db with
        items := cs.db.items ++ [item],
        allocations := cs.db.allocations ++ [oa],
        next_item_id := cs.db.next_item_id + 1 },
      usage := usage1,
      occ := dset cs.occ ln.line_id (line_occ ++ [(start_ts, end_ts, item.item_id)]),
      allocated_total := cs.allocated_total + alloc }

/-- Step 10 body for one order: the capacity-inventory allocator.  A
ProductPlan is created before the capacity and inventory checks, exactly
as in the source; shortfalls log typed events and leave the order
unallocated (never an exception). -/
def processOrder (ctx : PlanCtx) (run_id : String) (st : LoopState) (o : Order) :
    LoopState :=
  let order_lines := ctx.lines.filter (fun l => decide (l.product_id = o.product_id))
  if order_lines.isEmpty then
    { st with db := (log_event st.db "NO_LINE_FOR_PRODUCT"
        ("No lines found for product " ++ o.product_id)) }
  else
    let plan_id := planIdOf run_id o.order_id
    if st.db.plans.any (fun p => decide (p.plan_id = plan_id)) then st
    else
      let db1 := { st.db with plans := st.db.plans ++ [⟨plan_id, run_id, ctx.today, "PLANNED"⟩] }
      let horizon_start := o.start_date.getD ctx.today
      let horizon_end := o.dispatch_date.getD (ctx.today + ctx.horizon_days_default)
      let horizon_days := max 1 (horizon_end - horizon_start)
      let bc := buildLineCapacity order_lines horizon_days
      if bc.2 ≤ 0 then
        { st with db := (log_event db1 "CAPACITY_SHORTFALL"
            ("Order " ++ o.order_id ++ " has no line capacity in horizon")) }
      else
        let bom_list := ctx.bom.filter (fun b => decide (b.product_id = o.product_id))
        let inv_limit := max_units_from_inventory bom_list ctx.stock st.usage
        if inv_limit ≤ 0 then
          { st with db := (log_event db1 "INVENTORY_SHORTFALL"
              ("No inventory to plan product " ++ o.product_id)) }
        else
          let target := min (min o.quantity (pyInt bc.2)) inv_limit
          if target ≤ 0 then
            { st with db := (log_event db1 "CAPACITY_SHORTFALL"
                ("Order " ++ o.order_id ++ " capacity and inventory allow 0 units")) }
          else
            let db2 := if pyInt bc.2 < o.quantity then
                log_event db1 "CAPACITY_SHORTFALL"
                  ("Order " ++ o.order_id ++ " capacity limited") else db1
            let db3 := if inv_limit < o.quantity then
                log_event db2 "INVENTORY_SHORTFALL"
                  ("Order " ++ o.order_id ++ " inventory limited") else db2
            let dm := distributeMain order_lines bc.1 bc.2 target
            let af := if 0 < dm.2 then
                fixupRemainder (isortLE (capDescLE bc.1) order_lines) dm else dm
            let cs := order_lines.foldl
              (createOne o plan_id run_id horizon_start af.1 bom_list)
              ⟨db3, st.usage, st.occ, 0⟩
            let db4 := if cs.allocated_total < o.quantity then
                log_event cs.db "CAPACITY_SHORTFALL"
                  ("Order " ++ o.order_id ++ " planned short of requested") else cs.db
            ⟨db4, cs.usage, cs.occ⟩

/-- planning.plan_all_open_orders.  now is the wall-clock timestamp used
to mint a fresh run id, today the current date. -/
def plan_all_open_orders (db0 : DB) (now today horizon_days_default : ℤ) :
    DB × String :=
  let rc := get_or_create_plan_run db0.runs now
  let run_id := rc.1.run_id
  let dba := if rc.2 then { db0 with runs := db0.runs ++ [rc.1] } else db0
  let stock := dba.inventory.foldl (fun acc i => dset acc i.material_id i.current_stock) []
  let dbb := if rc.2 then
      { dba with lsps := dba.lsps ++ dba.lines.map (fun l =>
          ⟨run_id, l.line_id, l.product_id, (l.daily_capacity : ℚ) / 8⟩) }
    else dba
  let occ0 := get_line_occupancy dbb run_id
  let open_orders := dbb.orders.filter (fun o => decide (o.status = "OPEN"))
  if open_orders.isEmpty then (dbb, run_id)
  else
    let orders1 := open_orders.filter (fun o => ! isFullyAllocated dbb run_id o.order_id)
    if orders1.isEmpty then (dbb, run_id)
    else
      let spikes := orders1.filter (fun o => o.is_spike)
      let regulars := orders1.filter (fun o => ! o.is_spike)
      let dbp := spikes.foldl (fun d s => handle_spike_preemption d run_id s) dbb
      let occ := if spikes.isEmpty then occ0 else get_line_occupancy dbp run_id
      let orders_to_plan := isortLE orderLE (spikes ++ regulars)
      let ctx : PlanCtx := ⟨today, horizon_days_default, dbb.lines, dbb.bom, stock⟩
      let fin := orders_to_plan.foldl (processOrder ctx run_id) ⟨dbp, [], occ⟩
      (fin.db, run_id)

/-- True of a purchase order that purchase_order.update_purchase_orders
will deliver on the given day: not yet DELIVERED and eta reached. -/
def isOpenDue (today : ℤ) (po : PurchaseOrder) : Bool :=
  decide (po.status ≠ "DELIVERED" ∧ po.eta_date ≤ today)

/-- The new state of a purchase order row after the delivery sweep. -/
def deliverPO (today : ℤ) (po : PurchaseOrder) : PurchaseOrder :=
  if po.status ≠ "DELIVERED" ∧ po.eta_date ≤ today
  then { po with status := "DELIVERED" } else po

/-- One step of the delivery sweep over the purchase order table. -/
def upo_step (today : ℤ)
    (acc : List PurchaseOrder × List (String × ℤ) × List Event)
    (po : PurchaseOrder) : List PurchaseOrder × List (String × ℤ) × List Event :=
  if po.status ≠ "DELIVERED" ∧ po.eta_date ≤ today then
    (acc.1 ++ [{ po with status := "DELIVERED" }],
     dset acc.2.1 po.material_id (dget acc.2.1 po.material_id 0 + po.quantity),
     acc.2.2 ++ [⟨"PO_DELIVERED", po.po_id ++ " delivered for " ++ po.material_id⟩])
  else (acc.1 ++ [po], acc.2.1, acc.2.2)

/-- purchase_order.update_purchase_orders: every purchase order that is
not DELIVERED and whose eta has been reached is delivered, adding its
quantity to the in-memory ledger for its material; delivered rows are
filtered out up front and are never touched again. -/
def update_purchase_orders (today : ℤ) (pos : List PurchaseOrder)
    (ledger : List (String × ℤ)) (events : List Event) :
    List PurchaseOrder × List (String × ℤ) × List Event :=
  pos.foldl (upo_step today) ([], ledger, events)

/-- Credit the ledger with the quantity of each listed purchase order. -/
def creditAll (led : List (String × ℤ)) (ps : List PurchaseOrder) :
    List (String × ℤ) :=
  ps.foldl (fun l po => dset l po.material_id (dget l po.material_id 0 + po.quantity)) led

/-- purchase_order.check_and_place_purchase_orders, step 1: total order
quantity per product (dict in first-occurrence order). -/
def qty_by_product (orders : List Order) : List (String × ℤ) :=
  orders.foldl (fun acc o => dset acc o.product_id (dget acc o.product_id 0 + o.quantity)) []

/-- BOM rows of one product, in table order (the grouped dict built by
inventory.init_simulation_state). -/
def bom_by_product_of (bom : List BOMItem) (p : String) : List BOMItem :=
  bom.filter (fun b => decide (b.product_id = p))

/-- purchase_order.check_and_place_purchase_orders, step 2: required
units per material across all orders via the BOM. -/
def required_by_material (qbp : List (String × ℤ)) (bom : List BOMItem) :
    List (String × ℤ) :=
  qbp.foldl
    (fun acc pq =>
      (bom_by_product_of bom pq.1).foldl
        (fun a b => dset a b.material_id (dget a b.material_id 0 + b.quantity_per_unit * pq.2))
        acc)
    []

/-- One material of the sweep of
purchase_order.check_and_place_purchase_orders: skip materials without a
master row or supplier (logging SUPPLIER_MISSING), skip covered
materials and materials with an open PO, otherwise place one PO of the
remaining requirement. -/
def capo_step (inv : List InventoryItem) (suppliers : List Supplier)
    (inv_state initial_by_mat : List (String × ℤ)) (today : ℤ)
    (acc : List PurchaseOrder × List Event) (mr : String × ℤ) :
    List PurchaseOrder × List Event :=
  match inv.find? (fun i => decide (i.material_id = mr.1)) with
  | none =>
      (acc.1, acc.2 ++
        [⟨"SUPPLIER_MISSING", "No inventory master row for material " ++ mr.1⟩])
  | some invrow =>
    if max 0 (mr.2 - dget inv_state mr.1 (dget initial_by_mat mr.1 invrow.current_stock))
        ≤ 0 then acc
    else if acc.1.any (fun po =>
        decide (po.material_id = mr.1) && decide (po.status ≠ "DELIVERED")) then acc
    else
      match suppliers.find? (fun s => decide (s.supplier_id = invrow.supplier_id)) with
      | none =>
          (acc.1, acc.2 ++
            [⟨"SUPPLIER_MISSING", "No supplier found for material " ++ mr.1⟩])
      | some sup =>
          (acc.1 ++
            [⟨"PO-" ++ mr.1 ++ "-" ++ toString today, mr.1, sup.supplier_id,
              max 0 (mr.2 - dget inv_state mr.1
                (dget initial_by_mat mr.1 invrow.current_stock)),
              today, today + sup.lead_time_days, "PLACED"⟩],
           acc.2 ++ [⟨"PO_CREATED", "Placed PO for " ++ mr.1⟩])

/-- The decision the sweep takes for one material, given only the
purchase orders of that material accumulated so far: the PO row it
creates, if any. -/
def capoNewPO (inv : List InventoryItem) (suppliers : List Supplier)
    (inv_state initial_by_mat : List (String × ℤ)) (today : ℤ)
    (pos_mid : List PurchaseOrder) (mid : String) (required : ℤ) :
    Option PurchaseOrder :=
  match inv.find? (fun i => decide (i.material_id = mid)) with
  | none => none
  | some invrow =>
    if max 0 (required - dget inv_state mid (dget initial_by_mat mid invrow.current_stock))
        ≤ 0 then none
    else if pos_mid.any (fun po => decide (po.status ≠ "DELIVERED")) then none
    else
      match suppliers.find? (fun s => decide (s.supplier_id = invrow.supplier_id)) with
      | none => none
      | some sup =>
          some ⟨"PO-" ++ mid ++ "-" ++ toString today, mid, sup.supplier_id,
            max 0 (required - dget inv_state mid
              (dget initial_by_mat mid invrow.current_stock)),
            today, today + sup.lead_time_days, "PLACED"⟩

/-- purchase_order.check_and_place_purchase_orders: place one PO per
material with positive remaining requirement and no open PO; materials
without an inventory master row or without a resolvable supplier log a
SUPPLIER_MISSING event and are skipped.  The existing-PO query sees the
rows added earlier in the same sweep, as the autoflushing session does. -/
def check_and_place_purchase_orders
    (orders : List Order) (bom : List BOMItem) (inv : List InventoryItem)
    (suppliers : List Supplier) (inv_state initial_by_mat : List (String × ℤ))
    (pos0 : List PurchaseOrder) (events0 : List Event) (today : ℤ) :
    List PurchaseOrder × List Event :=
  if orders.isEmpty then (pos0, events0)
  else
    if (qty_by_product orders).isEmpty then (pos0, events0)
    else
      if (required_by_material (qty_by_product orders) bom).isEmpty then (pos0, events0)
      else
        (required_by_material (qty_by_product orders) bom).foldl
          (capo_step inv suppliers inv_state initial_by_mat today) (pos0, events0)

/-- simulation.step_simulation_once lines 250-255: one produced unit
consumes one BOM quantity of each required material from the in-memory
ledger, floored at zero. -/
def consume_bom_once (ledger : List (String × ℤ)) (bom_list : List BOMItem) :
    List (String × ℤ) :=
  bom_list.foldl
    (fun l b => dset l b.material_id (max 0 (dget l b.material_id 0 - b.quantity_per_unit)))
    ledger

/-- simulation.step_simulation_once: consumption for delta integer units
(the loop for each unit in range(delta_units)). -/
def consume_for_units (ledger : List (String × ℤ)) (bom_list : List BOMItem) :
    ℕ → List (String × ℤ)
  | 0 => ledger
  | n + 1 => consume_for_units (consume_bom_once ledger bom_list) bom_list n

/-- simulation.step_simulation_once line 244-246: integer units newly
completed on a line this tick, from the old integer counter and the new
continuous counter. -/
def tick_delta_units (old_int : ℤ) (new_counter : ℚ) : ℤ :=
  max 0 (pyInt new_counter - old_int)

/-- The inventory effect of one simulation tick: each line in turn
consumes for its delta units against the BOM of its product. -/
def tick_consume (lines_data : List (List BOMItem × ℕ))
    (ledger : List (String × ℤ)) : List (String × ℤ) :=
  lines_data.foldl (fun led p => consume_for_units led p.1 p.2) ledger

/-- Remove every entry with the given key from an association list. -/
def dremove {α : Type} (l : List (String × α)) (k : String) : List (String × α) :=
  l.filter (fun p => decide (p.1 ≠ k))

/-- Spec formula (section 4.2): the order-specific horizon in days,
max(1 day, dispatch minus start), start defaulting to today when unset.
Stated for orders whose dispatch date is set. -/
def specHorizonDays (today : ℤ) (o : Order) (d : ℤ) : ℤ :=
  max 1 (d - o.start_date.getD today)

/-- Spec formula (section 4.2): total capacity units, the sum over the
candidate lines of dailyCapacity times OEE times horizon days. -/
def specTotalCapacityUnits (order_lines : List Line) (horizon_days : ℤ) : ℚ :=
  (order_lines.map (fun ln => effCap ln horizon_days)).sum

/-- Spec formula (section 4.2): units affordable for one BOM entry,
floor((stock minus planned usage) / qtyPerUnit). -/
def specUnitsForMaterial (stock usage : List (String × ℤ)) (b : BOMItem) : ℤ :=
  Int.fdiv (dget stock b.material_id 0 - dget usage b.material_id 0) b.quantity_per_unit

/-- Spec formula (section 4.2): the inventory-derived unit limit, the
minimum over BOM entries; none means unbounded (product without BOM). -/
def specInvLimit (bom_list : List BOMItem) (stock usage : List (String × ℤ)) :
    Option ℤ :=
  match (bom_list.map (specUnitsForMaterial stock usage)) with
  | [] => none
  | h :: t => some (t.foldl min h)

/-- Spec formula (section 4.2): targetQty, the minimum of the order
quantity, the floored total capacity units and the inventory limit. -/
def specTargetQty (o : Order) (order_lines : List Line) (horizon_days : ℤ)
    (bom_list : List BOMItem) (stock usage : List (String × ℤ)) : ℤ :=
  match specInvLimit bom_list stock usage with
  | none => min o.quantity ⌊specTotalCapacityUnits order_lines horizon_days⌋
  | some i => min (min o.quantity ⌊specTotalCapacityUnits order_lines horizon_days⌋) i

/-- Purchase orders of one material. -/
def matFilter (m : String) : PurchaseOrder → Bool :=
  fun po => decide (po.material_id = m)

/-- Total quantity of a list of purchase orders. -/
def qtySum (ps : List PurchaseOrder) : ℤ := (ps.map (fun po => po.quantity)).sum

/-- True of a purchase order that is open and due at one of two days. -/
def openDueEither (today today2 : ℤ) : PurchaseOrder → Bool :=
  fun po => decide (po.status ≠ "DELIVERED") &&
    (decide (po.eta_date ≤ today) || decide (po.eta_date ≤ today2))

/-- Two identical candidate lines for the C3 scenario: daily capacity 5,
OEE 0.5, so capacity units 5/2 per line over a one-day horizon. -/
def c3LineA : Line := ⟨"L1", "P-HE", 5, 1/2⟩

def c3LineB : Line := ⟨"L2", "P-HE", 5, 1/2⟩

/-- An open order for 5 units of the product, one-day horizon. -/
def c3Order : Order := ⟨"O1", "P-HE", 5, some 0, some 1, "OPEN", 5, false⟩

/-- The C3 scenario database: one order, two lines, no BOM, no stock
constraint, empty plan state. -/
def c3DB : DB :=
  ⟨[c3Order], [c3LineA, c3LineB], [], [], [], [], [], [], [], [], [], [], 0⟩

/-- A single candidate line with capacity units 1 over a one-day
horizon, used to witness the distribution lemma. -/
def c10Line : Line := ⟨"L1", "P-HE", 1, 1⟩

/-- The empty database. -/
def emptyDB : DB := ⟨[], [], [], [], [], [], [], [], [], [], [], [], 0⟩

/-- Witness context for the allocator target formula: one line of
daily capacity 5 at OEE 1, no BOM, planning date 0. -/
def c2Ctx : PlanCtx := ⟨0, 9, [⟨"L1", "P-HE", 5, 1⟩], [], []⟩

/-- Witness order for the allocator target formula. -/
def c2Order : Order := ⟨"O1", "P-HE", 5, some 0, some 1, "OPEN", 5, false⟩

/-- Witness loop state: empty database, nothing reserved, no occupancy. -/
def c2St : LoopState := ⟨emptyDB, [], []⟩

/-- Allocation rows of one order in one run (Boolean test). -/
def allocB (rid oid : String) : OrderAllocation → Bool :=
  fun a => decide (a.run_id = rid ∧ a.order_id = oid)

/-- Allocation rows of the run belonging to one of the listed orders. -/
def allocInB (rid : String) (oids : List String) : OrderAllocation → Bool :=
  fun a => decide (a.run_id = rid) && decide (a.order_id ∈ oids)

/-- Plan-item ids referenced by the run allocations of the listed orders. -/
def refIds (db : DB) (rid : String) (oids : List String) : List ℤ :=
  (db.allocations.filter (allocInB rid oids)).map (fun a => a.plan_item_id)

/-- Plan rows keyed to one of the listed orders in the run. -/
def planInB (rid : String) (oids : List String) : ProductPlan → Bool :=
  fun p => decide (p.plan_id ∈ oids.map (planIdOf rid))

/-- The competing-order test of planning.handle_spike_preemption. -/
def competingB (spike : Order) : Order → Bool :=
  fun o => decide (o.product_id = spike.product_id) && (! o.is_spike) &&
    (decide (o.status = "OPEN") || decide (o.status = "ON_HOLD"))

/-- Spike order for the preemption witness scenario. -/
def c4Spike : Order := ⟨"S1", "P-HE", 5, some 0, some 1, "OPEN", 1, true⟩

/-- Competing regular order for the preemption witness scenario. -/
def c4Comp : Order := ⟨"B1", "P-HE", 4, some 0, some 1, "OPEN", 5, false⟩

/-- Preemption witness database: the competing order is fully planned
(one plan, one item, one allocation) before the spike arrives. -/
def c4DB : DB :=
  ⟨[c4Spike, c4Comp], [], [], [], [], [⟨"R", "BASELINE", 0⟩],
   [⟨planIdOf "R" "B1", "R", 0, "PLANNED"⟩],
   [⟨7, planIdOf "R" "B1", "L1", "P-HE", 4, 0, 1⟩],
   [⟨"R", planIdOf "R" "B1", "B1", "L1", "P-HE", 4, 7⟩],
   [], [], [], 8⟩

/-- Order list for the replenishment counterexample: 60 units of P-HE,
whose BOM needs 2 units of M014 each, so 120 units of M014 are required. -/
def c7xOrders : List Order := [⟨"OX", "P-HE", 60, none, none, "OPEN", 1, false⟩]

def c7xBom : List BOMItem := [⟨"P-HE", "M014", 2⟩]

/-- Inventory master row whose supplier id resolves to no supplier. -/
def c7xInv : List InventoryItem := [⟨"M014", "S-MISSING", 0⟩]

/-- Order list for the replenishment witness (spec Scenario D): remaining
requirement 120 for material M1, supplier lead time 5 days. -/
def c7dOrders : List Order := [⟨"OD", "P1", 60, none, none, "OPEN", 1, false⟩]

def c7dBom : List BOMItem := [⟨"P1", "M1", 2⟩]

def c7dInv : List InventoryItem := [⟨"M1", "S1", 0⟩]

def c7dSups : List Supplier := [⟨"S1", "Supplier One", 5⟩]

/-- Reachable-state invariant of the planning tables for one run: all
allocation quantities are non-negative, every listed order's allocation
sum in the run is within its quantity, and every allocation of the run
has its run-and-order keyed ProductPlan present. -/
def allocInvariant (orders0 : List Order) (rid : String) (db : DB) : Prop :=
  (∀ a ∈ db.allocations, 0 ≤ a.allocated_qty) ∧
  (∀ o ∈ orders0, allocSum db.allocations rid o.order_id ≤ o.quantity) ∧
  (∀ a ∈ db.allocations, a.run_id = rid →
    db.plans.any (fun p => decide (p.plan_id = planIdOf rid a.order_id)) = true)

/-- Number of plan runs carrying the BASELINE scenario. -/
def countBaseline (runs : List PlanRun) : ℕ :=
  (runs.filter (fun r => decide (r.scenario = "BASELINE"))).length

/-- Database for the allocation-bound witness: one open order for five
units of P-X, one line, nothing planned yet. -/
def c1DB : DB :=
  ⟨[⟨"A1", "P-X", 5, some 0, some 1, "OPEN", 1, false⟩], [], [],
   [], [], [], [], [], [], [], [], [], 0⟩

/-! ### Association-list lemmas -/

theorem dget_dset {α : Type} (l : List (String × α)) (k k2 : String) (v d : α) :
    dget (dset l k v) k2 d = if k = k2 then v else dget l k2 d := by
  induction l with
  | nil =>
    by_cases h : k = k2 <;> simp [dset, dget, h]
  | cons p t ih =>
    obtain ⟨k1, v1⟩ := p
    by_cases h1 : k1 = k
    · subst h1
      by_cases h2 : k1 = k2 <;> simp [dset, dget, h2]
    · by_cases h2 : k1 = k2
      · subst h2
        have hk : ¬ k = k1 := fun h => h1 h.symm
        simp [dset, dget, h1, hk]
      · simp [dset, dget, h1, h2, ih]

/-- Sum of the values of an association list. -/
def dsum (l : List (String × ℤ)) : ℤ := (l.map (fun p => p.2)).sum

theorem dsum_nil : dsum [] = 0 := rfl

theorem dsum_dset_add (l : List (String × ℤ)) (k : String) (q : ℤ) :
    dsum (dset l k (dget l k 0 + q)) = dsum l + q := by
  induction l with
  | nil => simp [dset, dget, dsum]
  | cons p t ih =>
    obtain ⟨k1, v1⟩ := p
    by_cases h1 : k1 = k
    · subst h1
      simp [dset, dget, dsum]
      ring
    · have hk : ¬ k = k1 := fun h => h1 h.symm
      simp [dset, dget, h1, hk, dsum] at ih ⊢
      omega

theorem dget_mem_keys {α : Type} (l : List (String × α)) (k : String) (d : α)
    (h : k ∉ dkeys l) : dget l k d = d := by
  induction l with
  | nil => rfl
  | cons p t ih =>
    obtain ⟨k1, v1⟩ := p
    simp [dkeys] at h
    have h1 : ¬ k1 = k := fun he => h.1 he.symm
    simp [dget, h1]
    exact ih (by simp [dkeys]; exact h.2)

theorem dkeys_dset {α : Type} (l : List (String × α)) (k : String) (v : α) :
    dkeys (dset l k v) = if k ∈ dkeys l then dkeys l else dkeys l ++ [k] := by
  induction l with
  | nil => simp [dset, dkeys]
  | cons p t ih =>
    obtain ⟨k1, v1⟩ := p
    by_cases h1 : k1 = k
    · subst h1
      simp [dset, dkeys]
    · have hk : ¬ k = k1 := fun he => h1 he.symm
      by_cases hm : k ∈ dkeys t
      · have hm2 : k ∈ dkeys ((k1, v1) :: t) := by simp [dkeys] at hm ⊢; exact Or.inr hm
        rw [if_pos hm2]
        rw [if_pos hm] at ih
        simp [dset, dkeys, h1] at ih ⊢
        exact ih
      · have hm2 : k ∉ dkeys ((k1, v1) :: t) := by
          intro hin
          simp [dkeys] at hin
          cases hin with
          | inl he => exact h1 he.symm
          | inr he => exact hm (by simpa [dkeys] using he)
        rw [if_neg hm2]
        rw [if_neg hm] at ih
        simp [dset, dkeys, h1] at ih ⊢
        exact ih

theorem dkeys_nodup_dset {α : Type} (l : List (String × α)) (k : String) (v : α)
    (h : (dkeys l).Nodup) : (dkeys (dset l k v)).Nodup := by
  rw [dkeys_dset]
  by_cases hm : k ∈ dkeys l
  · simpa [hm]
  · rw [if_neg hm]
    rw [List.nodup_append]
    refine ⟨h, List.nodup_singleton k, ?_⟩
    intro a ha hak
    simp at hak
    subst hak
    exact hm ha

/-! ### Python round and int lemmas -/

theorem pyRound_ge (q : ℚ) : q - 1/2 ≤ (pyRound q : ℚ) := by
  unfold pyRound
  have hf : (q : ℚ) - 1 < (⌊q⌋ : ℚ) := by
    have := Int.sub_one_lt_floor q
    exact_mod_cast this
  have hf2 : (⌊q⌋ : ℚ) ≤ q := Int.floor_le q
  split_ifs with h1 h2 h3
  · linarith
  · push_cast; linarith
  · linarith
  · push_cast; linarith

theorem pyRound_nonneg (q : ℚ) (h : 0 ≤ q) : 0 ≤ pyRound q := by
  unfold pyRound
  have hf : 0 ≤ ⌊q⌋ := Int.floor_nonneg.mpr h
  split_ifs with h1 h2 h3
  · exact hf
  · omega
  · exact hf
  · omega

theorem pyInt_of_nonneg (q : ℚ) (h : 0 ≤ q) : pyInt q = ⌊q⌋ := by
  unfold pyInt
  simp [not_lt.mpr h]

/-! ### String key lemmas -/

theorem string_append_cancel_left (s a b : String) (h : s ++ a = s ++ b) : a = b := by
  have hd : (s ++ a).data = (s ++ b).data := by rw [h]
  simp only [String.data_append] at hd
  have hab : a.data = b.data := List.append_cancel_left hd
  exact String.ext hab

theorem planIdOf_inj (run_id a b : String) (h : planIdOf run_id a = planIdOf run_id b) :
    a = b := by
  unfold planIdOf at h
  have h1 : ("PLAN-" ++ run_id ++ "-") ++ a = ("PLAN-" ++ run_id ++ "-") ++ b := by
    simpa [String.append_assoc] using h
  exact string_append_cancel_left _ _ _ h1

/-! ### Claim C9: line occupancy next-available-start -/

/-- Claim C9: for every line and desired start, get_line_available_start
returns the desired start when the line has no booked intervals or the
desired start is at or after the maximum booked end time; otherwise it
returns that maximum end time (no gap filling); consequently the result
is never earlier than the desired start. -/
theorem C9_next_available_start (line_occ : List OccEntry) (desired : ℚ) :
    ((line_occ = [] ∨ latestEnd line_occ ≤ desired) →
      get_line_available_start line_occ desired = desired) ∧
    (line_occ ≠ [] → desired < latestEnd line_occ →
      get_line_available_start line_occ desired = latestEnd line_occ) ∧
    desired ≤ get_line_available_start line_occ desired := by
  by_cases he : line_occ.isEmpty
  · refine ⟨fun _ => by simp [get_line_available_start, he], ?_, ?_⟩
    · intro hne _
      exact absurd (List.isEmpty_iff.mp he) hne
    · simp [get_line_available_start, he]
  · by_cases hle : latestEnd line_occ ≤ desired
    · refine ⟨fun _ => by simp [get_line_available_start, he, hle], ?_, ?_⟩
      · intro _ hlt
        exact absurd hle (not_le.mpr hlt)
      · simp [get_line_available_start, he, hle]
    · refine ⟨?_, fun _ _ => by simp [get_line_available_start, he, hle], ?_⟩
      · intro h
        cases h with
        | inl h => rw [h] at he; exact absurd rfl he
        | inr h => exact absurd h hle
      · have hd : desired ≤ latestEnd line_occ := le_of_not_le hle
        simpa [get_line_available_start, he, hle] using hd

/-- Witness for C9 at a line with one booked interval ending at day 2
and a desired start of day 1. -/
theorem C9_next_available_start_witness :
    get_line_available_start [((0:ℚ), (2:ℚ), (1:ℤ))] 1 =
      latestEnd [((0:ℚ), (2:ℚ), (1:ℤ))] :=
  (C9_next_available_start [((0:ℚ), (2:ℚ), (1:ℤ))] 1).2.1
    (by simp) (by norm_num [latestEnd])

/-! ### Claim C6: simulation consumption -/

theorem consume_bom_once_nonneg (bom_list : List BOMItem) (led : List (String × ℤ))
    (h : ∀ m, 0 ≤ dget led m 0) : ∀ m, 0 ≤ dget (consume_bom_once led bom_list) m 0 := by
  induction bom_list generalizing led with
  | nil => exact h
  | cons b t ih =>
    have hstep : ∀ m, 0 ≤ dget
        (dset led b.material_id (max 0 (dget led b.material_id 0 - b.quantity_per_unit))) m 0 := by
      intro m
      rw [dget_dset]
      by_cases hb : b.material_id = m
      · simp [hb]
      · simp [hb]
        exact h m
    have hrw : consume_bom_once led (b :: t) =
        consume_bom_once
          (dset led b.material_id (max 0 (dget led b.material_id 0 - b.quantity_per_unit))) t := by
      simp [consume_bom_once]
    rw [hrw]
    exact ih _ hstep

theorem consume_for_units_nonneg (bom_list : List BOMItem) (n : ℕ)
    (led : List (String × ℤ)) (h : ∀ m, 0 ≤ dget led m 0) :
    ∀ m, 0 ≤ dget (consume_for_units led bom_list n) m 0 := by
  induction n generalizing led with
  | zero => exact h
  | succ k ih =>
    have : consume_for_units led bom_list (k + 1) =
        consume_for_units (consume_bom_once led bom_list) bom_list k := rfl
    rw [this]
    exact ih _ (consume_bom_once_nonneg bom_list led h)

theorem tick_consume_nonneg (lines_data : List (List BOMItem × ℕ))
    (led : List (String × ℤ)) (h : ∀ m, 0 ≤ dget led m 0) :
    ∀ m, 0 ≤ dget (tick_consume lines_data led) m 0 := by
  induction lines_data generalizing led with
  | nil => exact h
  | cons p t ih =>
    have : tick_consume (p :: t) led = tick_consume t (consume_for_units led p.1 p.2) := by
      simp [tick_consume]
    rw [this]
    exact ih _ (consume_for_units_nonneg p.1 p.2 led h)

theorem consume_one_mat (led : List (String × ℤ)) (P M : String) (q : ℤ)
    (h : q ≤ dget led M 0) :
    dget (consume_bom_once led [⟨P, M, q⟩]) M 0 = dget led M 0 - q := by
  simp [consume_bom_once, dget_dset]
  omega

theorem consume_one_preserves (led : List (String × ℤ)) (P M : String) (q : ℤ)
    (h : q ≤ dget led M 0) :
    ∀ m, dget (consume_bom_once led [⟨P, M, q⟩]) m 0 =
      if M = m then dget led m 0 - q else dget led m 0 := by
  intro m
  by_cases hm : M = m
  · subst hm
    simp [consume_one_mat led P M q h]
  · simp [consume_bom_once, dget_dset, hm]

/-- Claim C6: the per-tick consumption keeps every ledger entry
non-negative (each decrement is floored at zero), and a tick producing 3
integer units of a product whose single BOM entry needs 2 units of a
material reduces that ledger entry by exactly 6 whenever the stock
suffices. -/
theorem C6_consumption (lines_data : List (List BOMItem × ℕ))
    (ledger ledger2 : List (String × ℤ)) (P M : String)
    (hnn : ∀ m, 0 ≤ dget ledger m 0) (h6 : 6 ≤ dget ledger2 M 0) :
    (∀ m, 0 ≤ dget (tick_consume lines_data ledger) m 0) ∧
    dget (consume_for_units ledger2 [⟨P, M, 2⟩] 3) M 0 = dget ledger2 M 0 - 6 := by
  refine ⟨tick_consume_nonneg lines_data ledger hnn, ?_⟩
  have e3 : consume_for_units ledger2 [⟨P, M, 2⟩] 3 =
      consume_bom_once (consume_bom_once (consume_bom_once ledger2 [⟨P, M, 2⟩])
        [⟨P, M, 2⟩]) [⟨P, M, 2⟩] := rfl
  have s1 : dget (consume_bom_once ledger2 [⟨P, M, 2⟩]) M 0 = dget ledger2 M 0 - 2 :=
    consume_one_mat ledger2 P M 2 (by omega)
  have s2 : dget (consume_bom_once (consume_bom_once ledger2 [⟨P, M, 2⟩]) [⟨P, M, 2⟩]) M 0 =
      dget ledger2 M 0 - 4 := by
    rw [consume_one_mat _ P M 2 (by omega), s1]
    omega
  rw [e3, consume_one_mat _ P M 2 (by omega), s2]
  omega

/-- Witness for C6 at a one-line plant holding 10 units of M014. -/
theorem C6_consumption_witness :
    (∀ m, 0 ≤ dget (tick_consume [([⟨"P-HE", "M014", 2⟩], 3)] [("M014", 10)]) m 0) ∧
    dget (consume_for_units [("M014", 10)] [⟨"P-HE", "M014", 2⟩] 3) "M014" 0 =
      dget [("M014", 10)] "M014" 0 - 6 :=
  C6_consumption [([⟨"P-HE", "M014", 2⟩], 3)] [("M014", 10)] [("M014", 10)] "P-HE" "M014"
    (by intro m; simp only [dget]; split <;> norm_num)
    (by simp [dget])

/-! ### Claim C8: purchase order delivery -/

theorem upo_fold_fst (today : ℤ) (pos : List PurchaseOrder)
    (l0 : List PurchaseOrder) (led : List (String × ℤ)) (ev : List Event) :
    (pos.foldl (upo_step today) (l0, led, ev)).1 = l0 ++ pos.map (deliverPO today) := by
  induction pos generalizing l0 led ev with
  | nil => simp
  | cons po t ih =>
    by_cases h : po.status ≠ "DELIVERED" ∧ po.eta_date ≤ today
    · simp only [List.foldl_cons, List.map_cons, upo_step, if_pos h, deliverPO]
      rw [ih]
      simp [h]
    · simp only [List.foldl_cons, List.map_cons, upo_step, if_neg h, deliverPO]
      rw [ih]
      simp [h]

theorem upo_fold_led (today : ℤ) (pos : List PurchaseOrder)
    (l0 : List PurchaseOrder) (led : List (String × ℤ)) (ev : List Event) :
    (pos.foldl (upo_step today) (l0, led, ev)).2.1 =
      creditAll led (pos.filter (isOpenDue today)) := by
  induction pos generalizing l0 led ev with
  | nil => simp [creditAll]
  | cons po t ih =>
    by_cases h : po.status ≠ "DELIVERED" ∧ po.eta_date ≤ today
    · have hb : isOpenDue today po = true := by simp [isOpenDue, h.1, h.2]
      simp only [List.foldl_cons, upo_step, if_pos h]
      rw [ih]
      simp [List.filter_cons, hb, creditAll]
    · have hb : isOpenDue today po = false := by
        simp only [isOpenDue, decide_eq_false_iff_not]
        exact h
      simp only [List.foldl_cons, upo_step, if_neg h]
      rw [ih]
      simp [List.filter_cons, hb]

theorem dget_creditAll (led : List (String × ℤ)) (ps : List PurchaseOrder) (m : String) :
    dget (creditAll led ps) m 0 =
      dget led m 0 +
        ((ps.filter (fun po => decide (po.material_id = m))).map (fun po => po.quantity)).sum := by
  induction ps generalizing led with
  | nil => simp [creditAll]
  | cons po t ih =>
    have hstep : creditAll led (po :: t) =
        creditAll (dset led po.material_id (dget led po.material_id 0 + po.quantity)) t := by
      simp [creditAll]
    rw [hstep, ih]
    by_cases hm : po.material_id = m
    · simp [List.filter_cons, hm, dget_dset]
      omega
    · simp [List.filter_cons, hm, dget_dset]

theorem qtySum_nil : qtySum [] = 0 := rfl

theorem qtySum_cons (po : PurchaseOrder) (t : List PurchaseOrder) :
    qtySum (po :: t) = po.quantity + qtySum t := by
  simp [qtySum]

theorem deliverPO_material (today : ℤ) (po : PurchaseOrder) :
    (deliverPO today po).material_id = po.material_id := by
  unfold deliverPO
  split <;> rfl

theorem deliverPO_quantity (today : ℤ) (po : PurchaseOrder) :
    (deliverPO today po).quantity = po.quantity := by
  unfold deliverPO
  split <;> rfl

theorem deliver_then_open (today today2 : ℤ) (po : PurchaseOrder) :
    isOpenDue today2 (deliverPO today po) =
      (decide (po.status ≠ "DELIVERED") && !decide (po.eta_date ≤ today) &&
        decide (po.eta_date ≤ today2)) := by
  unfold deliverPO isOpenDue
  by_cases h1 : po.status = "DELIVERED"
  · simp [h1]
  · by_cases h2 : po.eta_date ≤ today
    · simp [h1, h2]
    · by_cases h3 : po.eta_date ≤ today2 <;> simp [h1, h2, h3]

theorem C8_sum_split (today today2 : ℤ) (m : String) (pos : List PurchaseOrder) :
    qtySum ((pos.filter (isOpenDue today)).filter (matFilter m)) +
      qtySum (((pos.map (deliverPO today)).filter (isOpenDue today2)).filter (matFilter m)) =
      qtySum ((pos.filter (openDueEither today today2)).filter (matFilter m)) := by
  induction pos with
  | nil => simp [qtySum]
  | cons po t ih =>
    have hmat : matFilter m (deliverPO today po) = matFilter m po := by
      simp [matFilter, deliverPO_material]
    rw [List.map_cons]
    by_cases h1 : po.status = "DELIVERED"
    · have ho1 : isOpenDue today po = false := by simp [isOpenDue, h1]
      have ho2 : isOpenDue today2 (deliverPO today po) = false := by
        rw [deliver_then_open]
        simp [h1]
      have ho3 : openDueEither today today2 po = false := by simp [openDueEither, h1]
      simpa [List.filter_cons, ho1, ho2, ho3] using ih
    · by_cases h2 : po.eta_date ≤ today
      · have ho1 : isOpenDue today po = true := by
          simp only [isOpenDue, decide_eq_true_eq]
          exact ⟨h1, h2⟩
        have ho2 : isOpenDue today2 (deliverPO today po) = false := by
          rw [deliver_then_open]
          simp [h2]
        have ho3 : openDueEither today today2 po = true := by
          simp only [openDueEither, Bool.and_eq_true, Bool.or_eq_true, decide_eq_true_eq]
          exact ⟨h1, Or.inl h2⟩
        by_cases hmm : matFilter m po = true
        · simp only [List.filter_cons, ho1, ho2, ho3, hmm, if_true, Bool.false_eq_true,
            if_false, qtySum_cons]
          omega
        · have hmm2 : matFilter m po = false := by
            cases hfb : matFilter m po
            · rfl
            · exact absurd hfb hmm
          simpa [List.filter_cons, ho1, ho2, ho3, hmm2] using ih
      · have ho1 : isOpenDue today po = false := by
          simp only [isOpenDue, decide_eq_false_iff_not]
          exact fun hc => h2 hc.2
        by_cases h3 : po.eta_date ≤ today2
        · have ho2 : isOpenDue today2 (deliverPO today po) = true := by
            rw [deliver_then_open]
            simp [h1, h2, h3]
          have ho3 : openDueEither today today2 po = true := by
            simp only [openDueEither, Bool.and_eq_true, Bool.or_eq_true, decide_eq_true_eq]
            exact ⟨h1, Or.inr h3⟩
          by_cases hmm : matFilter m po = true
          · simp only [List.filter_cons, ho1, ho2, ho3, hmat, hmm, if_true,
              Bool.false_eq_true, if_false, qtySum_cons, deliverPO_quantity]
            omega
          · have hmm2 : matFilter m po = false := by
              cases hfb : matFilter m po
              · rfl
              · exact absurd hfb hmm
            simpa [List.filter_cons, ho1, ho2, ho3, hmat, hmm2] using ih
        · have ho2 : isOpenDue today2 (deliverPO today po) = false := by
            rw [deliver_then_open]
            simp [h3]
          have ho3 : openDueEither today today2 po = false := by
            simp [openDueEither, h2, h3]
          simpa [List.filter_cons, ho1, ho2, ho3] using ih

/-- Claim C8: the delivery sweep turns every open purchase order whose
eta has passed into DELIVERED and credits the ledger of its material by
exactly the order quantity; rows already DELIVERED are untouched, and a
second sweep at any later day credits each quantity at most once: after
two sweeps the ledger has grown by exactly the quantities of the orders
that were open initially and due at one of the two days. -/
theorem C8_po_delivery (today today2 : ℤ) (pos : List PurchaseOrder)
    (ledger : List (String × ℤ)) (events : List Event) (m : String) :
    (update_purchase_orders today pos ledger events).1 = pos.map (deliverPO today) ∧
    dget (update_purchase_orders today pos ledger events).2.1 m 0 =
      dget ledger m 0 + qtySum ((pos.filter (isOpenDue today)).filter (matFilter m)) ∧
    dget (update_purchase_orders today2
        (update_purchase_orders today pos ledger events).1
        (update_purchase_orders today pos ledger events).2.1
        (update_purchase_orders today pos ledger events).2.2).2.1 m 0 =
      dget ledger m 0 +
        qtySum ((pos.filter (openDueEither today today2)).filter (matFilter m)) := by
  have h1 : (update_purchase_orders today pos ledger events).1 =
      pos.map (deliverPO today) := by
    unfold update_purchase_orders
    simpa using upo_fold_fst today pos [] ledger events
  have h2 : dget (update_purchase_orders today pos ledger events).2.1 m 0 =
      dget ledger m 0 + qtySum ((pos.filter (isOpenDue today)).filter (matFilter m)) := by
    unfold update_purchase_orders
    rw [upo_fold_led today pos [] ledger events, dget_creditAll]
    rfl
  refine ⟨h1, h2, ?_⟩
  conv_lhs => rw [show (update_purchase_orders today2
      (update_purchase_orders today pos ledger events).1
      (update_purchase_orders today pos ledger events).2.1
      (update_purchase_orders today pos ledger events).2.2) =
    ((update_purchase_orders today pos ledger events).1.foldl
        (fun x y => upo_step today2 x y)
          ([], (update_purchase_orders today pos ledger events).2.1,
           (update_purchase_orders today pos ledger events).2.2)) from rfl]
  rw [upo_fold_led, dget_creditAll, h1, h2]
  have hs := C8_sum_split today today2 m pos
  have hq : qtySum (((pos.map (deliverPO today)).filter (isOpenDue today2)).filter
      (matFilter m)) =
      ((((pos.map (deliverPO today)).filter (isOpenDue today2)).filter
        (fun po => decide (po.material_id = m))).map (fun po => po.quantity)).sum := rfl
  rw [← hq]
  omega

/-- Witness for C8: one open purchase order of 120 units of M014 due on
day 5, swept twice on day 5. -/
theorem C8_po_delivery_witness :
    dget (update_purchase_orders 5
        (update_purchase_orders 5 [⟨"PO-1", "M014", "S1", 120, 0, 5, "PLACED"⟩] [] []).1
        (update_purchase_orders 5 [⟨"PO-1", "M014", "S1", 120, 0, 5, "PLACED"⟩] [] []).2.1
        (update_purchase_orders 5 [⟨"PO-1", "M014", "S1", 120, 0, 5, "PLACED"⟩] [] []).2.2).2.1
      "M014" 0 =
      dget [] "M014" 0 +
        qtySum (([(⟨"PO-1", "M014", "S1", 120, 0, 5, "PLACED"⟩ : PurchaseOrder)].filter
          (openDueEither 5 5)).filter (matFilter "M014")) :=
  (C8_po_delivery 5 5 [⟨"PO-1", "M014", "S1", 120, 0, 5, "PLACED"⟩] [] [] "M014").2.2


/-! ### Claim C3: the rounding-remainder top-up is not capped per line -/

set_option maxHeartbeats 1000000

/-- Claim C3 is false of the source: in the C3 scenario (order of 5
units, two lines of 5/2 capacity units each over the one-day horizon,
banker rounding giving 2 units to each line), the top-up pass hands the
leftover unit to line L1 without checking its headroom, so L1 ends up
with 3 allocated units although its own capacity units over the horizon
are only 5/2.  This matches the latent-bug note of spec section 9. -/
theorem C3_line_over_capacity :
    (((plan_all_open_orders c3DB 0 0 9).1.allocations.filter
      (fun a => decide (a.line_id = "L1"))).map (fun a => a.allocated_qty)) = [3] ∧
    effCap c3LineA (max 1 (c3Order.dispatch_date.getD 0 - c3Order.start_date.getD 0)) =
      5/2 ∧
    ¬ ((3 : ℚ) ≤ 5/2) := by
  refine ⟨?_, by norm_num [effCap, c3LineA, c3Order], by norm_num⟩
  simp only [plan_all_open_orders, c3DB, c3Order, c3LineA, c3LineB,
    get_or_create_plan_run, latest_baseline_run, get_line_occupancy,
    isFullyAllocated, handle_spike_preemption, isortLE, insertLE, orderLE,
    planIdOf, buildLineCapacity, blc_step, effCap,
    max_units_from_inventory, distributeMain, dm_step, fixupRemainder, fx_step,
    capDescLE, createOne, consume_inventory, log_event, pyInt, pyRound,
    allocSum, dget, dset, latestEnd, get_line_available_start, occLE]
  norm_num
  rw [processOrder]
  norm_num [planIdOf, buildLineCapacity, blc_step, effCap, max_units_from_inventory,
    distributeMain, dm_step, fixupRemainder, fx_step, capDescLE, createOne,
    consume_inventory, log_event, pyInt, pyRound, isortLE, insertLE,
    dget, dset, latestEnd, get_line_available_start]
  simp

/-! ### Distribution lemmas (capacity split of step 10.6) -/

theorem blc_fold_fst (h : ℤ) (ol : List Line) (l0 : List (String × ℚ)) (t0 : ℚ) :
    (ol.foldl (blc_step h) (l0, t0)).1 =
      l0 ++ (ol.filter (fun ln => decide (0 < effCap ln h))).map
        (fun ln => (ln.line_id, effCap ln h)) := by
  induction ol generalizing l0 t0 with
  | nil => simp
  | cons ln t ih =>
    by_cases hc : effCap ln h ≤ 0
    · have hd : decide (0 < effCap ln h) = false := by
        simp only [decide_eq_false_iff_not]
        exact not_lt.mpr hc
      simp only [List.foldl_cons, blc_step, if_pos hc, List.filter_cons, hd,
        Bool.false_eq_true, if_false]
      exact ih l0 t0
    · have hd : decide (0 < effCap ln h) = true := by
        simp only [decide_eq_true_eq]
        exact not_le.mp hc
      simp only [List.foldl_cons, blc_step, if_neg hc, List.filter_cons, hd, if_true,
        List.map_cons]
      rw [ih]
      simp

theorem blc_fold_snd (h : ℤ) (ol : List Line) (l0 : List (String × ℚ)) (t0 : ℚ) :
    (ol.foldl (blc_step h) (l0, t0)).2 =
      t0 + ((ol.filter (fun ln => decide (0 < effCap ln h))).map
        (fun ln => effCap ln h)).sum := by
  induction ol generalizing l0 t0 with
  | nil => simp
  | cons ln t ih =>
    by_cases hc : effCap ln h ≤ 0
    · have hd : decide (0 < effCap ln h) = false := by
        simp only [decide_eq_false_iff_not]
        exact not_lt.mpr hc
      simp only [List.foldl_cons, blc_step, if_pos hc, List.filter_cons, hd,
        Bool.false_eq_true, if_false]
      exact ih l0 t0
    · have hd : decide (0 < effCap ln h) = true := by
        simp only [decide_eq_true_eq]
        exact not_le.mp hc
      simp only [List.foldl_cons, blc_step, if_neg hc, List.filter_cons, hd, if_true,
        List.map_cons, List.sum_cons]
      rw [ih]
      ring

theorem buildLineCapacity_fst (ol : List Line) (h : ℤ) :
    (buildLineCapacity ol h).1 =
      (ol.filter (fun ln => decide (0 < effCap ln h))).map
        (fun ln => (ln.line_id, effCap ln h)) := by
  unfold buildLineCapacity
  simpa using blc_fold_fst h ol [] 0

theorem buildLineCapacity_snd (ol : List Line) (h : ℤ) :
    (buildLineCapacity ol h).2 =
      ((ol.filter (fun ln => decide (0 < effCap ln h))).map
        (fun ln => effCap ln h)).sum := by
  unfold buildLineCapacity
  simpa using blc_fold_snd h ol [] 0

theorem dkeys_filter_map_lines (t : List Line) (p : Line → Bool) (f : Line → ℚ)
    (k : String) (hk : k ∈ dkeys ((t.filter p).map (fun ln => (ln.line_id, f ln)))) :
    k ∈ t.map (fun l => l.line_id) := by
  simp only [dkeys, List.map_map, List.mem_map, Function.comp] at hk
  obtain ⟨ln, hln, hke⟩ := hk
  exact List.mem_map.mpr ⟨ln, List.mem_of_mem_filter hln, hke⟩

theorem dget_line_capacity (ol : List Line) (h : ℤ) (ln : Line)
    (hmem : ln ∈ ol) (hnd : (ol.map (fun l => l.line_id)).Nodup) :
    dget (buildLineCapacity ol h).1 ln.line_id 0 =
      if 0 < effCap ln h then effCap ln h else 0 := by
  rw [buildLineCapacity_fst]
  induction ol with
  | nil => cases hmem
  | cons l0 t ih =>
    have hnd1 : (l0.line_id :: t.map (fun l => l.line_id)).Nodup := by
      rw [List.map_cons] at hnd
      exact hnd
    have hnd2 : (t.map (fun l => l.line_id)).Nodup := (List.nodup_cons.mp hnd1).2
    have hhd : l0.line_id ∉ t.map (fun l => l.line_id) := (List.nodup_cons.mp hnd1).1
    rcases List.mem_cons.mp hmem with heq | hmem2
    · subst heq
      by_cases hp : 0 < effCap ln h
      · have hd : decide (0 < effCap ln h) = true := by simpa using hp
        simp only [List.filter_cons, hd, if_true, List.map_cons, dget]
        simp [hp]
      · have hd : decide (0 < effCap ln h) = false := by simpa using hp
        simp only [List.filter_cons, hd, Bool.false_eq_true, if_false]
        rw [dget_mem_keys]
        · simp [hp]
        · intro hk
          exact hhd (dkeys_filter_map_lines t _ _ _ hk)
    · have hne : ¬ l0.line_id = ln.line_id := by
        intro he
        exact hhd (he ▸ List.mem_map.mpr ⟨ln, hmem2, rfl⟩)
      by_cases hp : 0 < effCap l0 h
      · have hd : decide (0 < effCap l0 h) = true := by simpa using hp
        simp only [List.filter_cons, hd, if_true, List.map_cons, dget, if_neg hne]
        exact ih hmem2 hnd2
      · have hd : decide (0 < effCap l0 h) = false := by simpa using hp
        simp only [List.filter_cons, hd, Bool.false_eq_true, if_false]
        exact ih hmem2 hnd2

theorem dm_fold_rem_le (lc : List (String × ℚ)) (total : ℚ) (target : ℤ)
    (ol : List Line) : ∀ acc : List (String × ℤ) × ℤ,
    (ol.foldl (dm_step lc total target) acc).2 ≤ acc.2 := by
  induction ol with
  | nil => intro acc; simp
  | cons ln t ih =>
    intro acc
    rw [List.foldl_cons]
    refine le_trans (ih (dm_step lc total target acc ln)) ?_
    unfold dm_step
    split
    · exact le_refl _
    · simp only
      have : 0 ≤ max 0 (min (pyRound ((target : ℚ) *
          (dget lc ln.line_id 0 / total))) acc.2) := le_max_left 0 _
      omega

theorem dm_fold_rem_nonneg (lc : List (String × ℚ)) (total : ℚ) (target : ℤ)
    (ol : List Line) : ∀ acc : List (String × ℤ) × ℤ, 0 ≤ acc.2 →
    0 ≤ (ol.foldl (dm_step lc total target) acc).2 := by
  induction ol with
  | nil => intro acc h; simpa using h
  | cons ln t ih =>
    intro acc hacc
    rw [List.foldl_cons]
    refine ih _ ?_
    unfold dm_step
    split
    · exact hacc
    · simp only
      have h1 : min (pyRound ((target : ℚ) * (dget lc ln.line_id 0 / total))) acc.2 ≤ acc.2 :=
        min_le_right _ _
      have h2 : max 0 (min (pyRound ((target : ℚ) *
          (dget lc ln.line_id 0 / total))) acc.2) ≤ max 0 acc.2 := by
        exact max_le_max (le_refl 0) h1
      rw [max_eq_right hacc] at h2
      omega

theorem dm_fold_sum (lc : List (String × ℚ)) (total : ℚ) (target : ℤ)
    (ol : List Line) : ∀ acc : List (String × ℤ) × ℤ,
    dsum (ol.foldl (dm_step lc total target) acc).1 +
      (ol.foldl (dm_step lc total target) acc).2 = dsum acc.1 + acc.2 := by
  induction ol with
  | nil => intro acc; simp
  | cons ln t ih =>
    intro acc
    rw [List.foldl_cons, ih]
    unfold dm_step
    split
    · rfl
    · simp only
      rw [dsum_dset_add]
      ring

theorem fx_fold_sum (ol : List Line) : ∀ acc : List (String × ℤ) × ℤ,
    dsum (ol.foldl fx_step acc).1 + (ol.foldl fx_step acc).2 = dsum acc.1 + acc.2 := by
  induction ol with
  | nil => intro acc; simp
  | cons ln t ih =>
    intro acc
    rw [List.foldl_cons, ih]
    unfold fx_step
    split
    · rfl
    · simp only
      rw [dsum_dset_add]
      ring

theorem fx_fold_rem (ol : List Line) : ∀ acc : List (String × ℤ) × ℤ, 0 ≤ acc.2 →
    (ol.foldl fx_step acc).2 = max 0 (acc.2 - ol.length) := by
  induction ol with
  | nil =>
    intro acc h
    simp
    omega
  | cons ln t ih =>
    intro acc hacc
    rw [List.foldl_cons]
    by_cases hz : acc.2 ≤ 0
    · have hz2 : acc.2 = 0 := le_antisymm hz hacc
      have hstep : fx_step acc ln = acc := by simp [fx_step, hz]
      rw [hstep, ih acc hacc]
      simp only [List.length_cons]
      omega
    · have hstep : fx_step acc ln =
          (dset acc.1 ln.line_id (dget acc.1 ln.line_id 0 + 1), acc.2 - 1) := by
        simp [fx_step, hz]
      rw [hstep, ih _ (by simp only; omega)]
      simp only [List.length_cons]
      omega

theorem insertLE_length {α : Type} (le : α → α → Bool) (a : α) (l : List α) :
    (insertLE le a l).length = l.length + 1 := by
  induction l with
  | nil => rfl
  | cons b t ih =>
    unfold insertLE
    split
    · simp
    · simp [ih]

theorem isortLE_length {α : Type} (le : α → α → Bool) (l : List α) :
    (isortLE le l).length = l.length := by
  induction l with
  | nil => rfl
  | cons b t ih =>
    unfold isortLE
    rw [insertLE_length, ih]
    rfl

theorem dm_fold_rem_bound (lc : List (String × ℚ)) (total : ℚ) (target : ℤ)
    (htot : 0 < total) (htar : 0 ≤ target) (ol : List Line) :
    ∀ acc : List (String × ℤ) × ℤ, 0 ≤ acc.2 →
      (ol.foldl (dm_step lc total target) acc).2 = 0 ∨
      ((ol.foldl (dm_step lc total target) acc).2 : ℚ) ≤ (acc.2 : ℚ) -
          ((ol.filter (fun ln => decide (0 < dget lc ln.line_id 0))).map
            (fun ln => (target : ℚ) * (dget lc ln.line_id 0 / total))).sum +
          ((ol.filter (fun ln => decide (0 < dget lc ln.line_id 0))).length : ℚ) / 2 := by
  induction ol with
  | nil =>
    intro acc _
    right
    simp
  | cons ln t ih =>
    intro acc hacc
    rw [List.foldl_cons]
    by_cases hcap : dget lc ln.line_id 0 ≤ 0
    · have hstep : dm_step lc total target acc ln = acc := by
        unfold dm_step
        rw [if_pos (Or.inl hcap)]
      have hd : decide (0 < dget lc ln.line_id 0) = false := by
        simp only [decide_eq_false_iff_not]
        exact not_lt.mpr hcap
      rw [hstep]
      simpa [List.filter_cons, hd] using ih acc hacc
    · have hcap2 : 0 < dget lc ln.line_id 0 := not_le.mp hcap
      have hd : decide (0 < dget lc ln.line_id 0) = true := by simpa using hcap2
      by_cases hrem : acc.2 ≤ 0
      · have hstep : dm_step lc total target acc ln = acc := by
          unfold dm_step
          rw [if_pos (Or.inr hrem)]
        left
        have h1 := dm_fold_rem_le lc total target t acc
        have h2 := dm_fold_rem_nonneg lc total target t acc hacc
        rw [hstep]
        omega
      · have hrem2 : 0 < acc.2 := not_le.mp hrem
        have hs0 : 0 ≤ (target : ℚ) * (dget lc ln.line_id 0 / total) := by
          apply mul_nonneg
          · exact_mod_cast htar
          · exact div_nonneg (le_of_lt hcap2) (le_of_lt htot)
        have hq0 : 0 ≤ pyRound ((target : ℚ) * (dget lc ln.line_id 0 / total)) :=
          pyRound_nonneg _ hs0
        have hcond : ¬ (dget lc ln.line_id 0 ≤ 0 ∨ acc.2 ≤ 0) := by
          push_neg
          exact ⟨hcap2, hrem2⟩
        have hstep : dm_step lc total target acc ln =
            (dset acc.1 ln.line_id (dget acc.1 ln.line_id 0 +
              max 0 (min (pyRound ((target : ℚ) * (dget lc ln.line_id 0 / total))) acc.2)),
             acc.2 - max 0 (min (pyRound ((target : ℚ) *
              (dget lc ln.line_id 0 / total))) acc.2)) := by
          unfold dm_step
          rw [if_neg hcond]
        by_cases hbind : pyRound ((target : ℚ) * (dget lc ln.line_id 0 / total)) ≤ acc.2
        · have hqv : max 0 (min (pyRound ((target : ℚ) *
              (dget lc ln.line_id 0 / total))) acc.2) =
              pyRound ((target : ℚ) * (dget lc ln.line_id 0 / total)) := by
            rw [min_eq_left hbind, max_eq_right hq0]
          rw [hstep, hqv]
          have hacc2 : (0 : ℤ) ≤ acc.2 -
              pyRound ((target : ℚ) * (dget lc ln.line_id 0 / total)) := by omega
          rcases ih (dset acc.1 ln.line_id (dget acc.1 ln.line_id 0 +
              pyRound ((target : ℚ) * (dget lc ln.line_id 0 / total))),
              acc.2 - pyRound ((target : ℚ) * (dget lc ln.line_id 0 / total)))
              hacc2 with h0 | hle
          · exact Or.inl h0
          · right
            simp only [List.filter_cons, hd, if_true, List.map_cons, List.sum_cons,
              List.length_cons]
            have hrg := pyRound_ge ((target : ℚ) * (dget lc ln.line_id 0 / total))
            push_cast at hle ⊢
            linarith
        · have hqv : max 0 (min (pyRound ((target : ℚ) *
              (dget lc ln.line_id 0 / total))) acc.2) = acc.2 := by
            rw [min_eq_right (le_of_not_le hbind), max_eq_right (le_of_lt hrem2)]
          rw [hstep, hqv]
          left
          have h1 := dm_fold_rem_le lc total target t
            (dset acc.1 ln.line_id (dget acc.1 ln.line_id 0 + acc.2), acc.2 - acc.2)
          have h2 := dm_fold_rem_nonneg lc total target t
            (dset acc.1 ln.line_id (dget acc.1 ln.line_id 0 + acc.2), acc.2 - acc.2)
            (by simp)
          simp only [sub_self] at h1 h2 ⊢
          omega

theorem dm_share_sum (ol : List Line) (h : ℤ) (target : ℤ)
    (hnd : (ol.map (fun l => l.line_id)).Nodup)
    (htot : 0 < (buildLineCapacity ol h).2) :
    ((ol.filter (fun ln =>
        decide (0 < dget (buildLineCapacity ol h).1 ln.line_id 0))).map
      (fun ln => (target : ℚ) *
        (dget (buildLineCapacity ol h).1 ln.line_id 0 / (buildLineCapacity ol h).2))).sum =
      (target : ℚ) := by
  have hfe : ol.filter (fun ln =>
      decide (0 < dget (buildLineCapacity ol h).1 ln.line_id 0)) =
      ol.filter (fun ln => decide (0 < effCap ln h)) := by
    apply List.filter_congr
    intro ln hln
    rw [dget_line_capacity ol h ln hln hnd]
    by_cases hp : 0 < effCap ln h
    · simp [hp]
    · simp [hp]
  rw [hfe]
  have hme : (ol.filter (fun ln => decide (0 < effCap ln h))).map
      (fun ln => (target : ℚ) *
        (dget (buildLineCapacity ol h).1 ln.line_id 0 / (buildLineCapacity ol h).2)) =
      (ol.filter (fun ln => decide (0 < effCap ln h))).map
      (fun ln => ((target : ℚ) / (buildLineCapacity ol h).2) * effCap ln h) := by
    apply List.map_congr_left
    intro ln hln
    have hmem : ln ∈ ol := List.mem_of_mem_filter hln
    have hp : 0 < effCap ln h := by
      have := List.of_mem_filter hln
      simpa using this
    rw [dget_line_capacity ol h ln hmem hnd, if_pos hp]
    field_simp
  rw [hme, List.sum_map_mul_left]
  have hsum : ((ol.filter (fun ln => decide (0 < effCap ln h))).map
      (fun ln => effCap ln h)).sum = (buildLineCapacity ol h).2 :=
    (buildLineCapacity_snd ol h).symm
  rw [hsum]
  field_simp

/-! ### Claim C10: the split sums exactly to the target -/

/-- Claim C10: when the allocator computes a positive target for an
order with positive total line capacity, the main proportional loop
never hands out more than the remaining amount (the remainder stays
non-negative and the handed-out sum plus the remainder is the target),
and after the descending-capacity top-up pass the per-line quantities
sum to exactly the target: the integer rounding leftover never exceeds
the number of candidate lines. -/
theorem C10_proportional_split (order_lines : List Line) (hdays target : ℤ)
    (hnd : (order_lines.map (fun l => l.line_id)).Nodup)
    (htar : 0 < target)
    (hpos : 0 < (buildLineCapacity order_lines hdays).2) :
    0 ≤ (distributeMain order_lines (buildLineCapacity order_lines hdays).1
        (buildLineCapacity order_lines hdays).2 target).2 ∧
    dsum (distributeMain order_lines (buildLineCapacity order_lines hdays).1
        (buildLineCapacity order_lines hdays).2 target).1 +
      (distributeMain order_lines (buildLineCapacity order_lines hdays).1
        (buildLineCapacity order_lines hdays).2 target).2 = target ∧
    dsum (if 0 < (distributeMain order_lines (buildLineCapacity order_lines hdays).1
          (buildLineCapacity order_lines hdays).2 target).2 then
        fixupRemainder
          (isortLE (capDescLE (buildLineCapacity order_lines hdays).1) order_lines)
          (distributeMain order_lines (buildLineCapacity order_lines hdays).1
            (buildLineCapacity order_lines hdays).2 target)
      else
        (distributeMain order_lines (buildLineCapacity order_lines hdays).1
          (buildLineCapacity order_lines hdays).2 target)).1 = target := by
  have hnn : 0 ≤ (distributeMain order_lines (buildLineCapacity order_lines hdays).1
      (buildLineCapacity order_lines hdays).2 target).2 := by
    unfold distributeMain
    exact dm_fold_rem_nonneg _ _ _ order_lines ([], target) (by simpa using le_of_lt htar)
  have hsum : dsum (distributeMain order_lines (buildLineCapacity order_lines hdays).1
      (buildLineCapacity order_lines hdays).2 target).1 +
      (distributeMain order_lines (buildLineCapacity order_lines hdays).1
        (buildLineCapacity order_lines hdays).2 target).2 = target := by
    unfold distributeMain
    have := dm_fold_sum (buildLineCapacity order_lines hdays).1
      (buildLineCapacity order_lines hdays).2 target order_lines ([], target)
    simpa [dsum] using this
  refine ⟨hnn, hsum, ?_⟩
  have hbd := dm_fold_rem_bound (buildLineCapacity order_lines hdays).1
    (buildLineCapacity order_lines hdays).2 target hpos (le_of_lt htar)
    order_lines ([], target) (by simpa using le_of_lt htar)
  have hrem_le : (distributeMain order_lines (buildLineCapacity order_lines hdays).1
      (buildLineCapacity order_lines hdays).2 target).2 ≤ order_lines.length := by
    rcases hbd with h0 | hle
    · unfold distributeMain
      rw [h0]
      exact Int.ofNat_nonneg _ |>.trans (le_refl _) |>.trans (by positivity)
    · have hshare := dm_share_sum order_lines hdays target hnd hpos
      rw [hshare] at hle
      have hm : ((order_lines.filter (fun ln =>
          decide (0 < dget (buildLineCapacity order_lines hdays).1 ln.line_id 0))).length)
          ≤ order_lines.length := List.length_filter_le _ _
      unfold distributeMain at *
      have h2 : ((order_lines.foldl (dm_step (buildLineCapacity order_lines hdays).1
          (buildLineCapacity order_lines hdays).2 target) ([], target)).2 : ℚ) ≤
          (order_lines.length : ℚ) / 2 := by
        calc ((order_lines.foldl (dm_step (buildLineCapacity order_lines hdays).1
            (buildLineCapacity order_lines hdays).2 target) ([], target)).2 : ℚ)
            ≤ (target : ℚ) - target + ((order_lines.filter (fun ln =>
              decide (0 < dget (buildLineCapacity order_lines hdays).1 ln.line_id 0))).length
                : ℚ) / 2 := by
              simpa using hle
          _ ≤ (order_lines.length : ℚ) / 2 := by
              have : ((order_lines.filter (fun ln =>
                  decide (0 < dget (buildLineCapacity order_lines hdays).1
                    ln.line_id 0))).length : ℚ) ≤ (order_lines.length : ℚ) := by
                exact_mod_cast hm
              linarith
      have h3 : (2 : ℚ) * ((order_lines.foldl (dm_step (buildLineCapacity order_lines hdays).1
          (buildLineCapacity order_lines hdays).2 target) ([], target)).2 : ℚ) ≤
          (order_lines.length : ℚ) := by linarith
      have h4 : 2 * (order_lines.foldl (dm_step (buildLineCapacity order_lines hdays).1
          (buildLineCapacity order_lines hdays).2 target) ([], target)).2 ≤
          (order_lines.length : ℤ) := by exact_mod_cast h3
      omega
  by_cases hz : 0 < (distributeMain order_lines (buildLineCapacity order_lines hdays).1
      (buildLineCapacity order_lines hdays).2 target).2
  · rw [if_pos hz]
    have hfr := fx_fold_rem
      (isortLE (capDescLE (buildLineCapacity order_lines hdays).1) order_lines)
      (distributeMain order_lines (buildLineCapacity order_lines hdays).1
        (buildLineCapacity order_lines hdays).2 target) hnn
    have hfs := fx_fold_sum
      (isortLE (capDescLE (buildLineCapacity order_lines hdays).1) order_lines)
      (distributeMain order_lines (buildLineCapacity order_lines hdays).1
        (buildLineCapacity order_lines hdays).2 target)
    rw [isortLE_length] at hfr
    unfold fixupRemainder
    have hzero : (((isortLE (capDescLE (buildLineCapacity order_lines hdays).1)
        order_lines).foldl fx_step
        (distributeMain order_lines (buildLineCapacity order_lines hdays).1
          (buildLineCapacity order_lines hdays).2 target)).2) = 0 := by
      rw [hfr]
      omega
    have := hfs
    unfold fixupRemainder at *
    omega
  · rw [if_neg hz]
    omega

/-- Witness for C10: one line of capacity 1, target 1. -/
theorem C10_proportional_split_witness :
    dsum (if 0 < (distributeMain [c10Line] (buildLineCapacity [c10Line] 1).1
          (buildLineCapacity [c10Line] 1).2 1).2 then
        fixupRemainder (isortLE (capDescLE (buildLineCapacity [c10Line] 1).1) [c10Line])
          (distributeMain [c10Line] (buildLineCapacity [c10Line] 1).1
            (buildLineCapacity [c10Line] 1).2 1)
      else
        (distributeMain [c10Line] (buildLineCapacity [c10Line] 1).1
          (buildLineCapacity [c10Line] 1).2 1)).1 = 1 :=
  (C10_proportional_split [c10Line] 1 1 (by simp) (by norm_num)
    (by norm_num [buildLineCapacity, blc_step, effCap, c10Line])).2.2

/-! ### Inventory-limit lemmas (claim C2) -/

theorem mu_fold_le_init (stock usage : List (String × ℤ)) (l : List BOMItem) :
    ∀ x : ℤ, (l.foldl (fun mu b =>
      if b.quantity_per_unit ≤ 0 then mu
      else min mu (max 0 (Int.fdiv (dget stock b.material_id 0 - dget usage b.material_id 0)
        b.quantity_per_unit))) x) ≤ x := by
  induction l with
  | nil => intro x; simp
  | cons b t ih =>
    intro x
    rw [List.foldl_cons]
    split
    · exact ih x
    · exact le_trans (ih _) (min_le_left _ _)

theorem mu_fold_le_entry (stock usage : List (String × ℤ)) (l : List BOMItem) :
    ∀ x : ℤ, ∀ b ∈ l, ¬ b.quantity_per_unit ≤ 0 →
    (l.foldl (fun mu b =>
      if b.quantity_per_unit ≤ 0 then mu
      else min mu (max 0 (Int.fdiv (dget stock b.material_id 0 - dget usage b.material_id 0)
        b.quantity_per_unit))) x) ≤
      max 0 (specUnitsForMaterial stock usage b) := by
  induction l with
  | nil => intro x b hb; cases hb
  | cons b0 t ih =>
    intro x b hb hq
    rw [List.foldl_cons]
    rcases List.mem_cons.mp hb with heq | hmem
    · subst heq
      rw [if_neg hq]
      refine le_trans (mu_fold_le_init stock usage t _) ?_
      exact min_le_right _ _
    · split
      · exact ih x b hmem hq
      · exact ih _ b hmem hq

theorem mu_fold_ge (stock usage : List (String × ℤ)) (l : List BOMItem) :
    ∀ x c : ℤ, c ≤ x →
    (∀ b ∈ l, ¬ b.quantity_per_unit ≤ 0 →
      c ≤ max 0 (specUnitsForMaterial stock usage b)) →
    c ≤ (l.foldl (fun mu b =>
      if b.quantity_per_unit ≤ 0 then mu
      else min mu (max 0 (Int.fdiv (dget stock b.material_id 0 - dget usage b.material_id 0)
        b.quantity_per_unit))) x) := by
  induction l with
  | nil => intro x c hx _; simpa using hx
  | cons b0 t ih =>
    intro x c hx hall
    rw [List.foldl_cons]
    by_cases hq : b0.quantity_per_unit ≤ 0
    · rw [if_pos hq]
      exact ih x c hx (fun b hb => hall b (List.mem_cons_of_mem b0 hb))
    · rw [if_neg hq]
      refine ih _ c (le_min hx ?_) (fun b hb => hall b (List.mem_cons_of_mem b0 hb))
      exact hall b0 (List.mem_cons_self b0 t) hq

theorem foldl_min_le_init (t : List ℤ) : ∀ h : ℤ, t.foldl min h ≤ h := by
  induction t with
  | nil => intro h; simp
  | cons a l ih =>
    intro h
    rw [List.foldl_cons]
    exact le_trans (ih _) (min_le_left _ _)

theorem foldl_min_le_mem (t : List ℤ) : ∀ h : ℤ, ∀ a ∈ t, t.foldl min h ≤ a := by
  induction t with
  | nil => intro h a ha; cases ha
  | cons a0 l ih =>
    intro h a ha
    rcases List.mem_cons.mp ha with heq | hmem
    · subst heq
      rw [List.foldl_cons]
      exact le_trans (foldl_min_le_init l _) (min_le_right _ _)
    · rw [List.foldl_cons]
      exact ih _ a hmem

theorem le_foldl_min (t : List ℤ) : ∀ h c : ℤ, c ≤ h → (∀ a ∈ t, c ≤ a) →
    c ≤ t.foldl min h := by
  induction t with
  | nil => intro h c hc _; simpa using hc
  | cons a0 l ih =>
    intro h c hc hall
    rw [List.foldl_cons]
    exact ih _ c (le_min hc (hall a0 (List.mem_cons_self a0 l)))
      (fun a ha => hall a (List.mem_cons_of_mem a0 ha))

theorem foldl_min_mem (t : List ℤ) : ∀ h : ℤ, t.foldl min h ∈ h :: t := by
  induction t with
  | nil => intro h; simp
  | cons a0 l ih =>
    intro h
    rw [List.foldl_cons]
    rcases List.mem_cons.mp (ih (min h a0)) with hm | hm
    · rcases min_cases h a0 with ⟨he, _⟩ | ⟨he, _⟩
      · rw [hm, he]
        exact List.mem_cons_self h (a0 :: l)
      · rw [hm, he]
        exact List.mem_cons_of_mem h (List.mem_cons_self a0 l)
    · exact List.mem_cons_of_mem h (List.mem_cons_of_mem a0 hm)

theorem sum_filter_pos_eq {α : Type} (l : List α) (f : α → ℚ)
    (h : ∀ x ∈ l, 0 ≤ f x) :
    ((l.filter (fun x => decide (0 < f x))).map f).sum = (l.map f).sum := by
  induction l with
  | nil => simp
  | cons a t ih =>
    have ha := h a (List.mem_cons_self a t)
    have ht : ∀ x ∈ t, 0 ≤ f x := fun x hx => h x (List.mem_cons_of_mem a hx)
    by_cases hp : 0 < f a
    · have hd : decide (0 < f a) = true := by simpa using hp
      simp only [List.filter_cons, hd, if_true, List.map_cons, List.sum_cons]
      rw [ih ht]
    · have hz : f a = 0 := le_antisymm (not_lt.mp hp) ha
      have hd : decide (0 < f a) = false := by simpa using hp
      simp only [List.filter_cons, hd, Bool.false_eq_true, if_false, List.map_cons,
        List.sum_cons]
      rw [ih ht, hz]
      ring

theorem buildLineCapacity_total_eq_spec (ol : List Line) (h : ℤ)
    (hc : ∀ ln ∈ ol, 0 ≤ effCap ln h) :
    (buildLineCapacity ol h).2 = specTotalCapacityUnits ol h := by
  rw [buildLineCapacity_snd, specTotalCapacityUnits]
  exact sum_filter_pos_eq ol (fun ln => effCap ln h) hc

theorem specTotalCapacityUnits_nonneg (ol : List Line) (h : ℤ)
    (hc : ∀ ln ∈ ol, 0 ≤ effCap ln h) : 0 ≤ specTotalCapacityUnits ol h := by
  unfold specTotalCapacityUnits
  apply List.sum_nonneg
  intro q hq
  rw [List.mem_map] at hq
  obtain ⟨ln, hln, he⟩ := hq
  exact he ▸ hc ln hln

theorem mu_fold_nonneg (stock usage : List (String × ℤ)) (l : List BOMItem) :
    ∀ x : ℤ, 0 ≤ x → 0 ≤ (l.foldl (fun mu b =>
      if b.quantity_per_unit ≤ 0 then mu
      else min mu (max 0 (Int.fdiv (dget stock b.material_id 0 - dget usage b.material_id 0)
        b.quantity_per_unit))) x) := by
  induction l with
  | nil => intro x hx; simpa using hx
  | cons b t ih =>
    intro x hx
    rw [List.foldl_cons]
    split
    · exact ih x hx
    · exact ih _ (le_min hx (le_max_left 0 _))

theorem mu_nonneg (bl : List BOMItem) (stock usage : List (String × ℤ)) :
    0 ≤ max_units_from_inventory bl stock usage := by
  unfold max_units_from_inventory
  split
  · norm_num
  · exact mu_fold_nonneg stock usage bl (10 ^ 9) (by norm_num)

theorem mu_eq_specInv (bl : List BOMItem) (stock usage : List (String × ℤ)) (v : ℤ)
    (hq : ∀ b ∈ bl, 0 < b.quantity_per_unit)
    (hub : ∀ b ∈ bl, specUnitsForMaterial stock usage b ≤ 10 ^ 9)
    (hsome : specInvLimit bl stock usage = some v)
    (hvpos : 0 < v) :
    max_units_from_inventory bl stock usage = v := by
  unfold specInvLimit at hsome
  rcases hmap : bl.map (specUnitsForMaterial stock usage) with _ | ⟨h0, t0⟩
  · rw [hmap] at hsome
    cases hsome
  · rw [hmap] at hsome
    simp only [Option.some.injEq] at hsome
    have hbl : ¬ bl.isEmpty := by
      cases bl with
      | nil => simp at hmap
      | cons a l => simp
    have hvle : ∀ b ∈ bl, v ≤ specUnitsForMaterial stock usage b := by
      intro b hb
      have hmem : specUnitsForMaterial stock usage b ∈ h0 :: t0 := by
        rw [← hmap]
        exact List.mem_map_of_mem _ hb
      rcases List.mem_cons.mp hmem with he | he
      · rw [← hsome, he]
        exact foldl_min_le_init t0 h0
      · rw [← hsome]
        exact foldl_min_le_mem t0 h0 _ he
    have hattain : ∃ b ∈ bl, specUnitsForMaterial stock usage b = v := by
      have hm : v ∈ h0 :: t0 := by
        rw [← hsome]
        exact foldl_min_mem t0 h0
      rw [← hmap] at hm
      rcases List.mem_map.mp hm with ⟨b, hb, he⟩
      exact ⟨b, hb, he⟩
    obtain ⟨bστ, hbst, hbv⟩ := hattain
    unfold max_units_from_inventory
    rw [if_neg hbl]
    apply le_antisymm
    · refine le_trans (mu_fold_le_entry stock usage bl (10 ^ 9) bστ hbst
        (not_le.mpr (hq bστ hbst))) ?_
      rw [hbv, max_eq_right (le_of_lt hvpos)]
    · refine mu_fold_ge stock usage bl (10 ^ 9) v ?_ ?_
      · rw [← hbv]
        exact hub bστ hbst
      · intro b hb _
        exact le_trans (hvle b hb) (le_max_right 0 _)

theorem mu_le_zero_of_entry (bl : List BOMItem) (stock usage : List (String × ℤ))
    (b : BOMItem) (hb : b ∈ bl) (hq : 0 < b.quantity_per_unit)
    (hneg : specUnitsForMaterial stock usage b ≤ 0) :
    max_units_from_inventory bl stock usage ≤ 0 := by
  have hbl : ¬ bl.isEmpty := by
    cases bl with
    | nil => cases hb
    | cons a l => simp
  unfold max_units_from_inventory
  rw [if_neg hbl]
  refine le_trans (mu_fold_le_entry stock usage bl (10 ^ 9) b hb (not_le.mpr hq)) ?_
  omega

theorem mu_no_bom (stock usage : List (String × ℤ)) :
    max_units_from_inventory [] stock usage = 10 ^ 9 := rfl

theorem codeTarget_eq_spec (o : Order) (ol : List Line) (bl : List BOMItem) (hd : ℤ)
    (stock usage : List (String × ℤ))
    (hcaps : ∀ ln ∈ ol, 0 ≤ effCap ln hd)
    (hq : ∀ b ∈ bl, 0 < b.quantity_per_unit)
    (hub : ∀ b ∈ bl, specUnitsForMaterial stock usage b ≤ 10 ^ 9)
    (hqb : o.quantity ≤ 10 ^ 9)
    (hpos : 0 < specTargetQty o ol hd bl stock usage) :
    min (min o.quantity (pyInt (buildLineCapacity ol hd).2))
      (max_units_from_inventory bl stock usage) =
    specTargetQty o ol hd bl stock usage := by
  have hbc : (buildLineCapacity ol hd).2 = specTotalCapacityUnits ol hd :=
    buildLineCapacity_total_eq_spec ol hd hcaps
  have hnn : 0 ≤ specTotalCapacityUnits ol hd := specTotalCapacityUnits_nonneg ol hd hcaps
  have hpy : pyInt (buildLineCapacity ol hd).2 = ⌊specTotalCapacityUnits ol hd⌋ := by
    rw [hbc]
    exact pyInt_of_nonneg _ hnn
  unfold specTargetQty at hpos ⊢
  cases hinv : specInvLimit bl stock usage with
  | none =>
    have hbl : bl = [] := by
      cases bl with
      | nil => rfl
      | cons b t => simp [specInvLimit] at hinv
    subst hbl
    simp only [hinv] at hpos ⊢
    rw [mu_no_bom, hpy]
    have : min o.quantity ⌊specTotalCapacityUnits ol hd⌋ ≤ o.quantity := min_le_left _ _
    omega
  | some v =>
    simp only [hinv] at hpos ⊢
    have hvpos : 0 < v := lt_of_lt_of_le hpos (min_le_right _ _)
    rw [mu_eq_specInv bl stock usage v hq hub hinv hvpos, hpy]

theorem specTarget_le_imp_code_le (o : Order) (ol : List Line) (bl : List BOMItem)
    (hd : ℤ) (stock usage : List (String × ℤ))
    (hcaps : ∀ ln ∈ ol, 0 ≤ effCap ln hd)
    (hq : ∀ b ∈ bl, 0 < b.quantity_per_unit)
    (hle : specTargetQty o ol hd bl stock usage ≤ 0) :
    min (min o.quantity (pyInt (buildLineCapacity ol hd).2))
      (max_units_from_inventory bl stock usage) ≤ 0 := by
  have hbc : (buildLineCapacity ol hd).2 = specTotalCapacityUnits ol hd :=
    buildLineCapacity_total_eq_spec ol hd hcaps
  have hnn : 0 ≤ specTotalCapacityUnits ol hd := specTotalCapacityUnits_nonneg ol hd hcaps
  have hpy : pyInt (buildLineCapacity ol hd).2 = ⌊specTotalCapacityUnits ol hd⌋ := by
    rw [hbc]
    exact pyInt_of_nonneg _ hnn
  unfold specTargetQty at hle
  cases hinv : specInvLimit bl stock usage with
  | none =>
    simp only [hinv] at hle
    rw [hpy]
    have : min (min o.quantity ⌊specTotalCapacityUnits ol hd⌋)
        (max_units_from_inventory bl stock usage) ≤
        min o.quantity ⌊specTotalCapacityUnits ol hd⌋ := min_le_left _ _
    omega
  | some v =>
    simp only [hinv] at hle
    rw [hpy]
    by_cases hv : v ≤ 0
    · have hattain : ∃ b ∈ bl, specUnitsForMaterial stock usage b = v := by
        unfold specInvLimit at hinv
        rcases hmap : bl.map (specUnitsForMaterial stock usage) with _ | ⟨h0, t0⟩
        · rw [hmap] at hinv
          cases hinv
        · rw [hmap] at hinv
          simp only [Option.some.injEq] at hinv
          have hm : v ∈ h0 :: t0 := by
            rw [← hinv]
            exact foldl_min_mem t0 h0
          rw [← hmap] at hm
          rcases List.mem_map.mp hm with ⟨b, hb, he⟩
          exact ⟨b, hb, he⟩
      obtain ⟨b, hb, hbv⟩ := hattain
      have := mu_le_zero_of_entry bl stock usage b hb (hq b hb) (by omega)
      have h2 : min (min o.quantity ⌊specTotalCapacityUnits ol hd⌋)
          (max_units_from_inventory bl stock usage) ≤
          max_units_from_inventory bl stock usage := min_le_right _ _
      omega
    · have hmin : min o.quantity ⌊specTotalCapacityUnits ol hd⌋ ≤ 0 := by omega
      have h2 : min (min o.quantity ⌊specTotalCapacityUnits ol hd⌋)
          (max_units_from_inventory bl stock usage) ≤
          min o.quantity ⌊specTotalCapacityUnits ol hd⌋ := min_le_left _ _
      omega

theorem processOrder_stop (ctx : PlanCtx) (rid : String) (st : LoopState) (o : Order)
    (hlines : (ctx.lines.filter (fun l => decide (l.product_id = o.product_id))).isEmpty
      = false)
    (hnoplan : st.db.plans.any (fun p => decide (p.plan_id = planIdOf rid o.order_id))
      = false)
    (htle : min (min o.quantity (pyInt (buildLineCapacity
        (ctx.lines.filter (fun l => decide (l.product_id = o.product_id)))
        (max 1 (o.dispatch_date.getD (ctx.today + ctx.horizon_days_default) -
          o.start_date.getD ctx.today))).2))
      (max_units_from_inventory
        (ctx.bom.filter (fun b => decide (b.product_id = o.product_id)))
        ctx.stock st.usage) ≤ 0) :
    (processOrder ctx rid st o).db.allocations = st.db.allocations ∧
    (processOrder ctx rid st o).db.items = st.db.items ∧
    ∃ ev : Event, (processOrder ctx rid st o).db.events = st.db.events ++ [ev] ∧
      (ev.event_type = "CAPACITY_SHORTFALL" ∨ ev.event_type = "INVENTORY_SHORTFALL") := by
  rw [processOrder]
  simp only [hlines, hnoplan, Bool.false_eq_true, if_false]
  by_cases hcap : (buildLineCapacity
      (ctx.lines.filter (fun l => decide (l.product_id = o.product_id)))
      (max 1 (o.dispatch_date.getD (ctx.today + ctx.horizon_days_default) -
        o.start_date.getD ctx.today))).2 ≤ 0
  · rw [if_pos hcap]
    refine ⟨by simp [log_event], by simp [log_event], ?_⟩
    exact ⟨⟨"CAPACITY_SHORTFALL", "Order " ++ o.order_id ++
      " has no line capacity in horizon"⟩, by simp [log_event], Or.inl rfl⟩
  · rw [if_neg hcap]
    by_cases hinv : max_units_from_inventory
        (ctx.bom.filter (fun b => decide (b.product_id = o.product_id)))
        ctx.stock st.usage ≤ 0
    · rw [if_pos hinv]
      refine ⟨by simp [log_event], by simp [log_event], ?_⟩
      exact ⟨⟨"INVENTORY_SHORTFALL", "No inventory to plan product " ++ o.product_id⟩,
        by simp [log_event], Or.inr rfl⟩
    · rw [if_neg hinv]
      rw [if_pos htle]
      refine ⟨by simp [log_event], by simp [log_event], ?_⟩
      exact ⟨⟨"CAPACITY_SHORTFALL", "Order " ++ o.order_id ++
        " capacity and inventory allow 0 units"⟩, by simp [log_event], Or.inl rfl⟩

/-! ### Claim C2: the allocator target formula -/

/-- Claim C2: the planning horizon is max(1, dispatch minus start) with
start defaulting to today; for a planned order the target quantity of
the allocator equals min(order quantity, floor(total capacity units),
inventory limit), the total being the sum over candidate lines of
dailyCapacity times OEE times horizon days and the inventory limit the
minimum over BOM entries of floor((stock - planned usage)/qtyPerUnit),
unbounded without BOM; when that minimum is not positive the order gets
no allocations and one typed shortfall event instead of an exception. -/
theorem C2_target_qty (ctx : PlanCtx) (rid : String) (st : LoopState) (o : Order)
    (d : ℤ)
    (hdisp : o.dispatch_date = some d)
    (hlines : (ctx.lines.filter
      (fun l => decide (l.product_id = o.product_id))).isEmpty = false)
    (hnoplan : st.db.plans.any
      (fun p => decide (p.plan_id = planIdOf rid o.order_id)) = false)
    (hcaps : ∀ ln ∈ ctx.lines.filter (fun l => decide (l.product_id = o.product_id)),
      0 ≤ ln.daily_capacity ∧ 0 ≤ ln.oee_pct)
    (hq : ∀ b ∈ ctx.bom.filter (fun b => decide (b.product_id = o.product_id)),
      0 < b.quantity_per_unit)
    (hub : ∀ b ∈ ctx.bom.filter (fun b => decide (b.product_id = o.product_id)),
      specUnitsForMaterial ctx.stock st.usage b ≤ 10 ^ 9)
    (hqb : o.quantity ≤ 10 ^ 9) :
    max 1 (o.dispatch_date.getD (ctx.today + ctx.horizon_days_default) -
        o.start_date.getD ctx.today) = specHorizonDays ctx.today o d ∧
    (0 < specTargetQty o
        (ctx.lines.filter (fun l => decide (l.product_id = o.product_id)))
        (max 1 (o.dispatch_date.getD (ctx.today + ctx.horizon_days_default) -
          o.start_date.getD ctx.today))
        (ctx.bom.filter (fun b => decide (b.product_id = o.product_id)))
        ctx.stock st.usage →
      min (min o.quantity (pyInt (buildLineCapacity
          (ctx.lines.filter (fun l => decide (l.product_id = o.product_id)))
          (max 1 (o.dispatch_date.getD (ctx.today + ctx.horizon_days_default) -
            o.start_date.getD ctx.today))).2))
        (max_units_from_inventory
          (ctx.bom.filter (fun b => decide (b.product_id = o.product_id)))
          ctx.stock st.usage) =
      specTargetQty o
        (ctx.lines.filter (fun l => decide (l.product_id = o.product_id)))
        (max 1 (o.dispatch_date.getD (ctx.today + ctx.horizon_days_default) -
          o.start_date.getD ctx.today))
        (ctx.bom.filter (fun b => decide (b.product_id = o.product_id)))
        ctx.stock st.usage) ∧
    (specTargetQty o
        (ctx.lines.filter (fun l => decide (l.product_id = o.product_id)))
        (max 1 (o.dispatch_date.getD (ctx.today + ctx.horizon_days_default) -
          o.start_date.getD ctx.today))
        (ctx.bom.filter (fun b => decide (b.product_id = o.product_id)))
        ctx.stock st.usage ≤ 0 →
      (processOrder ctx rid st o).db.allocations = st.db.allocations ∧
      (processOrder ctx rid st o).db.items = st.db.items ∧
      ∃ ev : Event, (processOrder ctx rid st o).db.events = st.db.events ++ [ev] ∧
        (ev.event_type = "CAPACITY_SHORTFALL" ∨
          ev.event_type = "INVENTORY_SHORTFALL")) := by
  have hcap2 : ∀ ln ∈ ctx.lines.filter (fun l => decide (l.product_id = o.product_id)),
      0 ≤ effCap ln (max 1 (o.dispatch_date.getD (ctx.today + ctx.horizon_days_default) -
        o.start_date.getD ctx.today)) := by
    intro ln hln
    obtain ⟨h1, h2⟩ := hcaps ln hln
    unfold effCap
    have hd0 : (0 : ℚ) ≤ ((max 1 (o.dispatch_date.getD
        (ctx.today + ctx.horizon_days_default) - o.start_date.getD ctx.today) : ℤ) : ℚ) := by
      have : (0 : ℤ) ≤ max 1 (o.dispatch_date.getD (ctx.today + ctx.horizon_days_default) -
          o.start_date.getD ctx.today) := le_trans zero_le_one (le_max_left 1 _)
      exact_mod_cast this
    apply mul_nonneg (mul_nonneg ?_ h2) hd0
    exact_mod_cast h1
  refine ⟨?_, ?_, ?_⟩
  · rw [hdisp]
    simp [specHorizonDays]
  · intro hpos
    exact codeTarget_eq_spec o _ _ _ ctx.stock st.usage hcap2 hq hub hqb hpos
  · intro hle
    exact processOrder_stop ctx rid st o hlines hnoplan
      (specTarget_le_imp_code_le o _ _ _ ctx.stock st.usage hcap2 hq hle)

/-- Witness for C2: one line of capacity 5 over a one-day horizon, no
BOM, requested quantity 5. -/
theorem C2_target_qty_witness :
    min (min c2Order.quantity (pyInt (buildLineCapacity
        (c2Ctx.lines.filter (fun l => decide (l.product_id = c2Order.product_id)))
        (max 1 (c2Order.dispatch_date.getD (c2Ctx.today + c2Ctx.horizon_days_default) -
          c2Order.start_date.getD c2Ctx.today))).2))
      (max_units_from_inventory
        (c2Ctx.bom.filter (fun b => decide (b.product_id = c2Order.product_id)))
        c2Ctx.stock c2St.usage) =
    specTargetQty c2Order
      (c2Ctx.lines.filter (fun l => decide (l.product_id = c2Order.product_id)))
      (max 1 (c2Order.dispatch_date.getD (c2Ctx.today + c2Ctx.horizon_days_default) -
        c2Order.start_date.getD c2Ctx.today))
      (c2Ctx.bom.filter (fun b => decide (b.product_id = c2Order.product_id)))
      c2Ctx.stock c2St.usage :=
  (C2_target_qty c2Ctx "R" c2St c2Order 1 rfl
    (by simp [c2Ctx, c2Order])
    (by simp [c2St, emptyDB])
    (by intro ln hln; simp [c2Ctx, c2Order] at hln; subst hln; norm_num)
    (by intro b hb; simp [c2Ctx] at hb)
    (by intro b hb; simp [c2Ctx] at hb)
    (by norm_num [c2Order])).2.1
    (by norm_num [specTargetQty, specInvLimit, specTotalCapacityUnits, effCap,
      c2Ctx, c2Order, c2St])

/-! ### Preemption lemmas (claim C4) -/

theorem filter_filter_keep {α : Type} (lst : List α) (p q : α → Bool)
    (h : ∀ a ∈ lst, p a = true → q a = true) :
    (lst.filter q).filter p = lst.filter p := by
  induction lst with
  | nil => rfl
  | cons a t ih =>
    have ht : ∀ x ∈ t, p x = true → q x = true :=
      fun x hx => h x (List.mem_cons_of_mem a hx)
    by_cases hp : p a = true
    · have hq : q a = true := h a (List.mem_cons_self a t) hp
      simp only [List.filter_cons, hq, if_true, hp, ih ht]
    · have hp2 : p a = false := by
        cases hb : p a
        · rfl
        · exact absurd hb hp
      by_cases hq : q a = true
      · simp only [List.filter_cons, hq, if_true, hp2, Bool.false_eq_true, if_false, ih ht]
      · have hq2 : q a = false := by
          cases hb : q a
          · rfl
          · exact absurd hb hq
        simp only [List.filter_cons, hq2, hp2, Bool.false_eq_true, if_false, ih ht]

theorem nodup_map_inj {α β : Type} (f : α → β) (l : List α)
    (h : (l.map f).Nodup) : ∀ a ∈ l, ∀ b ∈ l, f a = f b → a = b := by
  induction l with
  | nil => intro a ha; cases ha
  | cons x t ih =>
    rw [List.map_cons, List.nodup_cons] at h
    intro a ha b hb he
    rcases List.mem_cons.mp ha with rfl | ha2
    · rcases List.mem_cons.mp hb with rfl | hb2
      · rfl
      · exact absurd (he ▸ List.mem_map_of_mem f hb2) h.1
    · rcases List.mem_cons.mp hb with rfl | hb2
      · exact absurd (he ▸ List.mem_map_of_mem f ha2) h.1
      · exact ih h.2 a ha2 b hb2 he

theorem hold_fold_allocations (rid : String) (l : List Order) :
    ∀ db : DB, (l.foldl (holdOrder rid) db).allocations =
      db.allocations.filter (fun a => ! allocInB rid (l.map (fun o => o.order_id)) a) := by
  induction l with
  | nil =>
    intro db
    simp [allocInB]
  | cons c t ih =>
    intro db
    rw [List.foldl_cons, ih]
    show ((holdOrder rid db c).allocations).filter _ = _
    have hh : (holdOrder rid db c).allocations = db.allocations.filter
        (fun a => decide (¬ (a.run_id = rid ∧ a.order_id = c.order_id))) := rfl
    rw [hh, List.filter_filter]
    apply List.filter_congr
    intro a _
    simp only [allocInB, List.map_cons, List.mem_cons, Bool.not_eq_true,
      Bool.and_eq_true, decide_eq_true_eq, Bool.and_eq_false_iff,
      decide_eq_false_iff_not, Bool.not_and, Bool.not_eq_true']
    by_cases h1 : a.run_id = rid
    · by_cases h2 : a.order_id = c.order_id
      · simp [h1, h2]
      · by_cases h3 : a.order_id ∈ t.map (fun o => o.order_id)
        · simp [h1, h2, h3]
        · simp [h1, h2, h3]
    · simp [h1]

theorem hold_fold_plans (rid : String) (l : List Order) :
    ∀ db : DB, (l.foldl (holdOrder rid) db).plans =
      db.plans.filter (fun p => ! planInB rid (l.map (fun o => o.order_id)) p) := by
  induction l with
  | nil =>
    intro db
    simp [planInB]
  | cons c t ih =>
    intro db
    rw [List.foldl_cons, ih]
    show ((holdOrder rid db c).plans).filter _ = _
    have hh : (holdOrder rid db c).plans = db.plans.filter
        (fun p => decide (p.plan_id ≠ planIdOf rid c.order_id)) := rfl
    rw [hh, List.filter_filter]
    apply List.filter_congr
    intro p _
    simp only [planInB, List.map_cons, List.map_map, List.mem_cons, Bool.not_eq_true,
      decide_eq_false_iff_not, decide_eq_true_eq, ne_eq, Function.comp]
    by_cases h1 : p.plan_id = planIdOf rid c.order_id
    · simp [h1]
    · by_cases h2 : p.plan_id ∈ t.map (fun o => planIdOf rid o.order_id)
      · simp only [List.mem_map] at h2
        simp [h1, h2]
      · simp only [List.mem_map] at h2
        simp [h1, h2]

theorem hold_fold_orders (rid : String) (l : List Order) :
    ∀ db : DB, (l.foldl (holdOrder rid) db).orders =
      db.orders.map (fun x =>
        if x.order_id ∈ l.map (fun o => o.order_id)
        then { x with status := "ON_HOLD" } else x) := by
  induction l with
  | nil =>
    intro db
    simp
  | cons c t ih =>
    intro db
    rw [List.foldl_cons, ih]
    show (db.orders.map (fun x =>
        if x.order_id = c.order_id then { x with status := "ON_HOLD" } else x)).map _ = _
    rw [List.map_map]
    apply List.map_congr_left
    intro x _
    by_cases h1 : x.order_id = c.order_id
    · by_cases h2 : x.order_id ∈ t.map (fun o => o.order_id)
      · simp [Function.comp, h1, h2]
      · simp [Function.comp, h1, h2]
    · by_cases h2 : x.order_id ∈ t.map (fun o => o.order_id)
      · simp [Function.comp, h1, h2]
      · simp [Function.comp, h1, h2]

theorem mem_refIds (db : DB) (rid : String) (S : List String) (x : ℤ) :
    x ∈ refIds db rid S ↔
      ∃ a ∈ db.allocations, a.run_id = rid ∧ a.order_id ∈ S ∧ a.plan_item_id = x := by
  unfold refIds allocInB
  simp only [List.mem_map, List.mem_filter, Bool.and_eq_true, decide_eq_true_eq]
  constructor
  · rintro ⟨a, ⟨ha, h1, h2⟩, h3⟩
    exact ⟨a, ha, h1, h2, h3⟩
  · rintro ⟨a, ha, h1, h2, h3⟩
    exact ⟨a, ⟨ha, h1, h2⟩, h3⟩

theorem hold_fold_items (rid : String) (l : List Order) :
    (l.map (fun o => o.order_id)).Nodup →
    ∀ db : DB, (l.foldl (holdOrder rid) db).items =
      db.items.filter (fun it =>
        decide (it.item_id ∉ refIds db rid (l.map (fun o => o.order_id)))) := by
  induction l with
  | nil =>
    intro _ db
    simp [refIds, allocInB]
  | cons c t ih =>
    intro hnd db
    rw [List.map_cons, List.nodup_cons] at hnd
    rw [List.foldl_cons, ih hnd.2]
    have hh : (holdOrder rid db c).items = db.items.filter
        (fun it => decide (it.item_id ∉
          ((db.allocations.filter (fun a =>
            decide (a.run_id = rid ∧ a.order_id = c.order_id))).map
            (fun a => a.plan_item_id)))) := rfl
    have hallocs : (holdOrder rid db c).allocations = db.allocations.filter
        (fun a => decide (¬ (a.run_id = rid ∧ a.order_id = c.order_id))) := rfl
    have hrefs : refIds (holdOrder rid db c) rid (t.map (fun o => o.order_id)) =
        refIds db rid (t.map (fun o => o.order_id)) := by
      unfold refIds
      rw [hallocs, filter_filter_keep]
      intro a _ hp
      simp only [allocInB, Bool.and_eq_true, decide_eq_true_eq] at hp
      simp only [decide_eq_true_eq]
      intro hc
      exact hnd.1 (hc.2 ▸ hp.2)
    rw [hrefs, hh, List.filter_filter]
    apply List.filter_congr
    intro it _
    have hciff : it.item_id ∈
        ((db.allocations.filter (fun a =>
          decide (a.run_id = rid ∧ a.order_id = c.order_id))).map
          (fun a => a.plan_item_id)) ↔
        ∃ a ∈ db.allocations, a.run_id = rid ∧ a.order_id = c.order_id ∧
          a.plan_item_id = it.item_id := by
      simp only [List.mem_map, List.mem_filter, decide_eq_true_eq]
      constructor
      · rintro ⟨a, ⟨ha, h1, h2⟩, h3⟩
        exact ⟨a, ha, h1, h2, h3⟩
      · rintro ⟨a, ha, h1, h2, h3⟩
        exact ⟨a, ⟨ha, ⟨h1, h2⟩⟩, h3⟩
    have hcons : it.item_id ∈ refIds db rid (c.order_id :: t.map (fun o => o.order_id)) ↔
        (it.item_id ∈ ((db.allocations.filter (fun a =>
            decide (a.run_id = rid ∧ a.order_id = c.order_id))).map
            (fun a => a.plan_item_id)) ∨
          it.item_id ∈ refIds db rid (t.map (fun o => o.order_id))) := by
      rw [mem_refIds, hciff, mem_refIds]
      constructor
      · rintro ⟨a, ha, h1, hs, h3⟩
        rcases List.mem_cons.mp hs with he | hm
        · exact Or.inl ⟨a, ha, h1, he, h3⟩
        · exact Or.inr ⟨a, ha, h1, hm, h3⟩
      · rintro (⟨a, ha, h1, he, h3⟩ | ⟨a, ha, h1, hm, h3⟩)
        · exact ⟨a, ha, h1, he ▸ List.mem_cons_self _ _, h3⟩
        · exact ⟨a, ha, h1, List.mem_cons_of_mem _ hm, h3⟩
    rw [List.map_cons, Bool.eq_iff_iff]
    simp only [Bool.and_eq_true, decide_eq_true_eq]
    rw [hcons]
    tauto

theorem target_mem_decode (db : DB) (spike : Order) (c : Order)
    (hc : c ∈ (db.orders.filter (competingB spike)).filter
      (fun o => decide (o.order_id ≠ spike.order_id))) :
    c ∈ db.orders ∧ c.product_id = spike.product_id ∧ c.is_spike = false ∧
      (c.status = "OPEN" ∨ c.status = "ON_HOLD") ∧ c.order_id ≠ spike.order_id := by
  rcases List.mem_filter.mp hc with ⟨hc1, hc2⟩
  rcases List.mem_filter.mp hc1 with ⟨hmem, hcomp⟩
  simp only [competingB, Bool.and_eq_true, Bool.or_eq_true, decide_eq_true_eq,
    Bool.not_eq_true'] at hcomp
  simp only [decide_eq_true_eq, ne_eq] at hc2
  exact ⟨hmem, hcomp.1.1, hcomp.1.2, hcomp.2, hc2⟩

theorem target_mem_encode (db : DB) (spike : Order) (c : Order)
    (hmem : c ∈ db.orders) (h1 : c.product_id = spike.product_id)
    (h2 : c.is_spike = false) (h3 : c.status = "OPEN" ∨ c.status = "ON_HOLD")
    (h4 : c.order_id ≠ spike.order_id) :
    c ∈ (db.orders.filter (competingB spike)).filter
      (fun o => decide (o.order_id ≠ spike.order_id)) := by
  apply List.mem_filter.mpr
  refine ⟨List.mem_filter.mpr ⟨hmem, ?_⟩, by simpa using h4⟩
  simp only [competingB, Bool.and_eq_true, Bool.or_eq_true, decide_eq_true_eq,
    Bool.not_eq_true']
  exact ⟨⟨h1, h2⟩, h3⟩

/-- Claim C4: after preemption for a spike order, every same-product
non-spike order previously OPEN or ON_HOLD (other than the spike itself)
has zero OrderAllocations in the run, zero PlanItems linked to its
run-keyed plan, its ProductPlan removed and status ON_HOLD; every other
order keeps its allocations, linked items, plan rows and status, so each
removal is all-or-nothing per order; with no competing orders the
operation leaves the database unchanged. -/
theorem C4_spike_preemption (db : DB) (rid : String) (spike : Order)
    (Hord : (db.orders.map (fun o => o.order_id)).Nodup)
    (Hlink : ∀ it ∈ db.items, ∀ oid : String, it.plan_id = planIdOf rid oid →
      ∃ a ∈ db.allocations, a.run_id = rid ∧ a.order_id = oid ∧
        a.plan_item_id = it.item_id)
    (Hlink2 : ∀ a ∈ db.allocations, a.run_id = rid → ∀ it ∈ db.items,
      it.item_id = a.plan_item_id → it.plan_id = planIdOf rid a.order_id) :
    (∀ c ∈ db.orders, c.product_id = spike.product_id → c.is_spike = false →
      (c.status = "OPEN" ∨ c.status = "ON_HOLD") → c.order_id ≠ spike.order_id →
      (handle_spike_preemption db rid spike).allocations.filter
          (allocB rid c.order_id) = [] ∧
      (handle_spike_preemption db rid spike).items.filter
          (fun it => decide (it.plan_id = planIdOf rid c.order_id)) = [] ∧
      (handle_spike_preemption db rid spike).plans.filter
          (fun p => decide (p.plan_id = planIdOf rid c.order_id)) = [] ∧
      (∀ x ∈ (handle_spike_preemption db rid spike).orders,
        x.order_id = c.order_id → x.status = "ON_HOLD")) ∧
    (∀ o2 ∈ db.orders, ¬ (o2.product_id = spike.product_id ∧ o2.is_spike = false ∧
        (o2.status = "OPEN" ∨ o2.status = "ON_HOLD") ∧
        o2.order_id ≠ spike.order_id) →
      (handle_spike_preemption db rid spike).allocations.filter
          (allocB rid o2.order_id) = db.allocations.filter (allocB rid o2.order_id) ∧
      (handle_spike_preemption db rid spike).items.filter
          (fun it => decide (it.plan_id = planIdOf rid o2.order_id)) =
        db.items.filter (fun it => decide (it.plan_id = planIdOf rid o2.order_id)) ∧
      (handle_spike_preemption db rid spike).plans.filter
          (fun p => decide (p.plan_id = planIdOf rid o2.order_id)) =
        db.plans.filter (fun p => decide (p.plan_id = planIdOf rid o2.order_id)) ∧
      (handle_spike_preemption db rid spike).orders.filter
          (fun x => decide (x.order_id = o2.order_id)) =
        db.orders.filter (fun x => decide (x.order_id = o2.order_id))) ∧
    ((∀ c ∈ db.orders, ¬ (c.product_id = spike.product_id ∧ c.is_spike = false ∧
        (c.status = "OPEN" ∨ c.status = "ON_HOLD") ∧
        c.order_id ≠ spike.order_id)) →
      handle_spike_preemption db rid spike = db) := by
  have hdef : handle_spike_preemption db rid spike =
      (if ((db.orders.filter (competingB spike)).filter
          (fun o => decide (o.order_id ≠ spike.order_id))).isEmpty then db
       else ((db.orders.filter (competingB spike)).filter
          (fun o => decide (o.order_id ≠ spike.order_id))).foldl (holdOrder rid) db) :=
    rfl
  have hts_sub : ((db.orders.filter (competingB spike)).filter
      (fun o => decide (o.order_id ≠ spike.order_id))).Sublist db.orders :=
    (List.filter_sublist _).trans (List.filter_sublist _)
  have htnd : (((db.orders.filter (competingB spike)).filter
      (fun o => decide (o.order_id ≠ spike.order_id))).map
        (fun o => o.order_id)).Nodup :=
    Hord.sublist (hts_sub.map _)
  refine ⟨?_, ?_, ?_⟩
  · -- targets are fully cleansed
    intro c hmem h1 h2 h3 h4
    have hct : c ∈ (db.orders.filter (competingB spike)).filter
        (fun o => decide (o.order_id ≠ spike.order_id)) :=
      target_mem_encode db spike c hmem h1 h2 h3 h4
    have hne : ¬ ((db.orders.filter (competingB spike)).filter
        (fun o => decide (o.order_id ≠ spike.order_id))).isEmpty = true := by
      intro hemp
      rw [List.isEmpty_iff.mp hemp] at hct
      cases hct
    rw [hdef, if_neg hne]
    have hcid : c.order_id ∈ ((db.orders.filter (competingB spike)).filter
        (fun o => decide (o.order_id ≠ spike.order_id))).map (fun o => o.order_id) :=
      List.mem_map_of_mem _ hct
    refine ⟨?_, ?_, ?_, ?_⟩
    · rw [hold_fold_allocations, List.filter_filter]
      apply List.filter_eq_nil_iff.mpr
      intro a _ hcontra
      rw [Bool.and_eq_true] at hcontra
      obtain ⟨hab, hnotin⟩ := hcontra
      simp only [allocB, decide_eq_true_eq] at hab
      have hin : allocInB rid (((db.orders.filter (competingB spike)).filter
          (fun o => decide (o.order_id ≠ spike.order_id))).map
            (fun o => o.order_id)) a = true := by
        simp only [allocInB, Bool.and_eq_true, decide_eq_true_eq]
        exact ⟨hab.1, hab.2 ▸ hcid⟩
      rw [hin] at hnotin
      simp at hnotin
    · rw [hold_fold_items rid _ htnd, List.filter_filter]
      apply List.filter_eq_nil_iff.mpr
      intro it hit hcontra
      rw [Bool.and_eq_true] at hcontra
      obtain ⟨hplan, hnotref⟩ := hcontra
      simp only [decide_eq_true_eq] at hplan hnotref
      obtain ⟨a, ha, har, hao, hap⟩ := Hlink it hit c.order_id hplan
      exact hnotref ((mem_refIds db rid _ it.item_id).mpr ⟨a, ha, har, hao ▸ hcid, hap⟩)
    · rw [hold_fold_plans, List.filter_filter]
      apply List.filter_eq_nil_iff.mpr
      intro p _ hcontra
      rw [Bool.and_eq_true] at hcontra
      obtain ⟨hpb, hnp⟩ := hcontra
      simp only [decide_eq_true_eq] at hpb
      have hin : planInB rid (((db.orders.filter (competingB spike)).filter
          (fun o => decide (o.order_id ≠ spike.order_id))).map
            (fun o => o.order_id)) p = true := by
        simp only [planInB, decide_eq_true_eq]
        exact hpb ▸ List.mem_map_of_mem (planIdOf rid) hcid
      rw [hin] at hnp
      simp at hnp
    · intro x hx hxid
      rw [hold_fold_orders] at hx
      rcases List.mem_map.mp hx with ⟨y, hy, hyx⟩
      by_cases hyid : y.order_id ∈ ((db.orders.filter (competingB spike)).filter
          (fun o => decide (o.order_id ≠ spike.order_id))).map (fun o => o.order_id)
      · rw [if_pos hyid] at hyx
        rw [← hyx]
      · rw [if_neg hyid] at hyx
        subst hyx
        exact absurd (hxid ▸ hcid) hyid
  · -- non-targets are untouched
    intro o2 hmem hno
    have ho2nid : o2.order_id ∉ ((db.orders.filter (competingB spike)).filter
        (fun o => decide (o.order_id ≠ spike.order_id))).map (fun o => o.order_id) := by
      intro hin
      rcases List.mem_map.mp hin with ⟨t, ht, hte⟩
      have hdec := target_mem_decode db spike t ht
      have : t = o2 := nodup_map_inj _ _ Hord t hdec.1 o2 hmem hte
      subst this
      exact hno ⟨hdec.2.1, hdec.2.2.1, hdec.2.2.2.1, hdec.2.2.2.2⟩
    by_cases hemp : ((db.orders.filter (competingB spike)).filter
        (fun o => decide (o.order_id ≠ spike.order_id))).isEmpty
    · rw [hdef, if_pos hemp]
      exact ⟨rfl, rfl, rfl, rfl⟩
    · rw [hdef, if_neg hemp]
      refine ⟨?_, ?_, ?_, ?_⟩
      · rw [hold_fold_allocations]
        apply filter_filter_keep
        intro a _ hp
        simp only [allocB, decide_eq_true_eq] at hp
        cases hb : allocInB rid (((db.orders.filter (competingB spike)).filter
            (fun o => decide (o.order_id ≠ spike.order_id))).map
              (fun o => o.order_id)) a with
        | false => simp [hb]
        | true =>
          exfalso
          simp only [allocInB, Bool.and_eq_true, decide_eq_true_eq] at hb
          exact ho2nid (hp.2 ▸ hb.2)
      · rw [hold_fold_items rid _ htnd]
        apply filter_filter_keep
        intro it hit hp
        simp only [decide_eq_true_eq] at hp
        rw [decide_eq_true_eq]
        intro hin
        obtain ⟨a, ha, har, hao, hap⟩ := (mem_refIds db rid _ it.item_id).mp hin
        have hplan := Hlink2 a ha har it hit hap.symm
        rw [hp] at hplan
        have : o2.order_id = a.order_id := planIdOf_inj rid _ _ hplan
        exact ho2nid (this ▸ hao)
      · rw [hold_fold_plans]
        apply filter_filter_keep
        intro p _ hp
        simp only [decide_eq_true_eq] at hp
        cases hb : planInB rid (((db.orders.filter (competingB spike)).filter
            (fun o => decide (o.order_id ≠ spike.order_id))).map
              (fun o => o.order_id)) p with
        | false => simp [hb]
        | true =>
          exfalso
          simp only [planInB, decide_eq_true_eq] at hb
          rw [hp] at hb
          rcases List.mem_map.mp hb with ⟨oid, hoid, he⟩
          have : o2.order_id = oid := planIdOf_inj rid _ _ he.symm
          exact ho2nid (this ▸ hoid)
      · rw [hold_fold_orders, List.filter_map]
        have hpe : ∀ y ∈ db.orders,
            ((fun x => decide (x.order_id = o2.order_id)) ∘ (fun x =>
              if x.order_id ∈ ((db.orders.filter (competingB spike)).filter
                (fun o => decide (o.order_id ≠ spike.order_id))).map
                  (fun o => o.order_id)
              then { x with status := "ON_HOLD" } else x)) y =
            decide (y.order_id = o2.order_id) := by
          intro y _
          simp only [Function.comp]
          split
          · rfl
          · rfl
        rw [List.filter_congr hpe]
        have hid : ∀ y ∈ db.orders.filter (fun x => decide (x.order_id = o2.order_id)),
            (fun x =>
              if x.order_id ∈ ((db.orders.filter (competingB spike)).filter
                (fun o => decide (o.order_id ≠ spike.order_id))).map
                  (fun o => o.order_id)
              then { x with status := "ON_HOLD" } else x) y = id y := by
          intro y hy
          have hyid : y.order_id = o2.order_id := by
            simpa using (List.mem_filter.mp hy).2
          simp only [id]
          rw [if_neg]
          rw [hyid]
          exact ho2nid
        rw [List.map_congr_left hid, List.map_id]
  · -- no competing orders: no-op
    intro hall
    have hemp : ((db.orders.filter (competingB spike)).filter
        (fun o => decide (o.order_id ≠ spike.order_id))) = [] := by
      apply List.eq_nil_iff_forall_not_mem.mpr
      intro c hc
      have hdec := target_mem_decode db spike c hc
      exact hall c hdec.1 ⟨hdec.2.1, hdec.2.2.1, hdec.2.2.2.1, hdec.2.2.2.2⟩
    rw [hdef, hemp]
    rfl

/-- Witness for C4: preempting the spike order wipes the allocations of
the planned competing order. -/
theorem C4_spike_preemption_witness :
    (handle_spike_preemption c4DB "R" c4Spike).allocations.filter
      (allocB "R" c4Comp.order_id) = [] := by
  have hord : (c4DB.orders.map (fun o => o.order_id)).Nodup := by
    simp [c4DB, c4Spike, c4Comp]
  have hlink : ∀ it ∈ c4DB.items, ∀ oid : String,
      it.plan_id = planIdOf "R" oid →
      ∃ a ∈ c4DB.allocations, a.run_id = "R" ∧ a.order_id = oid ∧
        a.plan_item_id = it.item_id := by
    intro it hit oid hpl
    simp only [c4DB, List.mem_singleton] at hit
    subst hit
    have hoid : "B1" = oid := planIdOf_inj "R" _ _ hpl
    subst hoid
    exact ⟨⟨"R", planIdOf "R" "B1", "B1", "L1", "P-HE", 4, 7⟩, by simp [c4DB],
      rfl, rfl, rfl⟩
  have hlink2 : ∀ a ∈ c4DB.allocations, a.run_id = "R" → ∀ it ∈ c4DB.items,
      it.item_id = a.plan_item_id → it.plan_id = planIdOf "R" a.order_id := by
    intro a ha _ it hit _
    simp only [c4DB, List.mem_singleton] at ha hit
    subst ha
    subst hit
    rfl
  exact ((C4_spike_preemption c4DB "R" c4Spike hord hlink hlink2).1 c4Comp
    (by simp [c4DB]) rfl rfl (Or.inl rfl) (by simp [c4Comp, c4Spike])).1

/-! ### Replenishment lemmas (claim C7) -/

theorem foldl_preserves {α β : Type} (P : α → Prop) (f : α → β → α)
    (h : ∀ a b, P a → P (f a b)) : ∀ (l : List β) (a : α), P a → P (l.foldl f a) := by
  intro l
  induction l with
  | nil => intro a ha; exact ha
  | cons b t ih => intro a ha; exact ih _ (h a b ha)

theorem qty_by_product_nodup_keys (orders : List Order) :
    (dkeys (qty_by_product orders)).Nodup := by
  unfold qty_by_product
  exact foldl_preserves (fun l => (dkeys l).Nodup) _
    (fun a b ha => dkeys_nodup_dset _ _ _ ha) orders [] (by simp [dkeys])

theorem required_by_material_nodup_keys (qbp : List (String × ℤ)) (bom : List BOMItem) :
    (dkeys (required_by_material qbp bom)).Nodup := by
  unfold required_by_material
  refine foldl_preserves (fun l => (dkeys l).Nodup) _ ?_ qbp [] (by simp [dkeys])
  intro a b ha
  exact foldl_preserves (fun l => (dkeys l).Nodup) _
    (fun a2 b2 ha2 => dkeys_nodup_dset _ _ _ ha2) _ a ha

theorem capo_eq_fold (orders : List Order) (bom : List BOMItem)
    (inv : List InventoryItem) (suppliers : List Supplier)
    (inv_state initial_by_mat : List (String × ℤ))
    (pos0 : List PurchaseOrder) (events0 : List Event) (today : ℤ) :
    check_and_place_purchase_orders orders bom inv suppliers inv_state initial_by_mat
      pos0 events0 today =
    (required_by_material (qty_by_product orders) bom).foldl
      (capo_step inv suppliers inv_state initial_by_mat today) (pos0, events0) := by
  unfold check_and_place_purchase_orders
  by_cases h1 : orders.isEmpty
  · rw [if_pos h1, List.isEmpty_iff.mp h1]
    simp [qty_by_product, required_by_material]
  · rw [if_neg h1]
    by_cases h2 : (qty_by_product orders).isEmpty
    · rw [if_pos h2]
      rw [List.isEmpty_iff.mp h2]
      simp [required_by_material]
    · rw [if_neg h2]
      by_cases h3 : (required_by_material (qty_by_product orders) bom).isEmpty
      · rw [if_pos h3, List.isEmpty_iff.mp h3]
        rfl
      · rw [if_neg h3]

theorem capoNewPO_mat (inv : List InventoryItem) (suppliers : List Supplier)
    (inv_state initial_by_mat : List (String × ℤ)) (today : ℤ)
    (pos_mid : List PurchaseOrder) (mid : String) (required : ℤ) (po : PurchaseOrder)
    (h : capoNewPO inv suppliers inv_state initial_by_mat today pos_mid mid required =
      some po) :
    po.material_id = mid ∧ po.status = "PLACED" := by
  unfold capoNewPO at h
  rcases hf : inv.find? (fun i => decide (i.material_id = mid)) with _ | invrow
  · simp only [hf] at h
    exact Option.noConfusion h
  · simp only [hf] at h
    by_cases hr : max 0 (required - dget inv_state mid
        (dget initial_by_mat mid invrow.current_stock)) ≤ 0
    · rw [if_pos hr] at h
      cases h
    · rw [if_neg hr] at h
      by_cases ha : (pos_mid.any (fun po => decide (po.status ≠ "DELIVERED"))) = true
      · rw [if_pos ha] at h
        cases h
      · rw [if_neg ha] at h
        rcases hs : suppliers.find? (fun s => decide (s.supplier_id = invrow.supplier_id))
          with _ | sup
        · simp only [hs] at h
          exact Option.noConfusion h
        · simp only [hs, Option.some.injEq] at h
          subst h
          exact ⟨rfl, rfl⟩

theorem capo_step_pos (inv : List InventoryItem) (suppliers : List Supplier)
    (inv_state initial_by_mat : List (String × ℤ)) (today : ℤ)
    (acc : List PurchaseOrder × List Event) (mr : String × ℤ) :
    (capo_step inv suppliers inv_state initial_by_mat today acc mr).1 =
      acc.1 ++ (capoNewPO inv suppliers inv_state initial_by_mat today
        (acc.1.filter (matFilter mr.1)) mr.1 mr.2).toList := by
  unfold capo_step capoNewPO
  rcases hf : inv.find? (fun i => decide (i.material_id = mr.1)) with _ | invrow
  · simp [hf]
  · simp only [hf]
    by_cases hr : max 0 (mr.2 - dget inv_state mr.1
        (dget initial_by_mat mr.1 invrow.current_stock)) ≤ 0
    · simp [hr]
    · rw [if_neg hr, if_neg hr]
      have hany : (acc.1.any (fun po =>
          decide (po.material_id = mr.1) && decide (po.status ≠ "DELIVERED"))) =
          ((acc.1.filter (matFilter mr.1)).any
            (fun po => decide (po.status ≠ "DELIVERED"))) := by
        rw [List.any_filter]
        rfl
      rw [hany]
      by_cases ha : ((acc.1.filter (matFilter mr.1)).any
          (fun po => decide (po.status ≠ "DELIVERED"))) = true
      · rw [if_pos ha, if_pos ha]
        simp
      · have ha2 : ((acc.1.filter (matFilter mr.1)).any
            (fun po => decide (po.status ≠ "DELIVERED"))) = false := by
          cases hb : ((acc.1.filter (matFilter mr.1)).any
              (fun po => decide (po.status ≠ "DELIVERED")))
          · rfl
          · exact absurd hb ha
        rw [ha2]
        simp only [Bool.false_eq_true, if_false]
        rcases hs : suppliers.find? (fun s => decide (s.supplier_id = invrow.supplier_id))
          with _ | sup
        · simp [hs]
        · simp [hs]

theorem capo_fold_appends (inv : List InventoryItem) (suppliers : List Supplier)
    (inv_state initial_by_mat : List (String × ℤ)) (today : ℤ)
    (req : List (String × ℤ)) :
    ∀ acc : List PurchaseOrder × List Event,
    ∃ news : List PurchaseOrder,
      (req.foldl (capo_step inv suppliers inv_state initial_by_mat today) acc).1 =
        acc.1 ++ news ∧ ∀ po ∈ news, po.material_id ∈ dkeys req := by
  induction req with
  | nil => intro acc; exact ⟨[], by simp, by simp⟩
  | cons mr t ih =>
    intro acc
    rw [List.foldl_cons]
    obtain ⟨news, hn1, hn2⟩ := ih (capo_step inv suppliers inv_state initial_by_mat today acc mr)
    rcases hopt : capoNewPO inv suppliers inv_state initial_by_mat today
        (acc.1.filter (matFilter mr.1)) mr.1 mr.2 with _ | po
    · refine ⟨news, ?_, ?_⟩
      · rw [hn1, capo_step_pos, hopt]
        simp
      · intro po hpo
        exact List.mem_cons_of_mem _ (hn2 po hpo)
    · refine ⟨po :: news, ?_, ?_⟩
      · rw [hn1, capo_step_pos, hopt]
        simp
      · intro p hp
        rcases List.mem_cons.mp hp with rfl | hm
        · rw [(capoNewPO_mat _ _ _ _ _ _ _ _ p hopt).1]
          simp [dkeys]
        · exact List.mem_cons_of_mem _ (hn2 p hm)

/-- When the accumulated purchase orders of a material already contain an
open one, the sweep creates nothing for that material, whatever the
requirement, the inventory state or the day. -/
theorem capoNewPO_none_of_open (inv : List InventoryItem) (suppliers : List Supplier)
    (inv_state initial_by_mat : List (String × ℤ)) (today : ℤ)
    (pos_mid : List PurchaseOrder) (mid : String) (required : ℤ)
    (ha : pos_mid.any (fun po => decide (po.status ≠ "DELIVERED")) = true) :
    capoNewPO inv suppliers inv_state initial_by_mat today pos_mid mid required = none := by
  unfold capoNewPO
  rcases hf : inv.find? (fun i => decide (i.material_id = mid)) with _ | invrow
  · simp [hf]
  · simp only [hf]
    by_cases hr : max 0 (required - dget inv_state mid
        (dget initial_by_mat mid invrow.current_stock)) ≤ 0
    · rw [if_pos hr]
    · rw [if_neg hr, if_pos ha]

/-- In the creating case (master row found, supplier found, positive
remaining requirement, no open purchase order for the material) the
sweep decision is exactly one new PLACED purchase order of the remaining
requirement with eta today plus the supplier lead time. -/
theorem capoNewPO_creates (inv : List InventoryItem) (suppliers : List Supplier)
    (inv_state initial_by_mat : List (String × ℤ)) (today : ℤ)
    (pos_mid : List PurchaseOrder) (mid : String) (required : ℤ)
    (invrow : InventoryItem) (sup : Supplier)
    (hf : inv.find? (fun i => decide (i.material_id = mid)) = some invrow)
    (hs : suppliers.find? (fun s => decide (s.supplier_id = invrow.supplier_id)) = some sup)
    (hr : 0 < required - dget inv_state mid (dget initial_by_mat mid invrow.current_stock))
    (ha : pos_mid.any (fun po => decide (po.status ≠ "DELIVERED")) = false) :
    capoNewPO inv suppliers inv_state initial_by_mat today pos_mid mid required =
      some ⟨"PO-" ++ mid ++ "-" ++ toString today, mid, sup.supplier_id,
        max 0 (required - dget inv_state mid (dget initial_by_mat mid invrow.current_stock)),
        today, today + sup.lead_time_days, "PLACED"⟩ := by
  unfold capoNewPO
  simp only [hf]
  have hr2 : ¬ max 0 (required - dget inv_state mid
      (dget initial_by_mat mid invrow.current_stock)) ≤ 0 := by
    rw [not_le]
    exact lt_max_of_lt_right hr
  rw [if_neg hr2, if_neg (by rw [ha]; exact Bool.false_ne_true)]
  simp only [hs]

/-- A fold over materials a given material is not among leaves that
material's purchase orders untouched. -/
theorem capo_fold_filter_not_mem (inv : List InventoryItem) (suppliers : List Supplier)
    (inv_state initial_by_mat : List (String × ℤ)) (today : ℤ)
    (req : List (String × ℤ)) (mid : String) (hnm : mid ∉ dkeys req)
    (acc : List PurchaseOrder × List Event) :
    ((req.foldl (capo_step inv suppliers inv_state initial_by_mat today) acc).1.filter
      (matFilter mid)) = acc.1.filter (matFilter mid) := by
  obtain ⟨news, heq, hmat⟩ :=
    capo_fold_appends inv suppliers inv_state initial_by_mat today req acc
  rw [heq, List.filter_append]
  have hnil : news.filter (matFilter mid) = [] := by
    rw [List.filter_eq_nil_iff]
    intro po hpo
    simp only [matFilter, decide_eq_true_eq]
    intro hcontra
    exact hnm (hcontra ▸ hmat po hpo)
  rw [hnil, List.append_nil]

/-- Per-material characterization of the replenishment fold: when the
material keys are distinct, the purchase orders of one required
material after the sweep are those before it plus exactly the single
decision the sweep takes for that material. -/
theorem capo_fold_filter_mat (inv : List InventoryItem) (suppliers : List Supplier)
    (inv_state initial_by_mat : List (String × ℤ)) (today : ℤ) :
    ∀ req : List (String × ℤ), (dkeys req).Nodup →
    ∀ (mid : String) (v : ℤ), (mid, v) ∈ req →
    ∀ acc : List PurchaseOrder × List Event,
    ((req.foldl (capo_step inv suppliers inv_state initial_by_mat today) acc).1.filter
      (matFilter mid)) =
      acc.1.filter (matFilter mid) ++
        (capoNewPO inv suppliers inv_state initial_by_mat today
          (acc.1.filter (matFilter mid)) mid v).toList := by
  intro req
  induction req with
  | nil =>
    intro _ mid v hmem
    cases hmem
  | cons mr t ih =>
    obtain ⟨m0, v0⟩ := mr
    intro hnd mid v hmem acc
    have hnd2 : (dkeys t).Nodup := by
      rw [dkeys, List.map_cons] at hnd
      exact (List.nodup_cons.mp hnd).2
    have hhead : m0 ∉ dkeys t := by
      rw [dkeys, List.map_cons] at hnd
      exact (List.nodup_cons.mp hnd).1
    rw [List.foldl_cons]
    have hsp := capo_step_pos inv suppliers inv_state initial_by_mat today acc (m0, v0)
    dsimp only at hsp
    rcases List.mem_cons.mp hmem with heq | hmem2
    · rw [Prod.mk.injEq] at heq
      obtain ⟨h1, h2⟩ := heq
      subst h1
      subst h2
      rw [capo_fold_filter_not_mem inv suppliers inv_state initial_by_mat today t mid hhead]
      rw [hsp, List.filter_append]
      rcases hopt : capoNewPO inv suppliers inv_state initial_by_mat today
          (acc.1.filter (matFilter mid)) mid v with _ | po
      · simp
      · have hm := (capoNewPO_mat inv suppliers inv_state initial_by_mat today
          (acc.1.filter (matFilter mid)) mid v po hopt).1
        simp [matFilter, hm]
    · have hmid_t : mid ∈ dkeys t := by
        rw [dkeys]
        exact List.mem_map.mpr ⟨(mid, v), hmem2, rfl⟩
      have hne : ¬ m0 = mid := by
        intro hcontra
        exact hhead (hcontra ▸ hmid_t)
      have hstep : (capo_step inv suppliers inv_state initial_by_mat today
          acc (m0, v0)).1.filter (matFilter mid) = acc.1.filter (matFilter mid) := by
        rw [hsp, List.filter_append]
        have hnil : ((capoNewPO inv suppliers inv_state initial_by_mat today
            (acc.1.filter (matFilter m0)) m0 v0).toList).filter (matFilter mid) = [] := by
          rcases hopt : capoNewPO inv suppliers inv_state initial_by_mat today
              (acc.1.filter (matFilter m0)) m0 v0 with _ | po
          · simp
          · have hm := (capoNewPO_mat inv suppliers inv_state initial_by_mat today
              (acc.1.filter (matFilter m0)) m0 v0 po hopt).1
            have hmf : matFilter mid po = false := by
              simp only [matFilter, decide_eq_false_iff_not]
              rw [hm]
              exact hne
            simp [hmf]
        rw [hnil, List.append_nil]
      rw [ih hnd2 mid v hmem2 (capo_step inv suppliers inv_state initial_by_mat today
        acc (m0, v0)), hstep]

theorem bool_eq_false_of_not {b : Bool} (h : ¬ b = true) : b = false := by
  cases b with
  | false => rfl
  | true => exact absurd rfl h

/-- Claim C7 counterexample: material M014 has remaining requirement 120
and no purchase order at all, open or otherwise, yet the sweep creates
no purchase order, because the supplier id of its inventory master row
resolves to no supplier; it only logs SUPPLIER_MISSING. So a material
with positive remaining requirement and no open PO does not always get
a new PO. -/
theorem C7_counterexample :
    dget (required_by_material (qty_by_product c7xOrders) c7xBom) "M014" 0 = 120 ∧
    (check_and_place_purchase_orders c7xOrders c7xBom c7xInv [] [] [] [] [] 0).1 = [] ∧
    (check_and_place_purchase_orders c7xOrders c7xBom c7xInv [] [] [] [] [] 0).2 =
      [⟨"SUPPLIER_MISSING", "No supplier found for material " ++ "M014"⟩] := by
  refine ⟨by decide, by decide, by decide⟩

/-- Claim C7 (amended with the master-row and supplier proviso): for a
required material whose inventory master row exists and whose supplier
resolves, with positive remaining requirement: if no open purchase
order for it exists, the sweep creates exactly one new PO with quantity
the remaining requirement, eta today plus the supplier lead time and
status PLACED; if an open PO exists it creates none; a material with at
most one open PO keeps at most one; and an immediate second sweep, on
any day and inventory state, adds nothing for that material. -/
theorem C7_single_open_po
    (orders : List Order) (bom : List BOMItem) (inv : List InventoryItem)
    (suppliers : List Supplier) (inv_state initial_by_mat : List (String × ℤ))
    (pos0 : List PurchaseOrder) (events0 : List Event) (today : ℤ)
    (mid : String) (v : ℤ) (invrow : InventoryItem) (sup : Supplier)
    (hmem : (mid, v) ∈ required_by_material (qty_by_product orders) bom)
    (hf : inv.find? (fun i => decide (i.material_id = mid)) = some invrow)
    (hs : suppliers.find? (fun s => decide (s.supplier_id = invrow.supplier_id)) = some sup)
    (hr : 0 < v - dget inv_state mid (dget initial_by_mat mid invrow.current_stock)) :
    ((pos0.filter (matFilter mid)).any (fun po => decide (po.status ≠ "DELIVERED")) = false →
      (check_and_place_purchase_orders orders bom inv suppliers inv_state initial_by_mat
          pos0 events0 today).1.filter (matFilter mid) =
        pos0.filter (matFilter mid) ++
          [⟨"PO-" ++ mid ++ "-" ++ toString today, mid, sup.supplier_id,
            v - dget inv_state mid (dget initial_by_mat mid invrow.current_stock),
            today, today + sup.lead_time_days, "PLACED"⟩]) ∧
    ((pos0.filter (matFilter mid)).any (fun po => decide (po.status ≠ "DELIVERED")) = true →
      (check_and_place_purchase_orders orders bom inv suppliers inv_state initial_by_mat
          pos0 events0 today).1.filter (matFilter mid) = pos0.filter (matFilter mid)) ∧
    ((pos0.filter (matFilter mid)).countP (fun po => decide (po.status ≠ "DELIVERED")) ≤ 1 →
      ((check_and_place_purchase_orders orders bom inv suppliers inv_state initial_by_mat
          pos0 events0 today).1.filter (matFilter mid)).countP
        (fun po => decide (po.status ≠ "DELIVERED")) ≤ 1) ∧
    (∀ (inv_state2 : List (String × ℤ)) (events2 : List Event) (today2 : ℤ),
      (check_and_place_purchase_orders orders bom inv suppliers inv_state2 initial_by_mat
          (check_and_place_purchase_orders orders bom inv suppliers inv_state initial_by_mat
            pos0 events0 today).1 events2 today2).1.filter (matFilter mid) =
        (check_and_place_purchase_orders orders bom inv suppliers inv_state initial_by_mat
          pos0 events0 today).1.filter (matFilter mid)) := by
  have hnd := required_by_material_nodup_keys (qty_by_product orders) bom
  have hmax : max 0 (v - dget inv_state mid (dget initial_by_mat mid invrow.current_stock))
      = v - dget inv_state mid (dget initial_by_mat mid invrow.current_stock) :=
    max_eq_right hr.le
  have hcore : ∀ (st2 : List (String × ℤ)) (p0 : List PurchaseOrder) (e0 : List Event)
      (d : ℤ),
      (check_and_place_purchase_orders orders bom inv suppliers st2 initial_by_mat
        p0 e0 d).1.filter (matFilter mid) =
      p0.filter (matFilter mid) ++
        (capoNewPO inv suppliers st2 initial_by_mat d
          (p0.filter (matFilter mid)) mid v).toList := by
    intro st2 p0 e0 d
    rw [capo_eq_fold]
    exact capo_fold_filter_mat inv suppliers st2 initial_by_mat d _ hnd mid v hmem (p0, e0)
  refine ⟨?_, ?_, ?_, ?_⟩
  · intro ha
    rw [hcore, capoNewPO_creates inv suppliers inv_state initial_by_mat today _ mid v
      invrow sup hf hs hr ha, hmax]
    rfl
  · intro ha
    rw [hcore, capoNewPO_none_of_open inv suppliers inv_state initial_by_mat today _ mid
      v ha]
    simp
  · intro hc
    by_cases ha : (pos0.filter (matFilter mid)).any
        (fun po => decide (po.status ≠ "DELIVERED")) = true
    · rw [hcore, capoNewPO_none_of_open inv suppliers inv_state initial_by_mat today _ mid
        v ha]
      simpa using hc
    · have ha2 := bool_eq_false_of_not ha
      rw [hcore, capoNewPO_creates inv suppliers inv_state initial_by_mat today _ mid v
        invrow sup hf hs hr ha2]
      rw [show (some ⟨"PO-" ++ mid ++ "-" ++ toString today, mid, sup.supplier_id,
        max 0 (v - dget inv_state mid (dget initial_by_mat mid invrow.current_stock)),
        today, today + sup.lead_time_days, "PLACED"⟩ : Option PurchaseOrder).toList =
        [⟨"PO-" ++ mid ++ "-" ++ toString today, mid, sup.supplier_id,
        max 0 (v - dget inv_state mid (dget initial_by_mat mid invrow.current_stock)),
        today, today + sup.lead_time_days, "PLACED"⟩] from rfl]
      rw [List.countP_append]
      have hzero : (pos0.filter (matFilter mid)).countP
          (fun po => decide (po.status ≠ "DELIVERED")) = 0 := by
        rw [List.countP_eq_zero]
        intro a hamem hp
        have hany : (pos0.filter (matFilter mid)).any
            (fun po => decide (po.status ≠ "DELIVERED")) = true :=
          List.any_eq_true.mpr ⟨a, hamem, hp⟩
        rw [ha2] at hany
        cases hany
      rw [hzero]
      simp [List.countP_cons]
  · intro st2 e2 d2
    have hopen : ((check_and_place_purchase_orders orders bom inv suppliers inv_state
        initial_by_mat pos0 events0 today).1.filter (matFilter mid)).any
        (fun po => decide (po.status ≠ "DELIVERED")) = true := by
      rw [hcore]
      by_cases ha : (pos0.filter (matFilter mid)).any
          (fun po => decide (po.status ≠ "DELIVERED")) = true
      · rw [List.any_append, ha]
        rfl
      · have ha2 := bool_eq_false_of_not ha
        rw [capoNewPO_creates inv suppliers inv_state initial_by_mat today _ mid v
          invrow sup hf hs hr ha2]
        rw [List.any_append, ha2]
        simp
    rw [hcore st2 _ e2 d2, capoNewPO_none_of_open inv suppliers st2 initial_by_mat d2 _
      mid v hopen]
    simp

/-- Witness for the amended claim C7, spec Scenario D: remaining
requirement 120 for material M1, supplier lead time 5 days, no open PO;
the sweep creates exactly one PO of quantity 120 with eta day 5. -/
theorem C7_single_open_po_witness :
    ((List.filter (matFilter "M1") ([] : List PurchaseOrder)).any
        (fun po => decide (po.status ≠ "DELIVERED")) = false) ∧
    ((check_and_place_purchase_orders c7dOrders c7dBom c7dInv c7dSups [] [] [] [] 0).1.filter
        (matFilter "M1") =
      List.filter (matFilter "M1") ([] : List PurchaseOrder) ++
        [⟨"PO-" ++ "M1" ++ "-" ++ toString (0 : ℤ), "M1", "S1",
          120 - dget [] "M1" (dget [] "M1" (0 : ℤ)), 0, 0 + 5, "PLACED"⟩]) := by
  refine ⟨by decide, ?_⟩
  exact (C7_single_open_po c7dOrders c7dBom c7dInv c7dSups [] [] [] [] 0 "M1" 120
    ⟨"M1", "S1", 0⟩ ⟨"S1", "Supplier One", 5⟩ (by decide) (by decide) (by decide)
    (by decide)).1 (by decide)

/-! ### Allocation-sum lemmas (claim C1) -/

theorem foldl_add_qty (L : List OrderAllocation) :
    ∀ s : ℤ, L.foldl (fun s a => s + a.allocated_qty) s =
      s + (L.map (fun a => a.allocated_qty)).sum := by
  induction L with
  | nil => intro s; simp
  | cons a t ih =>
    intro s
    rw [List.foldl_cons, ih]
    simp only [List.map_cons, List.sum_cons]
    ring

theorem allocSum_eq (l : List OrderAllocation) (rid oid : String) :
    allocSum l rid oid =
      ((l.filter (fun a => decide (a.run_id = rid ∧ a.order_id = oid))).map
        (fun a => a.allocated_qty)).sum := by
  unfold allocSum
  rw [foldl_add_qty]
  simp

theorem allocSum_append (l1 l2 : List OrderAllocation) (rid oid : String) :
    allocSum (l1 ++ l2) rid oid = allocSum l1 rid oid + allocSum l2 rid oid := by
  simp [allocSum_eq, List.filter_append]

theorem sum_sublist_le : ∀ {l1 l2 : List ℤ}, l1.Sublist l2 → (∀ x ∈ l2, 0 ≤ x) →
    l1.sum ≤ l2.sum := by
  intro l1 l2 h
  induction h with
  | slnil => intro _; exact le_refl _
  | cons a h ih =>
    intro hn
    refine le_trans (ih (fun x hx => hn x (List.mem_cons_of_mem _ hx))) ?_
    simp only [List.sum_cons]
    have := hn a (List.mem_cons_self _ _)
    linarith
  | cons₂ a h ih =>
    intro hn
    simp only [List.sum_cons]
    exact add_le_add_left (ih (fun x hx => hn x (List.mem_cons_of_mem _ hx))) a

theorem allocSum_filter_le (l : List OrderAllocation) (p : OrderAllocation → Bool)
    (rid oid : String) (hn : ∀ a ∈ l, 0 ≤ a.allocated_qty) :
    allocSum (l.filter p) rid oid ≤ allocSum l rid oid := by
  rw [allocSum_eq, allocSum_eq]
  refine sum_sublist_le (List.Sublist.map _ (List.Sublist.filter _ (List.filter_sublist l)))
    ?_
  intro x hx
  simp only [List.mem_map] at hx
  obtain ⟨a, ha, he⟩ := hx
  rw [show x = a.allocated_qty from he.symm]
  exact hn a (List.mem_of_mem_filter ha)

theorem allocSum_zero_of_none (l : List OrderAllocation) (rid oid : String)
    (h : ∀ a ∈ l, ¬ (a.run_id = rid ∧ a.order_id = oid)) : allocSum l rid oid = 0 := by
  rw [allocSum_eq]
  have hnil : l.filter (fun a => decide (a.run_id = rid ∧ a.order_id = oid)) = [] := by
    rw [List.filter_eq_nil_iff]
    intro a ha
    simp only [decide_eq_true_eq]
    exact h a ha
  rw [hnil]
  rfl

theorem allocSum_all (l : List OrderAllocation) (rid oid : String)
    (h : ∀ a ∈ l, a.run_id = rid ∧ a.order_id = oid) :
    allocSum l rid oid = (l.map (fun a => a.allocated_qty)).sum := by
  rw [allocSum_eq]
  have hself : l.filter (fun a => decide (a.run_id = rid ∧ a.order_id = oid)) = l := by
    rw [List.filter_eq_self]
    intro a ha
    simp only [decide_eq_true_eq]
    exact h a ha
  rw [hself]

theorem mem_insertLE {α : Type} (le : α → α → Bool) (a x : α) :
    ∀ l : List α, x ∈ insertLE le a l → x = a ∨ x ∈ l := by
  intro l
  induction l with
  | nil =>
    intro h
    simp only [insertLE, List.mem_singleton] at h
    exact Or.inl h
  | cons b t ih =>
    intro h
    unfold insertLE at h
    by_cases hc : le a b = true
    · rw [if_pos hc] at h
      rcases List.mem_cons.mp h with rfl | h2
      · exact Or.inl rfl
      · exact Or.inr h2
    · rw [if_neg hc] at h
      rcases List.mem_cons.mp h with rfl | h2
      · exact Or.inr (List.mem_cons_self _ _)
      · rcases ih h2 with h3 | h3
        · exact Or.inl h3
        · exact Or.inr (List.mem_cons_of_mem _ h3)

theorem mem_isortLE {α : Type} (le : α → α → Bool) :
    ∀ l : List α, ∀ x ∈ isortLE le l, x ∈ l := by
  intro l
  induction l with
  | nil => intro x hx; exact absurd hx (List.not_mem_nil x)
  | cons h t ih =>
    intro x hx
    unfold isortLE at hx
    rcases mem_insertLE le h x _ hx with rfl | h2
    · exact List.mem_cons_self _ _
    · exact List.mem_cons_of_mem _ (ih x h2)

theorem mem_dset {α : Type} (k : String) (v : α) :
    ∀ l : List (String × α), ∀ p ∈ dset l k v, p ∈ l ∨ p = (k, v) := by
  intro l
  induction l with
  | nil =>
    intro p hp
    simp only [dset, List.mem_singleton] at hp
    exact Or.inr hp
  | cons q t ih =>
    obtain ⟨k1, v1⟩ := q
    intro p hp
    unfold dset at hp
    by_cases h1 : k1 = k
    · rw [if_pos h1] at hp
      rcases List.mem_cons.mp hp with rfl | h2
      · exact Or.inr rfl
      · exact Or.inl (List.mem_cons_of_mem _ h2)
    · rw [if_neg h1] at hp
      rcases List.mem_cons.mp hp with rfl | h2
      · exact Or.inl (List.mem_cons_self _ _)
      · rcases ih p h2 with h3 | h3
        · exact Or.inl (List.mem_cons_of_mem _ h3)
        · exact Or.inr h3

theorem dget_nonneg (l : List (String × ℤ)) (h : ∀ p ∈ l, 0 ≤ p.2) (k : String) :
    0 ≤ dget l k 0 := by
  induction l with
  | nil => exact le_refl 0
  | cons q t ih =>
    obtain ⟨k1, v1⟩ := q
    unfold dget
    by_cases h1 : k1 = k
    · rw [if_pos h1]
      exact h (k1, v1) (List.mem_cons_self _ _)
    · rw [if_neg h1]
      exact ih (fun p hp => h p (List.mem_cons_of_mem _ hp))

theorem dsum_nonneg (l : List (String × ℤ)) (h : ∀ p ∈ l, 0 ≤ p.2) : 0 ≤ dsum l := by
  unfold dsum
  refine List.sum_nonneg ?_
  intro x hx
  simp only [List.mem_map] at hx
  obtain ⟨p, hp, he⟩ := hx
  rw [show x = p.2 from he.symm]
  exact h p hp

theorem dget_dremove_ne {α : Type} (l : List (String × α)) (k k2 : String) (d : α)
    (h : k2 ≠ k) : dget (dremove l k) k2 d = dget l k2 d := by
  induction l with
  | nil => rfl
  | cons q t ih =>
    obtain ⟨k1, v1⟩ := q
    by_cases h1 : k1 = k
    · have hf : dremove ((k1, v1) :: t) k = dremove t k := by
        simp [dremove, h1]
      rw [hf, ih]
      have h2 : ¬ k1 = k2 := fun he => h (he ▸ h1)
      show dget t k2 d = (if k1 = k2 then v1 else dget t k2 d)
      rw [if_neg h2]
    · have hf : dremove ((k1, v1) :: t) k = (k1, v1) :: dremove t k := by
        simp [dremove, h1]
      rw [hf]
      show (if k1 = k2 then v1 else dget (dremove t k) k2 d) =
        (if k1 = k2 then v1 else dget t k2 d)
      by_cases h2 : k1 = k2
      · rw [if_pos h2, if_pos h2]
      · rw [if_neg h2, if_neg h2]
        exact ih

theorem dremove_not_mem {α : Type} (l : List (String × α)) (k : String)
    (h : k ∉ dkeys l) : dremove l k = l := by
  rw [dremove, List.filter_eq_self]
  intro p hp
  simp only [decide_not, Bool.not_eq_true', decide_eq_false_iff_not]
  intro he
  exact h (he ▸ List.mem_map.mpr ⟨p, hp, rfl⟩)

theorem dsum_split (l : List (String × ℤ)) (k : String) (hnd : (dkeys l).Nodup) :
    dsum l = dget l k 0 + dsum (dremove l k) := by
  induction l with
  | nil => simp [dsum, dget, dremove]
  | cons q t ih =>
    obtain ⟨k1, v1⟩ := q
    rw [dkeys, List.map_cons] at hnd
    have hnd2 : (dkeys t).Nodup := (List.nodup_cons.mp hnd).2
    have hhd : (k1, v1).1 ∉ List.map (fun p => p.1) t := (List.nodup_cons.mp hnd).1
    have hsum : dsum ((k1, v1) :: t) = v1 + dsum t := by
      simp [dsum]
    by_cases h1 : k1 = k
    · have hf : dremove ((k1, v1) :: t) k = dremove t k := by
        simp [dremove, h1]
      have hrt : dremove t k = t := by
        apply dremove_not_mem
        rw [← h1]
        exact hhd
      have hg : dget ((k1, v1) :: t) k 0 = v1 := by
        show (if k1 = k then v1 else dget t k 0) = v1
        rw [if_pos h1]
      rw [hsum, hf, hrt, hg]
    · have hf : dremove ((k1, v1) :: t) k = (k1, v1) :: dremove t k := by
        simp [dremove, h1]
      have hg : dget ((k1, v1) :: t) k 0 = dget t k 0 := by
        show (if k1 = k then v1 else dget t k 0) = dget t k 0
        rw [if_neg h1]
      have hsum2 : dsum ((k1, v1) :: dremove t k) = v1 + dsum (dremove t k) := by
        simp [dsum]
      rw [hsum, hf, hg, hsum2, ih hnd2]
      ring

theorem dm_fold_vals_nonneg (lc : List (String × ℚ)) (total : ℚ) (target : ℤ)
    (ol : List Line) : ∀ acc : List (String × ℤ) × ℤ, (∀ p ∈ acc.1, 0 ≤ p.2) →
    ∀ p ∈ (ol.foldl (dm_step lc total target) acc).1, 0 ≤ p.2 := by
  induction ol with
  | nil => intro acc h; exact h
  | cons ln t ih =>
    intro acc h
    rw [List.foldl_cons]
    refine ih _ ?_
    unfold dm_step
    split
    · exact h
    · simp only
      intro p hp
      rcases mem_dset _ _ acc.1 p hp with hm | he
      · exact h p hm
      · rw [he]
        exact add_nonneg (dget_nonneg acc.1 h ln.line_id) (le_max_left 0 _)

theorem fx_fold_vals_nonneg (ol : List Line) : ∀ acc : List (String × ℤ) × ℤ,
    (∀ p ∈ acc.1, 0 ≤ p.2) → ∀ p ∈ (ol.foldl fx_step acc).1, 0 ≤ p.2 := by
  induction ol with
  | nil => intro acc h; exact h
  | cons ln t ih =>
    intro acc h
    rw [List.foldl_cons]
    refine ih _ ?_
    unfold fx_step
    split
    · exact h
    · simp only
      intro p hp
      rcases mem_dset _ _ acc.1 p hp with hm | he
      · exact h p hm
      · rw [he]
        have := dget_nonneg acc.1 h ln.line_id
        simp only
        linarith

theorem dm_fold_keys_nodup (lc : List (String × ℚ)) (total : ℚ) (target : ℤ)
    (ol : List Line) : ∀ acc : List (String × ℤ) × ℤ, (dkeys acc.1).Nodup →
    (dkeys (ol.foldl (dm_step lc total target) acc).1).Nodup := by
  induction ol with
  | nil => intro acc h; exact h
  | cons ln t ih =>
    intro acc h
    rw [List.foldl_cons]
    refine ih _ ?_
    unfold dm_step
    split
    · exact h
    · exact dkeys_nodup_dset _ _ _ h

theorem fx_fold_keys_nodup (ol : List Line) : ∀ acc : List (String × ℤ) × ℤ,
    (dkeys acc.1).Nodup → (dkeys (ol.foldl fx_step acc).1).Nodup := by
  induction ol with
  | nil => intro acc h; exact h
  | cons ln t ih =>
    intro acc h
    rw [List.foldl_cons]
    refine ih _ ?_
    unfold fx_step
    split
    · exact h
    · exact dkeys_nodup_dset _ _ _ h

theorem picksum_le_dsum (ol : List Line) :
    ∀ af : List (String × ℤ),
    (ol.map (fun l => l.line_id)).Nodup →
    (∀ p ∈ af, 0 ≤ p.2) → (dkeys af).Nodup →
    (ol.map (fun ln => if dget af ln.line_id 0 ≤ 0 then 0 else dget af ln.line_id 0)).sum
      ≤ dsum af := by
  induction ol with
  | nil => intro af _ hnn _; simpa using dsum_nonneg af hnn
  | cons ln t ih =>
    intro af hnd hnn hknd
    rw [List.map_cons] at hnd
    have hnd2 := (List.nodup_cons.mp hnd).2
    have hhd := (List.nodup_cons.mp hnd).1
    simp only [List.map_cons, List.sum_cons]
    have hrm_nn : ∀ p ∈ dremove af ln.line_id, 0 ≤ p.2 :=
      fun p hp => hnn p (List.mem_of_mem_filter hp)
    have hrm_nd : (dkeys (dremove af ln.line_id)).Nodup :=
      List.Nodup.sublist (List.Sublist.map _ (List.filter_sublist af)) hknd
    have htail : (t.map (fun ln2 => if dget af ln2.line_id 0 ≤ 0 then 0
        else dget af ln2.line_id 0)).sum =
        (t.map (fun ln2 => if dget (dremove af ln.line_id) ln2.line_id 0 ≤ 0 then 0
        else dget (dremove af ln.line_id) ln2.line_id 0)).sum := by
      refine congrArg List.sum (List.map_congr_left ?_)
      intro ln2 h2
      have hne : ln2.line_id ≠ ln.line_id := by
        intro he
        exact hhd (he ▸ List.mem_map.mpr ⟨ln2, h2, rfl⟩)
      rw [dget_dremove_ne af ln.line_id ln2.line_id 0 hne]
    have hd0 : 0 ≤ dget af ln.line_id 0 := dget_nonneg af hnn ln.line_id
    have hhead : (if dget af ln.line_id 0 ≤ 0 then 0 else dget af ln.line_id 0) ≤
        dget af ln.line_id 0 := by
      split
      · exact hd0
      · exact le_refl _
    rw [htail, dsum_split af ln.line_id hknd]
    have hih := ih (dremove af ln.line_id) hnd2 hrm_nn hrm_nd
    linarith

/-- The allocation dict after the proportional split, with or without the
rounding fixup, sums to at most the target and holds only non-negative
values under distinct keys. -/
theorem dmfx_facts (ol sl : List Line) (lc : List (String × ℚ)) (total : ℚ)
    (target : ℤ) (ht : 0 ≤ target) (afd : List (String × ℤ) × ℤ)
    (hcase : afd = distributeMain ol lc total target ∨
      afd = fixupRemainder sl (distributeMain ol lc total target)) :
    dsum afd.1 ≤ target ∧ (∀ p ∈ afd.1, 0 ≤ p.2) ∧ (dkeys afd.1).Nodup := by
  have hdm_sum : dsum (distributeMain ol lc total target).1 +
      (distributeMain ol lc total target).2 = target := by
    unfold distributeMain
    have h := dm_fold_sum lc total target ol ([], target)
    rw [dsum_nil, zero_add] at h
    exact h
  have hdm_rem : 0 ≤ (distributeMain ol lc total target).2 := by
    unfold distributeMain
    exact dm_fold_rem_nonneg lc total target ol ([], target) (by simpa using ht)
  have hdm_nn : ∀ p ∈ (distributeMain ol lc total target).1, 0 ≤ p.2 := by
    unfold distributeMain
    exact dm_fold_vals_nonneg lc total target ol ([], target) (by simp)
  have hdm_nd : (dkeys (distributeMain ol lc total target).1).Nodup := by
    unfold distributeMain
    exact dm_fold_keys_nodup lc total target ol ([], target) (by simp [dkeys])
  rcases hcase with rfl | rfl
  · exact ⟨by linarith, hdm_nn, hdm_nd⟩
  · have hfx_sum : dsum (fixupRemainder sl (distributeMain ol lc total target)).1 +
        (fixupRemainder sl (distributeMain ol lc total target)).2 =
        dsum (distributeMain ol lc total target).1 +
          (distributeMain ol lc total target).2 := by
      unfold fixupRemainder
      exact fx_fold_sum sl _
    have hfx_rem : 0 ≤ (fixupRemainder sl (distributeMain ol lc total target)).2 := by
      unfold fixupRemainder
      rw [fx_fold_rem sl _ hdm_rem]
      exact le_max_left 0 _
    refine ⟨by linarith, ?_, ?_⟩
    · unfold fixupRemainder
      exact fx_fold_vals_nonneg sl _ hdm_nn
    · unfold fixupRemainder
      exact fx_fold_keys_nodup sl _ hdm_nd

/-- Projections of one creation step: plans are untouched; the
allocations table gains exactly the positive share of the line. -/
theorem createOne_proj (o : Order) (pid rid : String) (hs : ℤ)
    (af : List (String × ℤ)) (bl : List BOMItem) (cs : CreateState) (ln : Line) :
    (createOne o pid rid hs af bl cs ln).db.plans = cs.db.plans ∧
    (createOne o pid rid hs af bl cs ln).db.allocations =
      cs.db.allocations ++ (if dget af ln.line_id 0 ≤ 0 then ([] : List OrderAllocation)
        else [⟨rid, pid, o.order_id, ln.line_id, o.product_id, dget af ln.line_id 0,
          cs.db.next_item_id⟩]) := by
  by_cases hg : dget af ln.line_id 0 ≤ 0
  · simp only [createOne]
    rw [if_pos hg, if_pos hg]
    exact ⟨rfl, by simp⟩
  · simp only [createOne]
    rw [if_neg hg, if_neg hg]
    exact ⟨rfl, rfl⟩

/-- The creation loop of step 10.7 appends one allocation per line with a
positive share; every appended row carries the run and order ids and a
positive quantity, and the appended quantities sum to the positive picks
of the allocation dict over the candidate lines. -/
theorem createOne_fold (o : Order) (pid rid : String) (hs : ℤ)
    (af : List (String × ℤ)) (bl : List BOMItem) (ol : List Line) :
    ∀ cs : CreateState,
    ∃ news : List OrderAllocation,
      (ol.foldl (createOne o pid rid hs af bl) cs).db.allocations =
        cs.db.allocations ++ news ∧
      (ol.foldl (createOne o pid rid hs af bl) cs).db.plans = cs.db.plans ∧
      (∀ a ∈ news, a.run_id = rid ∧ a.order_id = o.order_id ∧ 0 < a.allocated_qty) ∧
      (news.map (fun a => a.allocated_qty)).sum =
        (ol.map (fun ln => if dget af ln.line_id 0 ≤ 0 then 0
          else dget af ln.line_id 0)).sum := by
  induction ol with
  | nil => intro cs; exact ⟨[], by simp, rfl, by simp, by simp⟩
  | cons ln t ih =>
    intro cs
    rw [List.foldl_cons]
    obtain ⟨news, h1, h2, h3, h4⟩ := ih (createOne o pid rid hs af bl cs ln)
    obtain ⟨hp, ha⟩ := createOne_proj o pid rid hs af bl cs ln
    by_cases hg : dget af ln.line_id 0 ≤ 0
    · refine ⟨news, ?_, ?_, h3, ?_⟩
      · rw [h1, ha, if_pos hg, List.append_nil]
      · rw [h2, hp]
      · rw [h4]
        simp only [List.map_cons, List.sum_cons, if_pos hg]
        ring
    · refine ⟨⟨rid, pid, o.order_id, ln.line_id, o.product_id, dget af ln.line_id 0,
          cs.db.next_item_id⟩ :: news, ?_, ?_, ?_, ?_⟩
      · rw [h1, ha, if_neg hg]
        simp
      · rw [h2, hp]
      · intro a hamem
        rcases List.mem_cons.mp hamem with rfl | h5
        · exact ⟨rfl, rfl, not_le.mp hg⟩
        · exact h3 a h5
      · simp only [List.map_cons, List.sum_cons, if_neg hg]
        rw [h4]

theorem if_log_event_allocations (c : Prop) [inst : Decidable c] (d : DB)
    (ty ms : String) :
    (if c then log_event d ty ms else d).allocations = d.allocations := by
  split
  · simp [log_event]
  · rfl

theorem if_log_event_plans (c : Prop) [inst : Decidable c] (d : DB) (ty ms : String) :
    (if c then log_event d ty ms else d).plans = d.plans := by
  split
  · simp [log_event]
  · rfl

/-- Per-order characterization of the allocator: it only ever appends
allocations, all keyed to the run and the order with positive
quantities; when it appends any, the order had no plan in the run yet,
it has one afterwards, and the appended quantities sum within the order
quantity, the capacity floor of the horizon and the inventory-derived
unit limit taken at the planned-usage ledger of that moment. -/
theorem processOrder_allocs (ctx : PlanCtx) (rid : String) (st : LoopState) (o : Order)
    (hlnd : (ctx.lines.map (fun l => l.line_id)).Nodup) :
    ∃ news : List OrderAllocation, ∃ pnews : List ProductPlan,
      (processOrder ctx rid st o).db.allocations = st.db.allocations ++ news ∧
      (processOrder ctx rid st o).db.plans = st.db.plans ++ pnews ∧
      (∀ a ∈ news, a.run_id = rid ∧ a.order_id = o.order_id ∧ 0 < a.allocated_qty) ∧
      (news = [] ∨
        ((news.map (fun a => a.allocated_qty)).sum ≤ o.quantity ∧
         (news.map (fun a => a.allocated_qty)).sum ≤
           pyInt (buildLineCapacity
             (ctx.lines.filter (fun l => decide (l.product_id = o.product_id)))
             (max 1 (o.dispatch_date.getD (ctx.today + ctx.horizon_days_default) -
               o.start_date.getD ctx.today))).2 ∧
         (news.map (fun a => a.allocated_qty)).sum ≤
           max_units_from_inventory
             (ctx.bom.filter (fun b => decide (b.product_id = o.product_id)))
             ctx.stock st.usage ∧
         st.db.plans.any (fun p => decide (p.plan_id = planIdOf rid o.order_id)) = false ∧
         (processOrder ctx rid st o).db.plans.any
           (fun p => decide (p.plan_id = planIdOf rid o.order_id)) = true)) := by
  by_cases h1 : (ctx.lines.filter
      (fun l => decide (l.product_id = o.product_id))).isEmpty = true
  · have hres : processOrder ctx rid st o = { st with db := (log_event st.db
        "NO_LINE_FOR_PRODUCT" ("No lines found for product " ++ o.product_id)) } := by
      rw [processOrder]
      simp only [h1, if_true]
    refine ⟨[], [], ?_, ?_, by simp, Or.inl rfl⟩
    · rw [hres]
      simp [log_event]
    · rw [hres]
      simp [log_event]
  · have h1f := bool_eq_false_of_not h1
    by_cases h2 : st.db.plans.any
        (fun p => decide (p.plan_id = planIdOf rid o.order_id)) = true
    · have hres : processOrder ctx rid st o = st := by
        rw [processOrder]
        simp only [h1f, Bool.false_eq_true, if_false, h2, if_true]
      refine ⟨[], [], ?_, ?_, by simp, Or.inl rfl⟩
      · rw [hres]
        simp
      · rw [hres]
        simp
    · have h2f := bool_eq_false_of_not h2
      by_cases h3 : (buildLineCapacity
          (ctx.lines.filter (fun l => decide (l.product_id = o.product_id)))
          (max 1 (o.dispatch_date.getD (ctx.today + ctx.horizon_days_default) -
            o.start_date.getD ctx.today))).2 ≤ 0
      · have hres : processOrder ctx rid st o = { st with db := (log_event
            { st.db with plans := st.db.plans ++
              [⟨planIdOf rid o.order_id, rid, ctx.today, "PLANNED"⟩] }
            "CAPACITY_SHORTFALL"
            ("Order " ++ o.order_id ++ " has no line capacity in horizon")) } := by
          rw [processOrder]
          simp only [h1f, Bool.false_eq_true, if_false, h2f, if_pos h3]
        refine ⟨[], [⟨planIdOf rid o.order_id, rid, ctx.today, "PLANNED"⟩],
          ?_, ?_, by simp, Or.inl rfl⟩
        · rw [hres]
          simp [log_event]
        · rw [hres]
          simp [log_event]
      · by_cases h4 : max_units_from_inventory
            (ctx.bom.filter (fun b => decide (b.product_id = o.product_id)))
            ctx.stock st.usage ≤ 0
        · have hres : processOrder ctx rid st o = { st with db := (log_event
              { st.db with plans := st.db.plans ++
                [⟨planIdOf rid o.order_id, rid, ctx.today, "PLANNED"⟩] }
              "INVENTORY_SHORTFALL"
              ("No inventory to plan product " ++ o.product_id)) } := by
            rw [processOrder]
            simp only [h1f, Bool.false_eq_true, if_false, h2f, if_neg h3, if_pos h4]
          refine ⟨[], [⟨planIdOf rid o.order_id, rid, ctx.today, "PLANNED"⟩],
            ?_, ?_, by simp, Or.inl rfl⟩
          · rw [hres]
            simp [log_event]
          · rw [hres]
            simp [log_event]
        · by_cases h5 : min (min o.quantity (pyInt (buildLineCapacity
              (ctx.lines.filter (fun l => decide (l.product_id = o.product_id)))
              (max 1 (o.dispatch_date.getD (ctx.today + ctx.horizon_days_default) -
                o.start_date.getD ctx.today))).2))
              (max_units_from_inventory
                (ctx.bom.filter (fun b => decide (b.product_id = o.product_id)))
                ctx.stock st.usage) ≤ 0
          · have hres : processOrder ctx rid st o = { st with db := (log_event
                { st.db with plans := st.db.plans ++
                  [⟨planIdOf rid o.order_id, rid, ctx.today, "PLANNED"⟩] }
                "CAPACITY_SHORTFALL"
                ("Order " ++ o.order_id ++ " capacity and inventory allow 0 units")) } := by
              rw [processOrder]
              simp only [h1f, Bool.false_eq_true, if_false, h2f, if_neg h3, if_neg h4,
                if_pos h5]
            refine ⟨[], [⟨planIdOf rid o.order_id, rid, ctx.today, "PLANNED"⟩],
              ?_, ?_, by simp, Or.inl rfl⟩
            · rw [hres]
              simp [log_event]
            · rw [hres]
              simp [log_event]
          · rw [processOrder]
            simp only [h1f, Bool.false_eq_true, if_false, h2f, if_neg h3, if_neg h4,
              if_neg h5]
            set OL2 := ctx.lines.filter (fun l => decide (l.product_id = o.product_id))
              with hOL2
            set HD2 := max 1 (o.dispatch_date.getD (ctx.today + ctx.horizon_days_default) -
              o.start_date.getD ctx.today) with hHD2
            set BC2 := buildLineCapacity OL2 HD2 with hBC2
            set BL2 := ctx.bom.filter (fun b => decide (b.product_id = o.product_id))
              with hBL2
            set MU2 := max_units_from_inventory BL2 ctx.stock st.usage with hMU2
            set TG2 := min (min o.quantity (pyInt BC2.2)) MU2 with hTG2
            set DM2 := distributeMain OL2 BC2.1 BC2.2 TG2 with hDM2
            set AF2 := if 0 < DM2.2 then
              fixupRemainder (isortLE (capDescLE BC2.1) OL2) DM2 else DM2 with hAF2
            set D1 := { st.db with plans := st.db.plans ++
              [(⟨planIdOf rid o.order_id, rid, ctx.today, "PLANNED"⟩ : ProductPlan)] }
              with hD1
            set D2 := if pyInt BC2.2 < o.quantity then log_event D1 "CAPACITY_SHORTFALL"
              ("Order " ++ o.order_id ++ " capacity limited") else D1 with hD2
            set D3 := if MU2 < o.quantity then log_event D2 "INVENTORY_SHORTFALL"
              ("Order " ++ o.order_id ++ " inventory limited") else D2 with hD3
            have hd3a : D3.allocations = st.db.allocations := by
              rw [hD3, if_log_event_allocations, hD2, if_log_event_allocations, hD1]
            have hd3p : D3.plans = st.db.plans ++
                [⟨planIdOf rid o.order_id, rid, ctx.today, "PLANNED"⟩] := by
              rw [hD3, if_log_event_plans, hD2, if_log_event_plans, hD1]
            obtain ⟨news, hna, hnp, hprops, hsum⟩ := createOne_fold o
              (planIdOf rid o.order_id) rid (o.start_date.getD ctx.today) AF2.1 BL2 OL2
              ⟨D3, st.usage, st.occ, 0⟩
            have hTGpos : 0 < TG2 := lt_of_not_le h5
            have hol_nd : (OL2.map (fun l => l.line_id)).Nodup :=
              List.Nodup.sublist (List.Sublist.map _ (List.filter_sublist ctx.lines)) hlnd
            obtain ⟨hafs, hafn, hafk⟩ := dmfx_facts OL2
              (isortLE (capDescLE BC2.1) OL2) BC2.1 BC2.2 TG2 hTGpos.le AF2
              (by
                by_cases hc : 0 < DM2.2
                · rw [hAF2, if_pos hc]
                  exact Or.inr rfl
                · rw [hAF2, if_neg hc]
                  exact Or.inl rfl)
            have hpick := picksum_le_dsum OL2 AF2.1 hol_nd hafn hafk
            have hsum_le : (news.map (fun a => a.allocated_qty)).sum ≤ TG2 := by
              rw [hsum]
              exact le_trans hpick hafs
            refine ⟨news, [⟨planIdOf rid o.order_id, rid, ctx.today, "PLANNED"⟩],
              ?_, ?_, hprops, Or.inr ⟨?_, ?_, ?_, trivial, ?_⟩⟩
            · rw [if_log_event_allocations, hna]
              show D3.allocations ++ news = st.db.allocations ++ news
              rw [hd3a]
            · rw [if_log_event_plans, hnp]
              show D3.plans = st.db.plans ++ _
              rw [hd3p]
            · exact le_trans hsum_le (le_trans (min_le_left _ _) (min_le_left _ _))
            · exact le_trans hsum_le (le_trans (min_le_left _ _) (min_le_right _ _))
            · exact le_trans hsum_le (min_le_right _ _)
            · rw [if_log_event_plans, hnp]
              show (D3.plans.any
                (fun p => decide (p.plan_id = planIdOf rid o.order_id))) = true
              rw [hd3p, List.any_append]
              simp

/-- Putting one order on hold preserves the allocation invariant: sums
only shrink and surviving allocations keep their plans. -/
theorem holdOrder_inv (os : List Order) (rid : String) (db : DB) (o : Order)
    (h : allocInvariant os rid db) : allocInvariant os rid (holdOrder rid db o) := by
  obtain ⟨hN, hB, hP⟩ := h
  have hallocs : (holdOrder rid db o).allocations = db.allocations.filter (fun a =>
      decide (¬ (a.run_id = rid ∧ a.order_id = o.order_id))) := rfl
  have hplans : (holdOrder rid db o).plans = db.plans.filter (fun p =>
      decide (p.plan_id ≠ planIdOf rid o.order_id)) := rfl
  refine ⟨?_, ?_, ?_⟩
  · intro a ha
    rw [hallocs] at ha
    exact hN a (List.mem_of_mem_filter ha)
  · intro oo hoo
    rw [hallocs]
    exact le_trans (allocSum_filter_le db.allocations _ rid oo.order_id hN) (hB oo hoo)
  · intro a ha harid
    rw [hallocs] at ha
    have hmem := List.mem_of_mem_filter ha
    have hpred := List.of_mem_filter ha
    simp only [decide_eq_true_eq] at hpred
    have hane : a.order_id ≠ o.order_id := fun he => hpred ⟨harid, he⟩
    have hany := hP a hmem harid
    obtain ⟨p, hpmem, hpp⟩ := List.any_eq_true.mp hany
    simp only [decide_eq_true_eq] at hpp
    rw [hplans]
    refine List.any_eq_true.mpr ⟨p, List.mem_filter.mpr ⟨hpmem, ?_⟩, by simp [hpp]⟩
    simp only [decide_eq_true_eq]
    rw [hpp]
    intro hcontra
    exact hane (planIdOf_inj rid a.order_id o.order_id hcontra)

/-- Spike preemption preserves the allocation invariant. -/
theorem spike_inv (os : List Order) (rid : String) (db : DB) (s : Order)
    (h : allocInvariant os rid db) :
    allocInvariant os rid (handle_spike_preemption db rid s) := by
  unfold handle_spike_preemption
  dsimp only
  split
  · exact h
  · exact foldl_preserves (allocInvariant os rid) (holdOrder rid)
      (fun d oo hd => holdOrder_inv os rid d oo hd) _ db h

/-- One allocator step preserves the allocation invariant when the order
processed is one of the listed orders and ids are unique. -/
theorem processOrder_inv (os : List Order) (ctx : PlanCtx) (rid : String)
    (hlnd : (ctx.lines.map (fun l => l.line_id)).Nodup)
    (hodnd : (os.map (fun o => o.order_id)).Nodup)
    (st : LoopState) (o : Order) (ho : o ∈ os)
    (h : allocInvariant os rid st.db) :
    allocInvariant os rid (processOrder ctx rid st o).db := by
  obtain ⟨hN, hB, hP⟩ := h
  obtain ⟨news, pnews, hna, hnp, hprops, hcase⟩ := processOrder_allocs ctx rid st o hlnd
  refine ⟨?_, ?_, ?_⟩
  · intro a ha
    rw [hna] at ha
    rcases List.mem_append.mp ha with hm | hm
    · exact hN a hm
    · exact le_of_lt (hprops a hm).2.2
  · intro oo hoo
    rw [hna, allocSum_append]
    by_cases hid : oo.order_id = o.order_id
    · rcases hcase with rfl | ⟨hq, _, _, hanyf, _⟩
      · rw [show allocSum [] rid oo.order_id = 0 from rfl, add_zero]
        exact hB oo hoo
      · have hold0 : allocSum st.db.allocations rid oo.order_id = 0 := by
          apply allocSum_zero_of_none
          intro a ha hcon
          have hany := hP a ha hcon.1
          rw [hcon.2, hid] at hany
          rw [hanyf] at hany
          exact Bool.noConfusion hany
        have hnews : allocSum news rid oo.order_id =
            (news.map (fun a => a.allocated_qty)).sum := by
          apply allocSum_all
          intro a ha
          refine ⟨(hprops a ha).1, ?_⟩
          rw [(hprops a ha).2.1]
          exact hid.symm
        rw [hold0, hnews, zero_add]
        have hoe : oo = o := nodup_map_inj (fun o => o.order_id) os hodnd oo hoo o ho hid
        rw [hoe]
        exact hq
    · have hz : allocSum news rid oo.order_id = 0 := by
        apply allocSum_zero_of_none
        intro a ha hcon
        refine hid ?_
        rw [← hcon.2]
        exact (hprops a ha).2.1
      rw [hz, add_zero]
      exact hB oo hoo
  · intro a ha harid
    rw [hna] at ha
    rw [hnp]
    rcases List.mem_append.mp ha with hm | hm
    · have hold := hP a hm harid
      rw [List.any_append, hold]
      rfl
    · rcases hcase with rfl | ⟨_, _, _, _, hanyt⟩
      · cases hm
      · rw [hnp] at hanyt
        rw [(hprops a hm).2.1]
        exact hanyt

/-- The per-order loop of step 10 preserves the allocation invariant
when every processed order is listed. -/
theorem processOrder_fold_inv (os : List Order) (ctx : PlanCtx) (rid : String)
    (hlnd : (ctx.lines.map (fun l => l.line_id)).Nodup)
    (hodnd : (os.map (fun o => o.order_id)).Nodup) :
    ∀ l : List Order, (∀ o ∈ l, o ∈ os) → ∀ st : LoopState,
    allocInvariant os rid st.db →
    allocInvariant os rid (l.foldl (processOrder ctx rid) st).db := by
  intro l
  induction l with
  | nil => intro _ st h; exact h
  | cons o t ih =>
    intro hsub st h
    rw [List.foldl_cons]
    exact ih (fun x hx => hsub x (List.mem_cons_of_mem _ hx)) _
      (processOrder_inv os ctx rid hlnd hodnd st o (hsub o (List.mem_cons_self _ _)) h)

/-- The whole planning pass preserves the allocation invariant of the
run it plans into. -/
theorem plan_pipeline_inv (db0 : DB) (now today hdd : ℤ)
    (hidnd : (db0.orders.map (fun o => o.order_id)).Nodup)
    (hlnd0 : (db0.lines.map (fun l => l.line_id)).Nodup)
    (hinv0 : allocInvariant db0.orders
      ((get_or_create_plan_run db0.runs now).1.run_id) db0) :
    allocInvariant db0.orders ((get_or_create_plan_run db0.runs now).1.run_id)
      (plan_all_open_orders db0 now today hdd).1 := by
  rw [plan_all_open_orders]
  by_cases hrc : (get_or_create_plan_run db0.runs now).2 = true
  · simp only [hrc, if_true]
    split
    · exact ⟨hinv0.1, hinv0.2.1, hinv0.2.2⟩
    · split
      · exact ⟨hinv0.1, hinv0.2.1, hinv0.2.2⟩
      · apply processOrder_fold_inv db0.orders _ _ _ hidnd
        · intro x hx
          have h2 := mem_isortLE orderLE _ x hx
          rcases List.mem_append.mp h2 with h3 | h3
          · exact List.mem_of_mem_filter
              (List.mem_of_mem_filter (List.mem_of_mem_filter h3))
          · exact List.mem_of_mem_filter
              (List.mem_of_mem_filter (List.mem_of_mem_filter h3))
        · exact foldl_preserves (allocInvariant db0.orders
            ((get_or_create_plan_run db0.runs now).1.run_id))
            (fun d s => handle_spike_preemption d
              ((get_or_create_plan_run db0.runs now).1.run_id) s)
            (fun d s hd => spike_inv db0.orders _ d s hd) _ _
            ⟨hinv0.1, hinv0.2.1, hinv0.2.2⟩
        · exact hlnd0
  · have hrcf := bool_eq_false_of_not hrc
    simp only [hrcf, Bool.false_eq_true, if_false]
    split
    · exact ⟨hinv0.1, hinv0.2.1, hinv0.2.2⟩
    · split
      · exact ⟨hinv0.1, hinv0.2.1, hinv0.2.2⟩
      · apply processOrder_fold_inv db0.orders _ _ _ hidnd
        · intro x hx
          have h2 := mem_isortLE orderLE _ x hx
          rcases List.mem_append.mp h2 with h3 | h3
          · exact List.mem_of_mem_filter
              (List.mem_of_mem_filter (List.mem_of_mem_filter h3))
          · exact List.mem_of_mem_filter
              (List.mem_of_mem_filter (List.mem_of_mem_filter h3))
        · exact foldl_preserves (allocInvariant db0.orders
            ((get_or_create_plan_run db0.runs now).1.run_id))
            (fun d s => handle_spike_preemption d
              ((get_or_create_plan_run db0.runs now).1.run_id) s)
            (fun d s hd => spike_inv db0.orders _ d s hd) _ _
            ⟨hinv0.1, hinv0.2.1, hinv0.2.2⟩
        · exact hlnd0

/-! ### Claim C1: allocation bounds -/

/-- Claim C1: with unique order and line ids and the run invariant of
the reachable states holding before the pass (non-negative allocation
quantities, run sums within order quantities, allocations of the run
backed by their run-and-order keyed plans), after plan_all_open_orders
every order's allocation sum in the run is still at most its quantity;
and the allocator step only appends run-and-order keyed positive
allocations whose sum is at most the order quantity, at most the floor
of the total effective line capacity over the order's horizon and at
most the inventory-derived unit limit computed at allocation time from
the planned-usage ledger of that moment, appending nothing for an order
whose plan already exists in the run. -/
theorem C1_allocation_bounds (db0 : DB) (now today hdd : ℤ)
    (hidnd : (db0.orders.map (fun o => o.order_id)).Nodup)
    (hlnd0 : (db0.lines.map (fun l => l.line_id)).Nodup)
    (hinv0 : allocInvariant db0.orders
      ((get_or_create_plan_run db0.runs now).1.run_id) db0) :
    (∀ o ∈ db0.orders,
      allocSum (plan_all_open_orders db0 now today hdd).1.allocations
        ((get_or_create_plan_run db0.runs now).1.run_id) o.order_id ≤ o.quantity) ∧
    (∀ (ctx : PlanCtx) (rid : String) (st : LoopState) (o : Order),
      (ctx.lines.map (fun l => l.line_id)).Nodup →
      ∃ news : List OrderAllocation,
        (processOrder ctx rid st o).db.allocations = st.db.allocations ++ news ∧
        (∀ a ∈ news, a.run_id = rid ∧ a.order_id = o.order_id ∧ 0 < a.allocated_qty) ∧
        (news = [] ∨
          ((news.map (fun a => a.allocated_qty)).sum ≤ o.quantity ∧
           (news.map (fun a => a.allocated_qty)).sum ≤
             pyInt (buildLineCapacity
               (ctx.lines.filter (fun l => decide (l.product_id = o.product_id)))
               (max 1 (o.dispatch_date.getD (ctx.today + ctx.horizon_days_default) -
                 o.start_date.getD ctx.today))).2 ∧
           (news.map (fun a => a.allocated_qty)).sum ≤
             max_units_from_inventory
               (ctx.bom.filter (fun b => decide (b.product_id = o.product_id)))
               ctx.stock st.usage ∧
           st.db.plans.any
             (fun p => decide (p.plan_id = planIdOf rid o.order_id)) = false))) := by
  constructor
  · exact fun o ho =>
      (plan_pipeline_inv db0 now today hdd hidnd hlnd0 hinv0).2.1 o ho
  · intro ctx rid st o hnd
    obtain ⟨news, pnews, hna, hnpl, hprops, hcase⟩ := processOrder_allocs ctx rid st o hnd
    refine ⟨news, hna, hprops, ?_⟩
    rcases hcase with h | h
    · exact Or.inl h
    · exact Or.inr ⟨h.1, h.2.1, h.2.2.1, h.2.2.2.1⟩

/-- Witness for claim C1: the single-order single-line database; the
hypotheses are decided concretely and the allocation bound is read off. -/
theorem C1_allocation_bounds_witness :
    (c1DB.orders.map (fun o => o.order_id)).Nodup ∧
    (∀ o ∈ c1DB.orders,
      allocSum (plan_all_open_orders c1DB 0 0 9).1.allocations
        ((get_or_create_plan_run c1DB.runs 0).1.run_id) o.order_id ≤ o.quantity) := by
  refine ⟨by decide, ?_⟩
  exact (C1_allocation_bounds c1DB 0 0 9 (by decide) (by decide)
    ⟨by decide, by decide, by decide⟩).1

/-! ### Plan-run lemmas (claim C5) -/

theorem lbr_fold_some (t : List PlanRun) : ∀ r : PlanRun,
    t.foldl (fun acc r =>
      match acc with
      | none => some r
      | some b => if b.created_at < r.created_at then some r else some b) (some r) ≠
      none := by
  induction t with
  | nil =>
    intro r h
    exact Option.noConfusion h
  | cons x t ih =>
    intro r
    rw [List.foldl_cons]
    show t.foldl _ (if r.created_at < x.created_at then some x else some r) ≠ none
    by_cases hc : r.created_at < x.created_at
    · rw [if_pos hc]
      exact ih x
    · rw [if_neg hc]
      exact ih r

theorem lbr_eq_none_iff (runs : List PlanRun) :
    latest_baseline_run runs = none ↔
      runs.filter (fun r => decide (r.scenario = "BASELINE")) = [] := by
  unfold latest_baseline_run
  cases hf : runs.filter (fun r => decide (r.scenario = "BASELINE")) with
  | nil => simp [hf]
  | cons r t =>
    rw [List.foldl_cons]
    constructor
    · intro h
      exact absurd h (lbr_fold_some t r)
    · intro h
      exact List.noConfusion h

theorem gocpr_new_iff (runs : List PlanRun) (now : ℤ) :
    (get_or_create_plan_run runs now).2 = true ↔
      runs.filter (fun r => decide (r.scenario = "BASELINE")) = [] := by
  unfold get_or_create_plan_run
  cases hl : latest_baseline_run runs with
  | none =>
    exact ⟨fun _ => (lbr_eq_none_iff runs).mp hl, fun _ => rfl⟩
  | some r =>
    refine ⟨fun h => Bool.noConfusion h, fun h => ?_⟩
    have h2 := (lbr_eq_none_iff runs).mpr h
    rw [hl] at h2
    exact Option.noConfusion h2

theorem gocpr_found (runs : List PlanRun) (now : ℤ) (r : PlanRun)
    (hl : latest_baseline_run runs = some r) :
    get_or_create_plan_run runs now = (r, false) := by
  unfold get_or_create_plan_run
  rw [hl]

theorem gocpr_created (runs : List PlanRun) (now : ℤ)
    (hl : latest_baseline_run runs = none) :
    get_or_create_plan_run runs now =
      (⟨"RUN-" ++ toString now, "BASELINE", now⟩, true) := by
  unfold get_or_create_plan_run
  rw [hl]

theorem countBaseline_append (l1 l2 : List PlanRun) :
    countBaseline (l1 ++ l2) = countBaseline l1 + countBaseline l2 := by
  simp [countBaseline, List.filter_append]

theorem if_log_event_runs (c : Prop) [inst : Decidable c] (d : DB) (ty ms : String) :
    (if c then log_event d ty ms else d).runs = d.runs := by
  split
  · simp [log_event]
  · rfl

theorem if_log_event_orders (c : Prop) [inst : Decidable c] (d : DB) (ty ms : String) :
    (if c then log_event d ty ms else d).orders = d.orders := by
  split
  · simp [log_event]
  · rfl

theorem if_log_event_items (c : Prop) [inst : Decidable c] (d : DB) (ty ms : String) :
    (if c then log_event d ty ms else d).items = d.items := by
  split
  · simp [log_event]
  · rfl

theorem if_log_event_next (c : Prop) [inst : Decidable c] (d : DB) (ty ms : String) :
    (if c then log_event d ty ms else d).next_item_id = d.next_item_id := by
  split
  · simp [log_event]
  · rfl

/-- Frame of one creation step on the item table: either untouched, or
one item appended carrying the running id which is then incremented. -/
theorem createOne_items (o : Order) (pid rid : String) (hs : ℤ)
    (af : List (String × ℤ)) (bl : List BOMItem) (cs : CreateState) (ln : Line) :
    (createOne o pid rid hs af bl cs ln).db.runs = cs.db.runs ∧
    (createOne o pid rid hs af bl cs ln).db.orders = cs.db.orders ∧
    ((createOne o pid rid hs af bl cs ln).db.items = cs.db.items ∧
      (createOne o pid rid hs af bl cs ln).db.next_item_id = cs.db.next_item_id ∨
     (∃ it : PlanItem,
       (createOne o pid rid hs af bl cs ln).db.items = cs.db.items ++ [it] ∧
       it.item_id = cs.db.next_item_id) ∧
      (createOne o pid rid hs af bl cs ln).db.next_item_id = cs.db.next_item_id + 1) := by
  by_cases hg : dget af ln.line_id 0 ≤ 0
  · simp only [createOne]
    rw [if_pos hg]
    exact ⟨rfl, rfl, Or.inl ⟨rfl, rfl⟩⟩
  · simp only [createOne]
    rw [if_neg hg]
    exact ⟨rfl, rfl, Or.inr ⟨⟨_, rfl, rfl⟩, rfl⟩⟩

/-- Frame of the creation loop: runs and orders untouched, the item
counter only grows, and the appended items carry fresh distinct ids. -/
theorem createOne_items_fold (o : Order) (pid rid : String) (hs : ℤ)
    (af : List (String × ℤ)) (bl : List BOMItem) (ol : List Line) :
    ∀ cs : CreateState,
    (ol.foldl (createOne o pid rid hs af bl) cs).db.runs = cs.db.runs ∧
    (ol.foldl (createOne o pid rid hs af bl) cs).db.orders = cs.db.orders ∧
    cs.db.next_item_id ≤ (ol.foldl (createOne o pid rid hs af bl) cs).db.next_item_id ∧
    (∃ inews : List PlanItem,
      (ol.foldl (createOne o pid rid hs af bl) cs).db.items = cs.db.items ++ inews ∧
      (∀ it ∈ inews, cs.db.next_item_id ≤ it.item_id ∧
        it.item_id < (ol.foldl (createOne o pid rid hs af bl) cs).db.next_item_id) ∧
      (inews.map (fun it => it.item_id)).Nodup) := by
  induction ol with
  | nil =>
    intro cs
    exact ⟨rfl, rfl, le_refl _, ⟨[], by simp, by simp, by simp⟩⟩
  | cons ln t ih =>
    intro cs
    rw [List.foldl_cons]
    obtain ⟨hr, ho2, hle, ⟨inews, hi1, hi2, hi3⟩⟩ := ih (createOne o pid rid hs af bl cs ln)
    obtain ⟨hcr, hco, hcase⟩ := createOne_items o pid rid hs af bl cs ln
    rcases hcase with ⟨hieq, hneq⟩ | ⟨⟨it, hit1, hit2⟩, hneq⟩
    · refine ⟨hr.trans hcr, ho2.trans hco, ?_, ⟨inews, ?_, ?_, hi3⟩⟩
      · rw [← hneq]
        exact hle
      · rw [hi1, hieq]
      · intro it2 hm
        have h3 := hi2 it2 hm
        rw [hneq] at h3
        exact h3
    · refine ⟨hr.trans hcr, ho2.trans hco, ?_, ⟨it :: inews, ?_, ?_, ?_⟩⟩
      · rw [hneq] at hle
        omega
      · rw [hi1, hit1]
        simp
      · intro it2 hm
        rcases List.mem_cons.mp hm with rfl | hm2
        · refine ⟨le_of_eq hit2.symm, ?_⟩
          rw [hneq] at hle
          rw [hit2]
          omega
        · obtain ⟨h3a, h3b⟩ := hi2 it2 hm2
          rw [hneq] at h3a
          exact ⟨by omega, h3b⟩
      · rw [List.map_cons, List.nodup_cons]
        refine ⟨?_, hi3⟩
        intro hmem
        obtain ⟨it2, hm2, he⟩ := List.mem_map.mp hmem
        obtain ⟨h3a, h3b⟩ := hi2 it2 hm2
        rw [hneq] at h3a
        rw [hit2] at he
        omega

/-- Frame of one allocator step: runs and orders are untouched, the item
counter only grows, at most one plan is appended (and only when no plan
with its key existed), and the appended items carry fresh distinct ids. -/
theorem processOrder_shape (ctx : PlanCtx) (rid : String) (st : LoopState) (o : Order) :
    (processOrder ctx rid st o).db.runs = st.db.runs ∧
    (processOrder ctx rid st o).db.orders = st.db.orders ∧
    st.db.next_item_id ≤ (processOrder ctx rid st o).db.next_item_id ∧
    (∃ pnews : List ProductPlan,
      (processOrder ctx rid st o).db.plans = st.db.plans ++ pnews ∧
      (pnews = [] ∨
        (pnews = [⟨planIdOf rid o.order_id, rid, ctx.today, "PLANNED"⟩] ∧
         st.db.plans.any
           (fun p => decide (p.plan_id = planIdOf rid o.order_id)) = false))) ∧
    (∃ inews : List PlanItem,
      (processOrder ctx rid st o).db.items = st.db.items ++ inews ∧
      (∀ it ∈ inews, st.db.next_item_id ≤ it.item_id ∧
        it.item_id < (processOrder ctx rid st o).db.next_item_id) ∧
      (inews.map (fun it => it.item_id)).Nodup) := by
  by_cases h1 : (ctx.lines.filter
      (fun l => decide (l.product_id = o.product_id))).isEmpty = true
  · have hres : processOrder ctx rid st o = { st with db := (log_event st.db
        "NO_LINE_FOR_PRODUCT" ("No lines found for product " ++ o.product_id)) } := by
      rw [processOrder]
      simp only [h1, if_true]
    rw [hres]
    exact ⟨by simp [log_event], by simp [log_event], by simp [log_event],
      ⟨[], by simp [log_event], Or.inl rfl⟩, ⟨[], by simp [log_event], by simp, by simp⟩⟩
  · have h1f := bool_eq_false_of_not h1
    by_cases h2 : st.db.plans.any
        (fun p => decide (p.plan_id = planIdOf rid o.order_id)) = true
    · have hres : processOrder ctx rid st o = st := by
        rw [processOrder]
        simp only [h1f, Bool.false_eq_true, if_false, h2, if_true]
      rw [hres]
      exact ⟨rfl, rfl, le_refl _, ⟨[], by simp, Or.inl rfl⟩, ⟨[], by simp, by simp, by simp⟩⟩
    · have h2f := bool_eq_false_of_not h2
      by_cases h3 : (buildLineCapacity
          (ctx.lines.filter (fun l => decide (l.product_id = o.product_id)))
          (max 1 (o.dispatch_date.getD (ctx.today + ctx.horizon_days_default) -
            o.start_date.getD ctx.today))).2 ≤ 0
      · have hres : processOrder ctx rid st o = { st with db := (log_event
            { st.db with plans := st.db.plans ++
              [⟨planIdOf rid o.order_id, rid, ctx.today, "PLANNED"⟩] }
            "CAPACITY_SHORTFALL"
            ("Order " ++ o.order_id ++ " has no line capacity in horizon")) } := by
          rw [processOrder]
          simp only [h1f, Bool.false_eq_true, if_false, h2f, if_pos h3]
        rw [hres]
        exact ⟨by simp [log_event], by simp [log_event], by simp [log_event],
          ⟨[⟨planIdOf rid o.order_id, rid, ctx.today, "PLANNED"⟩], by simp [log_event],
            Or.inr ⟨rfl, h2f⟩⟩,
          ⟨[], by simp [log_event], by simp, by simp⟩⟩
      · by_cases h4 : max_units_from_inventory
            (ctx.bom.filter (fun b => decide (b.product_id = o.product_id)))
            ctx.stock st.usage ≤ 0
        · have hres : processOrder ctx rid st o = { st with db := (log_event
              { st.db with plans := st.db.plans ++
                [⟨planIdOf rid o.order_id, rid, ctx.today, "PLANNED"⟩] }
              "INVENTORY_SHORTFALL"
              ("No inventory to plan product " ++ o.product_id)) } := by
            rw [processOrder]
            simp only [h1f, Bool.false_eq_true, if_false, h2f, if_neg h3, if_pos h4]
          rw [hres]
          exact ⟨by simp [log_event], by simp [log_event], by simp [log_event],
            ⟨[⟨planIdOf rid o.order_id, rid, ctx.today, "PLANNED"⟩], by simp [log_event],
              Or.inr ⟨rfl, h2f⟩⟩,
            ⟨[], by simp [log_event], by simp, by simp⟩⟩
        · by_cases h5 : min (min o.quantity (pyInt (buildLineCapacity
              (ctx.lines.filter (fun l => decide (l.product_id = o.product_id)))
              (max 1 (o.dispatch_date.getD (ctx.today + ctx.horizon_days_default) -
                o.start_date.getD ctx.today))).2))
              (max_units_from_inventory
                (ctx.bom.filter (fun b => decide (b.product_id = o.product_id)))
                ctx.stock st.usage) ≤ 0
          · have hres : processOrder ctx rid st o = { st with db := (log_event
                { st.db with plans := st.db.plans ++
                  [⟨planIdOf rid o.order_id, rid, ctx.today, "PLANNED"⟩] }
                "CAPACITY_SHORTFALL"
                ("Order " ++ o.order_id ++ " capacity and inventory allow 0 units")) } := by
              rw [processOrder]
              simp only [h1f, Bool.false_eq_true, if_false, h2f, if_neg h3, if_neg h4,
                if_pos h5]
            rw [hres]
            exact ⟨by simp [log_event], by simp [log_event], by simp [log_event],
              ⟨[⟨planIdOf rid o.order_id, rid, ctx.today, "PLANNED"⟩], by simp [log_event],
                Or.inr ⟨rfl, h2f⟩⟩,
              ⟨[], by simp [log_event], by simp, by simp⟩⟩
          · rw [processOrder]
            simp only [h1f, Bool.false_eq_true, if_false, h2f, if_neg h3, if_neg h4,
              if_neg h5]
            set OL2 := ctx.lines.filter (fun l => decide (l.product_id = o.product_id))
              with hOL2
            set HD2 := max 1 (o.dispatch_date.getD (ctx.today + ctx.horizon_days_default) -
              o.start_date.getD ctx.today) with hHD2
            set BC2 := buildLineCapacity OL2 HD2 with hBC2
            set BL2 := ctx.bom.filter (fun b => decide (b.product_id = o.product_id))
              with hBL2
            set MU2 := max_units_from_inventory BL2 ctx.stock st.usage with hMU2
            set TG2 := min (min o.quantity (pyInt BC2.2)) MU2 with hTG2
            set DM2 := distributeMain OL2 BC2.1 BC2.2 TG2 with hDM2
            set AF2 := if 0 < DM2.2 then
              fixupRemainder (isortLE (capDescLE BC2.1) OL2) DM2 else DM2 with hAF2
            set D1 := { st.db with plans := st.db.plans ++
              [(⟨planIdOf rid o.order_id, rid, ctx.today, "PLANNED"⟩ : ProductPlan)] }
              with hD1
            set D2 := if pyInt BC2.2 < o.quantity then log_event D1 "CAPACITY_SHORTFALL"
              ("Order " ++ o.order_id ++ " capacity limited") else D1 with hD2
            set D3 := if MU2 < o.quantity then log_event D2 "INVENTORY_SHORTFALL"
              ("Order " ++ o.order_id ++ " inventory limited") else D2 with hD3
            have hd3r : D3.runs = st.db.runs := by
              rw [hD3, if_log_event_runs, hD2, if_log_event_runs, hD1]
            have hd3o : D3.orders = st.db.orders := by
              rw [hD3, if_log_event_orders, hD2, if_log_event_orders, hD1]
            have hd3i : D3.items = st.db.items := by
              rw [hD3, if_log_event_items, hD2, if_log_event_items, hD1]
            have hd3n : D3.next_item_id = st.db.next_item_id := by
              rw [hD3, if_log_event_next, hD2, if_log_event_next, hD1]
            have hd3p : D3.plans = st.db.plans ++
                [⟨planIdOf rid o.order_id, rid, ctx.today, "PLANNED"⟩] := by
              rw [hD3, if_log_event_plans, hD2, if_log_event_plans, hD1]
            obtain ⟨hfr, hfo, hfn, ⟨inews, hfi1, hfi2, hfi3⟩⟩ := createOne_items_fold o
              (planIdOf rid o.order_id) rid (o.start_date.getD ctx.today) AF2.1 BL2 OL2
              ⟨D3, st.usage, st.occ, 0⟩
            obtain ⟨news, hna, hnp, hprops2, hsum⟩ := createOne_fold o
              (planIdOf rid o.order_id) rid (o.start_date.getD ctx.today) AF2.1 BL2 OL2
              ⟨D3, st.usage, st.occ, 0⟩
            refine ⟨?_, ?_, ?_, ⟨[⟨planIdOf rid o.order_id, rid, ctx.today, "PLANNED"⟩],
              ?_, Or.inr ⟨rfl, trivial⟩⟩, ⟨inews, ?_, ?_, hfi3⟩⟩
            · rw [if_log_event_runs, hfr]
              exact hd3r
            · rw [if_log_event_orders, hfo]
              exact hd3o
            · rw [if_log_event_next, ← hd3n]
              exact hfn
            · rw [if_log_event_plans, hnp]
              exact hd3p
            · rw [if_log_event_items, hfi1]
              show D3.items ++ inews = st.db.items ++ inews
              rw [hd3i]
            · intro it hm
              have h6 := hfi2 it hm
              rw [if_log_event_next, ← hd3n]
              exact h6

theorem processOrder_plans_nodup (ctx : PlanCtx) (rid : String) (st : LoopState)
    (o : Order) (h : (st.db.plans.map (fun p => p.plan_id)).Nodup) :
    ((processOrder ctx rid st o).db.plans.map (fun p => p.plan_id)).Nodup := by
  obtain ⟨-, -, -, ⟨pnews, hp1, hp2⟩, -⟩ := processOrder_shape ctx rid st o
  rcases hp2 with rfl | ⟨he, hany⟩
  · rw [hp1, List.append_nil]
    exact h
  · rw [hp1, he, List.map_append, List.nodup_append]
    refine ⟨h, List.nodup_singleton _, ?_⟩
    intro x hx hx2
    obtain ⟨p, hpm, hpe⟩ := List.mem_map.mp hx
    simp only [List.map_cons, List.map_nil, List.mem_singleton] at hx2
    have hnp := List.any_eq_false.mp hany p hpm
    simp only [decide_eq_true_eq] at hnp
    exact hnp (by rw [hpe, hx2])

theorem processOrder_items_inv (ctx : PlanCtx) (rid : String) (st : LoopState)
    (o : Order)
    (hb : ∀ it ∈ st.db.items, it.item_id < st.db.next_item_id)
    (hn : (st.db.items.map (fun it => it.item_id)).Nodup) :
    (∀ it ∈ (processOrder ctx rid st o).db.items,
      it.item_id < (processOrder ctx rid st o).db.next_item_id) ∧
    ((processOrder ctx rid st o).db.items.map (fun it => it.item_id)).Nodup := by
  obtain ⟨-, -, hle, -, ⟨inews, hi1, hi2, hi3⟩⟩ := processOrder_shape ctx rid st o
  constructor
  · intro it hm
    rw [hi1] at hm
    rcases List.mem_append.mp hm with hm2 | hm2
    · exact lt_of_lt_of_le (hb it hm2) hle
    · exact (hi2 it hm2).2
  · rw [hi1, List.map_append, List.nodup_append]
    refine ⟨hn, hi3, ?_⟩
    intro x hx hx2
    obtain ⟨it1, hm1, he1⟩ := List.mem_map.mp hx
    obtain ⟨it2, hm2, he2⟩ := List.mem_map.mp hx2
    have hx1 := hb it1 hm1
    have hx3 := (hi2 it2 hm2).1
    rw [he1] at hx1
    rw [he2] at hx3
    omega

theorem holdOrder_pres (rid : String) (db : DB) (o : Order) :
    (holdOrder rid db o).runs = db.runs ∧
    (holdOrder rid db o).plans.Sublist db.plans ∧
    (holdOrder rid db o).items.Sublist db.items ∧
    (holdOrder rid db o).next_item_id = db.next_item_id := by
  refine ⟨rfl, ?_, ?_, rfl⟩
  · exact List.filter_sublist db.plans
  · exact List.filter_sublist db.items

theorem spike_frame (rid : String) (s : Order) (d : DB) :
    (handle_spike_preemption d rid s).runs = d.runs ∧
    (handle_spike_preemption d rid s).plans.Sublist d.plans ∧
    (handle_spike_preemption d rid s).items.Sublist d.items ∧
    (handle_spike_preemption d rid s).next_item_id = d.next_item_id := by
  unfold handle_spike_preemption
  dsimp only
  split
  · exact ⟨rfl, List.Sublist.refl _, List.Sublist.refl _, rfl⟩
  · refine foldl_preserves (fun x => x.runs = d.runs ∧ x.plans.Sublist d.plans ∧
      x.items.Sublist d.items ∧ x.next_item_id = d.next_item_id) (holdOrder rid)
      ?_ _ d ⟨rfl, List.Sublist.refl _, List.Sublist.refl _, rfl⟩
    intro a b ha
    obtain ⟨h1, h2, h3, h4⟩ := ha
    obtain ⟨g1, g2, g3, g4⟩ := holdOrder_pres rid a b
    exact ⟨g1.trans h1, g2.trans h2, g3.trans h3, g4.trans h4⟩

theorem spikes_fold_frame (rid : String) (l : List Order) (d : DB) :
    (l.foldl (fun x s => handle_spike_preemption x rid s) d).runs = d.runs ∧
    (l.foldl (fun x s => handle_spike_preemption x rid s) d).plans.Sublist d.plans ∧
    (l.foldl (fun x s => handle_spike_preemption x rid s) d).items.Sublist d.items ∧
    (l.foldl (fun x s => handle_spike_preemption x rid s) d).next_item_id =
      d.next_item_id := by
  refine foldl_preserves (fun x => x.runs = d.runs ∧ x.plans.Sublist d.plans ∧
    x.items.Sublist d.items ∧ x.next_item_id = d.next_item_id)
    (fun x s => handle_spike_preemption x rid s)
    ?_ l d ⟨rfl, List.Sublist.refl _, List.Sublist.refl _, rfl⟩
  intro a b ha
  obtain ⟨h1, h2, h3, h4⟩ := ha
  obtain ⟨g1, g2, g3, g4⟩ := spike_frame rid b a
  exact ⟨g1.trans h1, g2.trans h2, g3.trans h3, g4.trans h4⟩

theorem po_fold_runs (ctx : PlanCtx) (rid : String) (l : List Order) (st : LoopState) :
    (l.foldl (processOrder ctx rid) st).db.runs = st.db.runs := by
  refine foldl_preserves (fun s2 => s2.db.runs = st.db.runs) (processOrder ctx rid)
    ?_ l st rfl
  intro a b ha
  rw [(processOrder_shape ctx rid a b).1]
  exact ha

theorem po_fold_plans_nodup (ctx : PlanCtx) (rid : String) (l : List Order)
    (st : LoopState) (h : (st.db.plans.map (fun p => p.plan_id)).Nodup) :
    ((l.foldl (processOrder ctx rid) st).db.plans.map (fun p => p.plan_id)).Nodup := by
  refine foldl_preserves (fun s2 => (s2.db.plans.map (fun p => p.plan_id)).Nodup)
    (processOrder ctx rid) ?_ l st h
  intro a b ha
  exact processOrder_plans_nodup ctx rid a b ha

theorem po_fold_items_inv (ctx : PlanCtx) (rid : String) (l : List Order)
    (st : LoopState)
    (hb : ∀ it ∈ st.db.items, it.item_id < st.db.next_item_id)
    (hn : (st.db.items.map (fun it => it.item_id)).Nodup) :
    (∀ it ∈ (l.foldl (processOrder ctx rid) st).db.items,
      it.item_id < (l.foldl (processOrder ctx rid) st).db.next_item_id) ∧
    ((l.foldl (processOrder ctx rid) st).db.items.map (fun it => it.item_id)).Nodup := by
  refine foldl_preserves (fun s2 =>
    (∀ it ∈ s2.db.items, it.item_id < s2.db.next_item_id) ∧
    (s2.db.items.map (fun it => it.item_id)).Nodup) (processOrder ctx rid)
    ?_ l st ⟨hb, hn⟩
  intro a b ha
  exact processOrder_items_inv ctx rid a b ha.1 ha.2

/-- Orders whose run-keyed ProductPlan already exists are skipped: the
allocator step leaves the whole state untouched. -/
theorem processOrder_skip (ctx : PlanCtx) (rid : String) (st : LoopState) (o : Order)
    (hl : (ctx.lines.filter (fun l => decide (l.product_id = o.product_id))).isEmpty
      = false)
    (ha : st.db.plans.any (fun p => decide (p.plan_id = planIdOf rid o.order_id))
      = true) :
    processOrder ctx rid st o = st := by
  rw [processOrder]
  simp only [hl, Bool.false_eq_true, if_false, ha, if_true]

/-- Projection frame of the whole planning pass: the returned run id is
the found-or-created run, the run table gains at most the created run,
and distinct plan ids and item ids stay distinct. -/
theorem plan_frame (db0 : DB) (now today hdd : ℤ) :
    (plan_all_open_orders db0 now today hdd).2 =
      (get_or_create_plan_run db0.runs now).1.run_id ∧
    (plan_all_open_orders db0 now today hdd).1.runs =
      (if (get_or_create_plan_run db0.runs now).2 = true
        then db0.runs ++ [(get_or_create_plan_run db0.runs now).1] else db0.runs) ∧
    ((db0.plans.map (fun p => p.plan_id)).Nodup →
      (((plan_all_open_orders db0 now today hdd).1.plans.map
        (fun p => p.plan_id)).Nodup)) ∧
    ((∀ it ∈ db0.items, it.item_id < db0.next_item_id) →
      (db0.items.map (fun it => it.item_id)).Nodup →
      (((plan_all_open_orders db0 now today hdd).1.items.map
        (fun it => it.item_id)).Nodup)) := by
  by_cases hrc : (get_or_create_plan_run db0.runs now).2 = true
  · rw [plan_all_open_orders]
    simp only [hrc, if_true]
    split
    · exact ⟨rfl, rfl, fun h => h, fun _ h => h⟩
    · split
      · exact ⟨rfl, rfl, fun h => h, fun _ h => h⟩
      · refine ⟨rfl, ?_, ?_, ?_⟩
        · rw [po_fold_runs]
          exact (spikes_fold_frame _ _ _).1
        · intro h
          refine po_fold_plans_nodup _ _ _ _ ?_
          exact List.Nodup.sublist
            (List.Sublist.map _ (spikes_fold_frame _ _ _).2.1) h
        · intro hb hn
          refine (po_fold_items_inv _ _ _ _ ?_ ?_).2
          · intro it hm
            rw [(spikes_fold_frame _ _ _).2.2.2]
            have hmm := (spikes_fold_frame _ _ _).2.2.1.subset hm
            exact hb it hmm
          · exact List.Nodup.sublist
              (List.Sublist.map _ (spikes_fold_frame _ _ _).2.2.1) hn
  · have hrcf := bool_eq_false_of_not hrc
    rw [plan_all_open_orders]
    simp only [hrcf, Bool.false_eq_true, if_false]
    split
    · exact ⟨rfl, rfl, fun h => h, fun _ h => h⟩
    · split
      · exact ⟨rfl, rfl, fun h => h, fun _ h => h⟩
      · refine ⟨rfl, ?_, ?_, ?_⟩
        · rw [po_fold_runs]
          exact (spikes_fold_frame _ _ _).1
        · intro h
          refine po_fold_plans_nodup _ _ _ _ ?_
          exact List.Nodup.sublist
            (List.Sublist.map _ (spikes_fold_frame _ _ _).2.1) h
        · intro hb hn
          refine (po_fold_items_inv _ _ _ _ ?_ ?_).2
          · intro it hm
            rw [(spikes_fold_frame _ _ _).2.2.2]
            have hmm := (spikes_fold_frame _ _ _).2.2.1.subset hm
            exact hb it hmm
          · exact List.Nodup.sublist
              (List.Sublist.map _ (spikes_fold_frame _ _ _).2.2.1) hn

/-- When every open order is already fully allocated in the run, the
pass leaves the planning tables untouched: fully allocated orders are
excluded from planning. -/
theorem plan_fully_allocated_noop (db0 : DB) (now today hdd : ℤ)
    (hfa : ∀ o ∈ db0.orders, o.status = "OPEN" →
      isFullyAllocated db0 ((get_or_create_plan_run db0.runs now).1.run_id)
        o.order_id = true) :
    (plan_all_open_orders db0 now today hdd).1.plans = db0.plans ∧
    (plan_all_open_orders db0 now today hdd).1.items = db0.items ∧
    (plan_all_open_orders db0 now today hdd).1.allocations = db0.allocations := by
  rw [plan_all_open_orders]
  by_cases hrc : (get_or_create_plan_run db0.runs now).2 = true
  · simp only [hrc, if_true]
    split
    · exact ⟨rfl, rfl, rfl⟩
    · split
      · exact ⟨rfl, rfl, rfl⟩
      · next h2 =>
        exfalso
        apply h2
        rw [List.isEmpty_iff, List.filter_eq_nil_iff]
        intro o ho
        have hmem := List.mem_of_mem_filter ho
        have hstat := List.of_mem_filter ho
        simp only [decide_eq_true_eq] at hstat
        intro hcontra
        rw [Bool.not_eq_true'] at hcontra
        have h4 : isFullyAllocated db0
            ((get_or_create_plan_run db0.runs now).1.run_id) o.order_id = false :=
          hcontra
        rw [hfa o hmem hstat] at h4
        exact Bool.noConfusion h4
  · have hrcf := bool_eq_false_of_not hrc
    simp only [hrcf, Bool.false_eq_true, if_false]
    split
    · exact ⟨rfl, rfl, rfl⟩
    · split
      · exact ⟨rfl, rfl, rfl⟩
      · next h2 =>
        exfalso
        apply h2
        rw [List.isEmpty_iff, List.filter_eq_nil_iff]
        intro o ho
        have hmem := List.mem_of_mem_filter ho
        have hstat := List.of_mem_filter ho
        simp only [decide_eq_true_eq] at hstat
        intro hcontra
        rw [Bool.not_eq_true'] at hcontra
        have h4 : isFullyAllocated db0
            ((get_or_create_plan_run db0.runs now).1.run_id) o.order_id = false :=
          hcontra
        rw [hfa o hmem hstat] at h4
        exact Bool.noConfusion h4

/-! ### Claim C5: idempotent re-planning and the unique baseline run -/

/-- Claim C5: a second planning pass with no new orders returns the same
run id; the BASELINE run is found or created and never duplicated (one
pass raises the baseline-run count to exactly max 1 of its old value and
a second pass keeps it); an order whose run-keyed ProductPlan exists is
skipped untouched; when all open orders are fully allocated the pass
creates no plans, items or allocations; and a pass never duplicates
ProductPlans or PlanItems: distinct plan ids and item ids stay
distinct. -/
theorem C5_idempotent_replan (db0 : DB) (now1 now2 today1 today2 hdd1 hdd2 : ℤ) :
    ((plan_all_open_orders (plan_all_open_orders db0 now1 today1 hdd1).1
        now2 today2 hdd2).2 = (plan_all_open_orders db0 now1 today1 hdd1).2) ∧
    (countBaseline (plan_all_open_orders db0 now1 today1 hdd1).1.runs =
      max 1 (countBaseline db0.runs)) ∧
    (countBaseline (plan_all_open_orders (plan_all_open_orders db0 now1 today1 hdd1).1
        now2 today2 hdd2).1.runs =
      countBaseline (plan_all_open_orders db0 now1 today1 hdd1).1.runs) ∧
    (∀ (ctx : PlanCtx) (rid : String) (st : LoopState) (o : Order),
      (ctx.lines.filter (fun l => decide (l.product_id = o.product_id))).isEmpty
        = false →
      st.db.plans.any (fun p => decide (p.plan_id = planIdOf rid o.order_id)) = true →
      processOrder ctx rid st o = st) ∧
    ((∀ o ∈ db0.orders, o.status = "OPEN" →
        isFullyAllocated db0 ((get_or_create_plan_run db0.runs now1).1.run_id)
          o.order_id = true) →
      ((plan_all_open_orders db0 now1 today1 hdd1).1.plans = db0.plans ∧
       (plan_all_open_orders db0 now1 today1 hdd1).1.items = db0.items ∧
       (plan_all_open_orders db0 now1 today1 hdd1).1.allocations = db0.allocations)) ∧
    ((db0.plans.map (fun p => p.plan_id)).Nodup →
      (((plan_all_open_orders db0 now1 today1 hdd1).1.plans.map
        (fun p => p.plan_id)).Nodup)) ∧
    ((∀ it ∈ db0.items, it.item_id < db0.next_item_id) →
      (db0.items.map (fun it => it.item_id)).Nodup →
      (((plan_all_open_orders db0 now1 today1 hdd1).1.items.map
        (fun it => it.item_id)).Nodup)) := by
  obtain ⟨hsnd1, hruns1, hpn1, hit1⟩ := plan_frame db0 now1 today1 hdd1
  obtain ⟨hsnd2, hruns2, hx2, hx3⟩ :=
    plan_frame (plan_all_open_orders db0 now1 today1 hdd1).1 now2 today2 hdd2
  have key :
      ((plan_all_open_orders (plan_all_open_orders db0 now1 today1 hdd1).1
          now2 today2 hdd2).2 = (plan_all_open_orders db0 now1 today1 hdd1).2) ∧
      (countBaseline (plan_all_open_orders db0 now1 today1 hdd1).1.runs =
        max 1 (countBaseline db0.runs)) ∧
      (countBaseline (plan_all_open_orders
          (plan_all_open_orders db0 now1 today1 hdd1).1 now2 today2 hdd2).1.runs =
        countBaseline (plan_all_open_orders db0 now1 today1 hdd1).1.runs) := by
    by_cases hrc : (get_or_create_plan_run db0.runs now1).2 = true
    · have hnone : latest_baseline_run db0.runs = none := by
        rcases hl : latest_baseline_run db0.runs with _ | r
        · rfl
        · rw [gocpr_found db0.runs now1 r hl] at hrc
          exact Bool.noConfusion hrc
      have hrc1 : get_or_create_plan_run db0.runs now1 =
          (⟨"RUN-" ++ toString now1, "BASELINE", now1⟩, true) :=
        gocpr_created db0.runs now1 hnone
      have hfilter0 : db0.runs.filter (fun r => decide (r.scenario = "BASELINE")) = [] :=
        (lbr_eq_none_iff db0.runs).mp hnone
      have hdb1runs : (plan_all_open_orders db0 now1 today1 hdd1).1.runs =
          db0.runs ++ [(get_or_create_plan_run db0.runs now1).1] := by
        rw [hruns1, if_pos hrc]
      have hfilter1 : (plan_all_open_orders db0 now1 today1 hdd1).1.runs.filter
          (fun r => decide (r.scenario = "BASELINE")) =
          [(⟨"RUN-" ++ toString now1, "BASELINE", now1⟩ : PlanRun)] := by
        rw [hdb1runs, hrc1, List.filter_append, hfilter0]
        simp
      have hlatest1 : latest_baseline_run
          (plan_all_open_orders db0 now1 today1 hdd1).1.runs =
          some ⟨"RUN-" ++ toString now1, "BASELINE", now1⟩ := by
        unfold latest_baseline_run
        rw [hfilter1]
        rfl
      have hrc2 : get_or_create_plan_run
          (plan_all_open_orders db0 now1 today1 hdd1).1.runs now2 =
          (⟨"RUN-" ++ toString now1, "BASELINE", now1⟩, false) :=
        gocpr_found _ now2 _ hlatest1
      have hnb2 : ¬ ((get_or_create_plan_run
          (plan_all_open_orders db0 now1 today1 hdd1).1.runs now2).2 = true) := by
        rw [hrc2]
        exact fun hx => Bool.noConfusion hx
      refine ⟨?_, ?_, ?_⟩
      · rw [hsnd2, hsnd1, hrc2, hrc1]
      · have hc0 : countBaseline db0.runs = 0 := by
          rw [countBaseline, hfilter0]
          rfl
        rw [hdb1runs, countBaseline_append, hc0, hrc1]
        simp [countBaseline]
      · rw [hruns2, if_neg hnb2]
    · rcases hl : latest_baseline_run db0.runs with _ | r
      · rw [gocpr_created db0.runs now1 hl] at hrc
        exact absurd rfl hrc
      · have hrc1 : get_or_create_plan_run db0.runs now1 = (r, false) :=
          gocpr_found db0.runs now1 r hl
        have hdb1runs : (plan_all_open_orders db0 now1 today1 hdd1).1.runs =
            db0.runs := by
          rw [hruns1, if_neg hrc]
        have hlatest1 : latest_baseline_run
            (plan_all_open_orders db0 now1 today1 hdd1).1.runs = some r := by
          rw [hdb1runs]
          exact hl
        have hrc2 : get_or_create_plan_run
            (plan_all_open_orders db0 now1 today1 hdd1).1.runs now2 = (r, false) :=
          gocpr_found _ now2 r hlatest1
        have hnb2 : ¬ ((get_or_create_plan_run
            (plan_all_open_orders db0 now1 today1 hdd1).1.runs now2).2 = true) := by
          rw [hrc2]
          exact fun hx => Bool.noConfusion hx
        refine ⟨?_, ?_, ?_⟩
        · rw [hsnd2, hsnd1, hrc2, hrc1]
        · have hne : db0.runs.filter (fun r => decide (r.scenario = "BASELINE")) ≠
              [] := by
            intro hx
            have hz := (lbr_eq_none_iff db0.runs).mpr hx
            rw [hl] at hz
            exact Option.noConfusion hz
          have hge : 1 ≤ countBaseline db0.runs := by
            rw [countBaseline]
            rcases hq : db0.runs.filter (fun r => decide (r.scenario = "BASELINE"))
              with _ | ⟨x, t⟩
            · exact absurd hq hne
            · rw [hq]
              simp
          rw [hdb1runs]
          exact (max_eq_right hge).symm
        · rw [hruns2, if_neg hnb2]
  exact ⟨key.1, key.2.1, key.2.2,
    fun ctx rid st o hlz haz => processOrder_skip ctx rid st o hlz haz,
    plan_fully_allocated_noop db0 now1 today1 hdd1, hpn1, hit1⟩

/-- Witness for claim C5: the single-order database; the second pass
returns the first pass's run id, and the first pass keeps plan ids
distinct. -/
theorem C5_idempotent_replan_witness :
    (c1DB.plans.map (fun p => p.plan_id)).Nodup ∧
    ((plan_all_open_orders (plan_all_open_orders c1DB 0 0 9).1 1 1 9).2 =
      (plan_all_open_orders c1DB 0 0 9).2) ∧
    (((plan_all_open_orders c1DB 0 0 9).1.plans.map (fun p => p.plan_id)).Nodup) := by
  have h := C5_idempotent_replan c1DB 0 1 0 1 9 9
  exact ⟨by decide, h.1, h.2.2.2.2.2.1 (by decide)⟩

end SuvPlant